import Mathlib

/-!
# go-readelf

A shallow embedding of `go-readelf.go` (one source file) and the properties of its
decode pipeline: name resolution against string pools, section-table loading,
symbol-table loading, relocation decoding and relocation-type naming.

Conventions of the embedding.

* The open file `elfFs.Fh` is the list of its bytes; every read is an offset-addressed
  read through an `io.SectionReader`.
* Go's unsigned machine integers are natural numbers, reduced with an explicit
  `% 2 ^ w` wherever the source computes in a fixed width (`u16`, `u32`, `u64`);
  `int64` values are integers.
* A Go run that ends in a runtime panic (`checkError`, an index or slice expression out
  of range, a failed type assertion) or in `os.Exit` is an `Except.error`; a run that
  returns normally is an `Except.ok` carrying the new state.
* `interface{}` fields keep their dynamic type as a constructor tag.
* The printing functions return the rows they print.
* The functions of Go's standard library the program calls (`io.NewSectionReader`,
  `io.ReadFull` through `binary.Read`, the decoder of `encoding/binary`, the `String`
  method of the relocation types of `debug/elf`) are embedded from the library; the
  record types, constants and helpers of `debug/elf` are modelled from the specification
  and say so. Allocation limits of `make` and memory exhaustion are not modelled.

The definitions come first, the theorems follow.
-/

namespace GoReadelf

/-! ## Bytes, strings, machine integers -/

/-- A byte of the file or of a string pool. -/
abbrev Byte := Fin 256

/-- Go `string`: a sequence of bytes. -/
abbrev GoString := List Byte

/-- The Go string of an ASCII literal of the source. -/
def str (s : String) : GoString := s.data.map (fun c => Fin.ofNat c.toNat)

/-- Conversion to `uint16`, and the result of `uint16` arithmetic. -/
def u16 (n : Nat) : Nat := n % 2 ^ 16

/-- Conversion to `uint32`, and the result of `uint32` arithmetic. -/
def u32 (n : Nat) : Nat := n % 2 ^ 32

/-- Conversion to `uint64`, and the result of `uint64` arithmetic. -/
def u64 (n : Nat) : Nat := n % 2 ^ 64

/-- Go `int64(x)` for an unsigned `x`: the low 64 bits read in two's complement. -/
def int64 (n : Nat) : Int :=
  if n % 2 ^ 64 < 2 ^ 63 then ((n % 2 ^ 64 : Nat) : Int) else ((n % 2 ^ 64 : Nat) : Int) - 2 ^ 64

/-- The result of `int64` arithmetic: the exact result wrapped into `[-2^63, 2^63)`. -/
def wrap64 (z : Int) : Int := (z + 2 ^ 63) % 2 ^ 64 - 2 ^ 63

/-- The largest `int64`. -/
def maxint64 : Int := 2 ^ 63 - 1

/-! ## Failures -/

/-- The errors a read through a section reader returns. -/
inductive ReadErr where
  | EOF
  | ErrUnexpectedEOF
  | negativeOffset
  deriving DecidableEq

/-- The runtime panics of the program. `read e` is `checkError` on a failed read,
`nilByteOrder` is a decode through the unset (nil) `Endianness`, `invalidType` is
`checkError` on the error `binary.Read` returns for a nil destination, `openError` is
`checkError` on a failed `os.Open`. -/
inductive Panic where
  | indexOutOfRange
  | sliceBounds
  | typeAssertion
  | nilByteOrder
  | read (e : ReadErr)
  | invalidType
  | openError
  deriving DecidableEq

/-- The ways a run ends without returning. `outOfFuel` is not a behaviour of the
program: it is what a loop of the embedding answers when its iteration budget is
used up, and the budgets are chosen so that it is never reached. -/
inductive Failure where
  | panic (p : Panic)
  | exit (code : Nat)
  | outOfFuel
  deriving DecidableEq

/-- Equality of results is decidable. -/
instance instDecidableEqExcept {ε α : Type} [DecidableEq ε] [DecidableEq α] :
    DecidableEq (Except ε α)
  | .ok a, .ok b =>
    if h : a = b then isTrue (congrArg Except.ok h)
    else isFalse (fun h2 => h (Except.ok.inj h2))
  | .error a, .error b =>
    if h : a = b then isTrue (congrArg Except.error h)
    else isFalse (fun h2 => h (Except.error.inj h2))
  | .ok _, .error _ => isFalse (fun h => Except.noConfusion h)
  | .error _, .ok _ => isFalse (fun h => Except.noConfusion h)

/-- The exit status `f` of the source. -/
def f : Nat := 1

/-- The symbol-table kind `dynSym` of the source. -/
def dynSym : Nat := 0xa

/-- The symbol-table kind `sym` of the source. -/
def sym : Nat := 0xb

/-- The index expression `l[i]`: a runtime panic when `i` is out of range. -/
def goIndex {α : Type} (l : List α) (i : Nat) : Except Failure α :=
  match l[i]? with
  | some a => .ok a
  | none => .error (.panic .indexOutOfRange)

/-- The slice expression `l[lo:hi]` of a slice whose capacity is its length: a runtime
panic unless `lo ≤ hi ≤ len(l)`. -/
def goSlice {α : Type} (l : List α) (lo hi : Nat) : Except Failure (List α) :=
  if lo ≤ hi ∧ hi ≤ l.length then .ok ((l.drop lo).take (hi - lo))
  else .error (.panic .sliceBounds)

/-- Run a fallible step on every element, in order; the first failure ends the run. -/
def mapExcept {α β : Type} (g : α → Except Failure β) : List α → Except Failure (List β)
  | [] => .ok []
  | a :: as =>
    match g a with
    | .error e => .error e
    | .ok b =>
      match mapExcept g as with
      | .error e => .error e
      | .ok bs => .ok (b :: bs)

/-! ## Go maps keyed by `uint32` -/

/-- A Go `map[uint32]α`: its entries, at most one per key. A nil map is the empty one
(the source only reads nil maps). -/
abbrev GoMap (α : Type) := List (Nat × α)

/-- The lookup `m[k]`, with `none` for an absent key. -/
def GoMap.get {α : Type} : GoMap α → Nat → Option α
  | [], _ => none
  | (k2, v) :: m, k => if k2 = k then some v else GoMap.get m k

/-- The assignment `m[k] = v`. -/
def GoMap.set {α : Type} : GoMap α → Nat → α → GoMap α
  | [], k, v => [(k, v)]
  | (k2, v2) :: m, k, v => if k2 = k then (k, v) :: m else (k2, v2) :: GoMap.set m k v

/-- The number of entries `len(m)`. -/
def GoMap.len {α : Type} (m : GoMap α) : Nat := m.length

/-! ## Name resolution (`getSectionName`, `getSymbolName`) -/

/-- The scan loop of `getSectionName`: `for end < uint32(len(tab)) { if tab[end] == 0
{ break }; end++ }`, where `limit` is `uint32(len(tab))`. The index expression
`tab[end]` panics when it is out of range. -/
def scanName (tab : List Byte) (limit : Nat) : Nat → Nat → Except Failure Nat
  | 0, _ => .error .outOfFuel
  | fuel + 1, e =>
    if e < limit then
      match goIndex tab e with
      | .error err => .error err
      | .ok b => if b = 0 then .ok e else scanName tab limit fuel (u32 (e + 1))
    else .ok e

/-- The function `getSectionName(sIndex, sectionShstrTab)`: scan from `sIndex` to the
first zero byte or to `uint32(len(sectionShstrTab))`, then return the bytes
`sectionShstrTab[sIndex:end]`. -/
def getSectionName (sIndex : Nat) (sectionShstrTab : List Byte) : Except Failure GoString :=
  match scanName sectionShstrTab (u32 sectionShstrTab.length)
      (sectionShstrTab.length + 1) sIndex with
  | .error err => .error err
  | .ok e => goSlice sectionShstrTab sIndex e

/-- The function `getSymbolName`, which delegates to `getSectionName`. -/
def getSymbolName (symIndex : Nat) (sectionStrtab : List Byte) : Except Failure GoString :=
  getSectionName symIndex sectionStrtab

/-- The null-terminated string of a pool at an offset, as the specification words it:
the bytes from the offset up to the first zero byte or the end of the pool. -/
def cstringAt (pool : List Byte) (offset : Nat) : GoString :=
  (pool.drop offset).takeWhile (fun b => b ≠ 0)

/-! ## Fixed-size decoding (`encoding/binary`) and section readers (`io`) -/

/-- The two byte orders of `encoding/binary`. -/
inductive ByteOrder where
  | LittleEndian
  | BigEndian
  deriving DecidableEq

/-- The unsigned integer a byte order reads from a run of bytes (`order.Uint16`,
`order.Uint32`, `order.Uint64`, and a single byte). -/
def ByteOrder.uint : ByteOrder → List Byte → Nat
  | .LittleEndian, bs => bs.foldr (fun b acc => b.val + 256 * acc) 0
  | .BigEndian, bs => bs.foldl (fun acc b => 256 * acc + b.val) 0

/-- The decoder of `binary.Read` on a struct of unsigned fields: the fields are decoded
one after the other, each from the next `w` bytes of the buffer. -/
def decodeFields (order : ByteOrder) : List Nat → List Byte → List Nat
  | [], _ => []
  | w :: ws, bs => order.uint (bs.take w) :: decodeFields order ws (bs.drop w)

/-- An `io.SectionReader` over the file `r`: the next read starts at `off`, and no read
goes to `limit` or beyond. -/
structure SectionReader where
  r : List Byte
  off : Int
  limit : Int
  deriving DecidableEq

/-- The constructor `io.NewSectionReader(r, off, n)`: the window starts at `off` and ends
at `off + n`, or at the largest `int64` when that sum overflows (the overflow check of
the current library; without it the sum wraps, which differs only when it overflows). -/
def NewSectionReader (r : List Byte) (off n : Int) : SectionReader :=
  let remaining := if off ≤ wrap64 (maxint64 - n) then wrap64 (n + off) else maxint64
  { r := r, off := off, limit := remaining }

/-- The call `io.ReadFull(sr, buf)` for a buffer of `size` bytes, as `binary.Read` makes
it: an empty buffer reads nothing; otherwise all `size` bytes must lie inside the window
and inside the file. A window already exhausted gives `EOF`, a negative file offset the
error of `ReadAt`, and a short read `EOF` (no byte read) or `ErrUnexpectedEOF`. -/
def SectionReader.ReadFull (s : SectionReader) (size : Nat) :
    Except ReadErr (List Byte × SectionReader) :=
  if size = 0 then .ok ([], s)
  else if s.limit ≤ s.off then .error .EOF
  else if s.off < 0 then .error .negativeOffset
  else
    let avail := min s.limit.toNat s.r.length - s.off.toNat
    if size ≤ avail then
      .ok ((s.r.drop s.off.toNat).take size, { s with off := s.off + (size : Int) })
    else if avail = 0 then .error .EOF
    else .error .ErrUnexpectedEOF

/-- The pair `binary.Read(sr, order, buf); checkError(err)` for a byte slice `buf` of
`n` bytes: no byte order is involved. -/
def readBytes (sr : SectionReader) (n : Nat) : Except Failure (List Byte) :=
  match sr.ReadFull n with
  | .error e => .error (.panic (.read e))
  | .ok (bs, _) => .ok bs

/-- The pair `binary.Read(sr, order, ptr); checkError(err)` for a pointer to a struct of
`E` bytes: the bytes are read first, then decoded through the byte order, which panics
when `Endianness` was left unset. -/
def readStruct {α : Type} (decode : ByteOrder → List Byte → α) (E : Nat) (sr : SectionReader)
    (order : Option ByteOrder) : Except Failure (α × SectionReader) :=
  match sr.ReadFull E with
  | .error e => .error (.panic (.read e))
  | .ok (bs, sr2) =>
    match order with
    | none => .error (.panic .nilByteOrder)
    | some o => .ok (decode o bs, sr2)

/-- Cut a buffer into `n` consecutive records of `E` bytes. -/
def chunks (E : Nat) : Nat → List Byte → List (List Byte)
  | 0, _ => []
  | n + 1, bs => bs.take E :: chunks E n (bs.drop E)

/-- The pair `binary.Read(sr, order, slice); checkError(err)` for a slice of `count`
structs of `E` bytes each: one read of `count * E` bytes, decoded record by record. -/
def readRecords {α : Type} (decode : ByteOrder → List Byte → α) (E : Nat) (sr : SectionReader)
    (order : Option ByteOrder) (count : Nat) : Except Failure (List α) :=
  match sr.ReadFull (count * E) with
  | .error e => .error (.panic (.read e))
  | .ok (bs, _) =>
    if count = 0 then .ok []
    else
      match order with
      | none => .error (.panic .nilByteOrder)
      | some o => .ok ((chunks E count bs).map (decode o))

/-! ## The records of `debug/elf` -/

/-- Modelled from the spec: the ELF header record (`elf.Header32`, `elf.Header64` of
Go's `debug/elf`, not part of the sources), with the fields of section 6 "Header". The
two widths have the same field names; they differ in the width of `Entry`, `Phoff` and
`Shoff`. All count and size fields are 16 bits wide. -/
structure Header where
  Ident : List Byte
  Typ : Nat
  Machine : Nat
  Version : Nat
  Entry : Nat
  Phoff : Nat
  Shoff : Nat
  Flags : Nat
  Ehsize : Nat
  Phentsize : Nat
  Phnum : Nat
  Shentsize : Nat
  Shnum : Nat
  Shstrndx : Nat
  deriving DecidableEq, Inhabited

/-- Modelled from the spec: the section header record (`elf.Section32`, `elf.Section64`),
with the fields of section 6 "Section header" in their on-disk order. -/
structure Section where
  Name : Nat
  Typ : Nat
  Flags : Nat
  Addr : Nat
  Off : Nat
  Size : Nat
  Link : Nat
  Info : Nat
  Addralign : Nat
  Entsize : Nat
  deriving DecidableEq, Inhabited

/-- Modelled from the spec: the symbol record (`elf.Sym32`, `elf.Sym64`), with the
fields of section 6 "Symbol". The on-disk order of the fields depends on the width and
is fixed by `decodeSym32` and `decodeSym64`. -/
structure Sym where
  Name : Nat
  Value : Nat
  Size : Nat
  Info : Nat
  Other : Nat
  Shndx : Nat
  deriving DecidableEq, Inhabited

/-- Modelled from the spec: a relocation record without addend (`elf.Rel32`,
`elf.Rel64`): offset and packed info. -/
structure Rel where
  Off : Nat
  Info : Nat
  deriving DecidableEq, Inhabited

/-- Modelled from the spec: a relocation record with addend (`elf.Rela32`,
`elf.Rela64`): offset, packed info and signed addend. -/
structure Rela where
  Off : Nat
  Info : Nat
  Addend : Int
  deriving DecidableEq, Inhabited

/-- Modelled from the spec: the size in bytes of a 32-bit symbol record, the value of
`symSize` in the 32-bit branch of `loadSymbols`. -/
def symSize32 : Nat := 16

/-- Modelled from the spec: the size in bytes of a 64-bit symbol record, the value of
`symSize` in the 64-bit branch of `loadSymbols`. -/
def symSize64 : Nat := 24

/-- Modelled from the spec: the layout of a 32-bit section header, ten 4-byte fields. -/
def decodeSection32 (order : ByteOrder) (bs : List Byte) : Section :=
  match decodeFields order [4, 4, 4, 4, 4, 4, 4, 4, 4, 4] bs with
  | [name, typ, flags, addr, off, size, link, info, addralign, entsize] =>
    { Name := name, Typ := typ, Flags := flags, Addr := addr, Off := off, Size := size,
      Link := link, Info := info, Addralign := addralign, Entsize := entsize }
  | _ => default

/-- Modelled from the spec: the layout of a 64-bit section header: name and type of 4
bytes, flags, address, offset and size of 8, link and info of 4, alignment and entry
size of 8. -/
def decodeSection64 (order : ByteOrder) (bs : List Byte) : Section :=
  match decodeFields order [4, 4, 8, 8, 8, 8, 4, 4, 8, 8] bs with
  | [name, typ, flags, addr, off, size, link, info, addralign, entsize] =>
    { Name := name, Typ := typ, Flags := flags, Addr := addr, Off := off, Size := size,
      Link := link, Info := info, Addralign := addralign, Entsize := entsize }
  | _ => default

/-- Modelled from the spec: the layout of a 32-bit symbol record: name-offset (4 bytes),
then value (4), size (4), info (1), other (1), section-index (2). -/
def decodeSym32 (order : ByteOrder) (bs : List Byte) : Sym :=
  match decodeFields order [4, 4, 4, 1, 1, 2] bs with
  | [name, value, size, info, other, shndx] =>
    { Name := name, Value := value, Size := size, Info := info, Other := other,
      Shndx := shndx }
  | _ => default

/-- Modelled from the spec: the layout of a 64-bit symbol record: name-offset (4 bytes),
then info (1), other (1), section-index (2), value (8), size (8). -/
def decodeSym64 (order : ByteOrder) (bs : List Byte) : Sym :=
  match decodeFields order [4, 1, 1, 2, 8, 8] bs with
  | [name, info, other, shndx, value, size] =>
    { Name := name, Value := value, Size := size, Info := info, Other := other,
      Shndx := shndx }
  | _ => default

/-! ## The state `elfFile` -/

/-- The class byte `elf.ELFCLASS32`. -/
def ELFCLASS32 : Nat := 1

/-- The class byte `elf.ELFCLASS64`. -/
def ELFCLASS64 : Nat := 2

/-- The struct `enumIdent`. `Endianness` is `none` while the interface value is nil. -/
structure enumIdent where
  Endianness : Option ByteOrder
  Arch : Nat
  Machine : Nat
  deriving DecidableEq

/-- The dynamic type and value of the field `Hdr interface{}`. -/
inductive HdrVal where
  | nil
  | Header32 (h : Header)
  | Header64 (h : Header)
  deriving DecidableEq

/-- The dynamic type and value of the field `Section interface{}`. -/
inductive SectionsVal where
  | nil
  | Section32 (s : List Section)
  | Section64 (s : List Section)
  deriving DecidableEq

/-- The struct `shdrTble`. -/
structure shdrTble where
  Section : SectionsVal
  SectionName : List GoString
  deriving DecidableEq

/-- The dynamic type and value of a symbol-map entry (`*elf.Sym32` or `*elf.Sym64`). -/
inductive SymVal where
  | Sym32 (s : Sym)
  | Sym64 (s : Sym)
  deriving DecidableEq

/-- The record a symbol-map entry points to. -/
def SymVal.sym : SymVal → Sym
  | .Sym32 s => s
  | .Sym64 s => s

/-- The dynamic type and value of a relocation-map entry. -/
inductive RelsVal where
  | Rel32 (r : List Rel)
  | Rela32 (r : List Rela)
  | Rel64 (r : List Rel)
  | Rela64 (r : List Rela)
  deriving DecidableEq

/-- The struct `elfFile`, without the fields the program never reads (`err`,
`ElfSymbols`, `Size`). `Fh` is the content of the open file. -/
structure elfFile where
  Fh : List Byte
  Ident : List Byte
  FileHdr : enumIdent
  Hdr : HdrVal
  ElfSections : shdrTble
  Symbols : GoMap SymVal
  SymbolsName : GoMap GoString
  DynSymbols : GoMap SymVal
  DynSymbolsName : GoMap GoString
  Rels : GoMap RelsVal
  deriving DecidableEq

/-- The type assertion `x.([]elf.Section32)`. -/
def asSection32 : SectionsVal → Except Failure (List Section)
  | .Section32 s => .ok s
  | _ => .error (.panic .typeAssertion)

/-- The type assertion `x.([]elf.Section64)`. -/
def asSection64 : SectionsVal → Except Failure (List Section)
  | .Section64 s => .ok s
  | _ => .error (.panic .typeAssertion)

/-- The type assertion `symbol.(*elf.Sym32)` on the result of a map lookup. -/
def asSym32 : Option SymVal → Except Failure Sym
  | some (.Sym32 s) => .ok s
  | _ => .error (.panic .typeAssertion)

/-- The type assertion `symbol.(*elf.Sym64)` on the result of a map lookup. -/
def asSym64 : Option SymVal → Except Failure Sym
  | some (.Sym64 s) => .ok s
  | _ => .error (.panic .typeAssertion)

/-! ## Section table (`getSections`) -/

/-- The expression `h.Shentsize * h.Shnum` of `getSections`, a product of two `uint16`
values computed in `uint16`: the byte span of the section header table the reader is
opened with. -/
def shdrTableSize (h : Header) : Nat := u16 (h.Shentsize * h.Shnum)

/-- The loop of `getSections` that resolves the name of every section, in index order. -/
def sectionNames (secs : List Section) (shstrtab : List Byte) : Except Failure (List GoString) :=
  mapExcept (fun s => getSectionName s.Name shstrtab) secs

/-- The 64-bit branch of `getSections` (lines 116-138). -/
def getSections64 (elfFs : elfFile) (h : Header) : Except Failure elfFile := do
  let sr := NewSectionReader elfFs.Fh (int64 h.Shoff) (int64 (shdrTableSize h))
  let secs ← readRecords decodeSection64 64 sr elfFs.FileHdr.Endianness h.Shnum
  let strSec ← goIndex secs h.Shstrndx
  let shstrtabOff := strSec.Off
  let shstrtabSize := strSec.Size
  let shstrtabSec := NewSectionReader elfFs.Fh (int64 shstrtabOff)
    (wrap64 (int64 shstrtabSize + int64 shstrtabOff))
  let shstrtab ← readBytes shstrtabSec shstrtabSize
  let names ← sectionNames secs shstrtab
  pure { elfFs with ElfSections := { Section := .Section64 secs, SectionName := names } }

/-- The 32-bit branch of `getSections` (lines 140-163). -/
def getSections32 (elfFs : elfFile) (h : Header) : Except Failure elfFile := do
  let sr := NewSectionReader elfFs.Fh (int64 h.Shoff) (int64 (shdrTableSize h))
  let secs ← readRecords decodeSection32 40 sr elfFs.FileHdr.Endianness h.Shnum
  let strSec ← goIndex secs h.Shstrndx
  let shstrtabOff := strSec.Off
  let shstrtabSize := strSec.Size
  let shstrTableEnd := u32 (shstrtabOff + shstrtabSize)
  let shstrtabSec := NewSectionReader elfFs.Fh (int64 shstrtabOff) (int64 shstrTableEnd)
  let shstrtab ← readBytes shstrtabSec shstrtabSize
  let names ← sectionNames secs shstrtab
  pure { elfFs with ElfSections := { Section := .Section32 secs, SectionName := names } }

/-- The method `getSections`: the branch of the header's dynamic type runs; a nil header
runs neither. -/
def getSections (elfFs : elfFile) : Except Failure elfFile :=
  match elfFs.Hdr with
  | .Header64 h => getSections64 elfFs h
  | .Header32 h => getSections32 elfFs h
  | .nil => .ok elfFs

/-! ## Symbol tables (`loadSymbols`) -/

/-- The symbol loop of `loadSymbols`, the same in its four copies up to the record type
and the pair of maps it fills:
`for symNdx := uint32(0); symNdx < numSymbols; symNdx++ { read one record; store it
under symNdx; store its resolved name under its name offset }`.
The counter is a `uint32` and wraps. -/
def symLoop (decode : ByteOrder → List Byte → SymVal) (E : Nat) (order : Option ByteOrder)
    (strtab : List Byte) (numSymbols : Nat) :
    Nat → Nat → SectionReader → GoMap SymVal → GoMap GoString →
      Except Failure (GoMap SymVal × GoMap GoString)
  | 0, _, _, _, _ => .error .outOfFuel
  | fuel + 1, symNdx, sr, syms, names =>
    if symNdx < numSymbols then
      match readStruct decode E sr order with
      | .error e => .error e
      | .ok (symEntry, sr2) =>
        match getSymbolName symEntry.sym.Name strtab with
        | .error e => .error e
        | .ok nm =>
          symLoop decode E order strtab numSymbols fuel (u32 (symNdx + 1)) sr2
            (syms.set symNdx symEntry) (names.set symEntry.sym.Name nm)
    else .ok (syms, names)

/-- The string pool `loadSymbols` reads for the 32-bit width: the bytes of section
`symstrNdx`, through a reader of length `int64(strtabOff + strtabSize)`, the sum being
computed in `uint32`. -/
def loadStrtab32 (elfFs : elfFile) (secs : List Section) (symstrNdx : Nat) :
    Except Failure (List Byte) := do
  let strSec ← goIndex secs symstrNdx
  let strtabOff := strSec.Off
  let strtabSize := strSec.Size
  let n := int64 (u32 (strtabOff + strtabSize))
  let shstrtabSec := NewSectionReader elfFs.Fh (int64 strtabOff) n
  readBytes shstrtabSec strtabSize

/-- The string pool `loadSymbols` reads for the 64-bit width; the sum is computed in
`uint64`. -/
def loadStrtab64 (elfFs : elfFile) (secs : List Section) (symstrNdx : Nat) :
    Except Failure (List Byte) := do
  let strSec ← goIndex secs symstrNdx
  let strtabOff := strSec.Off
  let strtabSize := strSec.Size
  let n := int64 (u64 (strtabOff + strtabSize))
  let shstrtabSec := NewSectionReader elfFs.Fh (int64 strtabOff) n
  readBytes shstrtabSec strtabSize

/-- The case `elf.ELFCLASS32` of `loadSymbols` (lines 194-240). -/
def loadSymbols32 (elfFs : elfFile) (sectionNdx symstrNdx symType : Nat) :
    Except Failure elfFile := do
  let secs ← asSection32 elfFs.ElfSections.Section
  let sec ← goIndex secs sectionNdx
  let symtabSize := sec.Size
  let numSymbols := symtabSize / symSize32
  let off := sec.Off
  let strtab ← loadStrtab32 elfFs secs symstrNdx
  let elfFs ←
    if symType = sym then do
      let n := int64 (u32 (off + symtabSize))
      let sr := NewSectionReader elfFs.Fh (int64 off) n
      let (syms, names) ← symLoop (fun o bs => .Sym32 (decodeSym32 o bs)) symSize32
        elfFs.FileHdr.Endianness strtab numSymbols (elfFs.Fh.length + 1) 0 sr [] []
      pure { elfFs with Symbols := syms, SymbolsName := names }
    else pure elfFs
  if symType = dynSym then do
    let n := int64 (u32 (off + symtabSize))
    let sr := NewSectionReader elfFs.Fh (int64 off) n
    let (syms, names) ← symLoop (fun o bs => .Sym32 (decodeSym32 o bs)) symSize32
      elfFs.FileHdr.Endianness strtab numSymbols (elfFs.Fh.length + 1) 0 sr [] []
    pure { elfFs with DynSymbols := syms, DynSymbolsName := names }
  else pure elfFs

/-- The case `elf.ELFCLASS64` of `loadSymbols` (lines 242-288). -/
def loadSymbols64 (elfFs : elfFile) (sectionNdx symstrNdx symType : Nat) :
    Except Failure elfFile := do
  let secs ← asSection64 elfFs.ElfSections.Section
  let sec ← goIndex secs sectionNdx
  let symtabSize := sec.Size
  let numSymbols := symtabSize / symSize64
  let off := sec.Off
  let strtab ← loadStrtab64 elfFs secs symstrNdx
  let elfFs ←
    if symType = sym then do
      let n := int64 (u64 (off + symtabSize))
      let sr := NewSectionReader elfFs.Fh (int64 off) n
      let (syms, names) ← symLoop (fun o bs => .Sym64 (decodeSym64 o bs)) symSize64
        elfFs.FileHdr.Endianness strtab numSymbols (elfFs.Fh.length + 1) 0 sr [] []
      pure { elfFs with Symbols := syms, SymbolsName := names }
    else pure elfFs
  if symType = dynSym then do
    let n := int64 (u64 (off + symtabSize))
    let sr := NewSectionReader elfFs.Fh (int64 off) n
    let (syms, names) ← symLoop (fun o bs => .Sym64 (decodeSym64 o bs)) symSize64
      elfFs.FileHdr.Endianness strtab numSymbols (elfFs.Fh.length + 1) 0 sr [] []
    pure { elfFs with DynSymbols := syms, DynSymbolsName := names }
  else pure elfFs

/-- The method `loadSymbols`: a switch on `FileHdr.Arch` without a default case. -/
def loadSymbols (elfFs : elfFile) (sectionNdx symstrNdx symType : Nat) :
    Except Failure elfFile :=
  if elfFs.FileHdr.Arch = ELFCLASS32 then loadSymbols32 elfFs sectionNdx symstrNdx symType
  else if elfFs.FileHdr.Arch = ELFCLASS64 then loadSymbols64 elfFs sectionNdx symstrNdx symType
  else .ok elfFs

/-! ## Relocation-type names (`resolveRelocType`) -/

/-- The machine type `elf.EM_386`. -/
def EM_386 : Nat := 3

/-- The machine type `elf.EM_MIPS`. -/
def EM_MIPS : Nat := 8

/-- The machine type `elf.EM_PPC`. -/
def EM_PPC : Nat := 20

/-- The machine type `elf.EM_PPC64`. -/
def EM_PPC64 : Nat := 21

/-- The machine type `elf.EM_S390`. -/
def EM_S390 : Nat := 22

/-- The machine type `elf.EM_ARM`. -/
def EM_ARM : Nat := 40

/-- The machine type `elf.EM_SPARCV9`. -/
def EM_SPARCV9 : Nat := 43

/-- The machine type `elf.EM_X86_64`. -/
def EM_X86_64 : Nat := 62

/-- The machine type `elf.EM_AARCH64`. -/
def EM_AARCH64 : Nat := 183

/-- The machine type `elf.EM_RISCV`. -/
def EM_RISCV : Nat := 243

/-- The relocation-type tables of `debug/elf`, one per covered machine: each lists the
defined codes with their names, in increasing order of code. The tables are not part of
the sources and are a parameter of the embedding. -/
structure RelocTables where
  rx86_64Strings : List (Nat × String)
  r386Strings : List (Nat × String)
  rarmStrings : List (Nat × String)
  raarch64Strings : List (Nat × String)
  rppcStrings : List (Nat × String)
  rppc64Strings : List (Nat × String)
  rmipsStrings : List (Nat × String)
  rriscvStrings : List (Nat × String)
  r390Strings : List (Nat × String)
  rsparcStrings : List (Nat × String)

/-- The function `stringName(i, names, false)` of `debug/elf`, the `String` method of
every relocation type and so what `fmt.Sprintf("%s", elf.R_X86_64(rType))` returns: the
name of the code when the table defines it; otherwise the name of the last entry with a
smaller code followed by `+` and the difference in decimal; otherwise the code in
decimal. -/
def stringName (i : Nat) (names : List (Nat × String)) : String :=
  match names.find? (fun n => n.1 = i) with
  | some n => n.2
  | none =>
    match names.reverse.find? (fun n => n.1 < i) with
    | some n => n.2 ++ "+" ++ Nat.repr (i - n.1)
    | none => Nat.repr i

/-- The function `resolveRelocType(rType, mType)`. -/
def resolveRelocType (T : RelocTables) (rType : Nat) (mType : Nat) : String :=
  if mType = EM_X86_64 then stringName rType T.rx86_64Strings
  else if mType = EM_386 then stringName rType T.r386Strings
  else if mType = EM_ARM then stringName rType T.rarmStrings
  else if mType = EM_AARCH64 then stringName rType T.raarch64Strings
  else if mType = EM_PPC then stringName rType T.rppcStrings
  else if mType = EM_PPC64 then stringName rType T.rppc64Strings
  else if mType = EM_MIPS then stringName rType T.rmipsStrings
  else if mType = EM_RISCV then stringName rType T.rriscvStrings
  else if mType = EM_S390 then stringName rType T.r390Strings
  else if mType = EM_SPARCV9 then stringName rType T.rsparcStrings
  else "R_UNKNOWN"

/-- Modelled from the spec: the symbol index of a 32-bit info word, its high 24 bits
(`elf.R_SYM32`). -/
def R_SYM32 (info : Nat) : Nat := info >>> 8

/-- Modelled from the spec: the type code of a 32-bit info word, its low 8 bits
(`elf.R_TYPE32`). -/
def R_TYPE32 (info : Nat) : Nat := info &&& 0xff

/-- Modelled from the spec: the symbol index of a 64-bit info word, its high 32 bits
(`elf.R_SYM64`). -/
def R_SYM64 (info : Nat) : Nat := u32 (info >>> 32)

/-- Modelled from the spec: the type code of a 64-bit info word, its low 32 bits
(`elf.R_TYPE64`). -/
def R_TYPE64 (info : Nat) : Nat := u32 info

/-- Modelled from the spec: the 64-bit info word recomposed from a symbol index and a
type code (`elf.R_INFO`). -/
def R_INFO (s t : Nat) : Nat := (s <<< 32) ||| t

/-- The reserved section index `elf.SHN_UNDEF`. -/
def SHN_UNDEF : Nat := 0

/-- One line printed by `printRelocations`: offset, recomposed info, relocation-type name,
symbol value, symbol name as printed, and the addend of a RELA entry. -/
structure RelRow where
  o : Nat
  i : Nat
  relName : String
  symValue : Nat
  symName : GoString
  a : Option Int
  deriving DecidableEq

/-- The symbol lookup of a 32-bit relocation entry (lines 444-456 and 475-487): the
section named by the link of the owning section `k` selects the table, `s` indexes it.
A missing name-table key reads as the empty string; any other link name exits. -/
def relocSymbol32 (elfFs : elfFile) (secs : List Section) (k s : Nat) :
    Except Failure (Nat × GoString) := do
  let sec ← goIndex secs k
  let secNdx := sec.Link
  let linkName ← goIndex elfFs.ElfSections.SectionName secNdx
  if linkName = str ".dynsym" then do
    let symbol := elfFs.DynSymbols.get s
    let sy ← asSym32 symbol
    let symName := (elfFs.DynSymbolsName.get sy.Name).getD []
    pure (sy.Value, symName)
  else if linkName = str ".symtab" then do
    let symbol := elfFs.Symbols.get s
    let sy ← asSym32 symbol
    let symName := (elfFs.SymbolsName.get sy.Name).getD []
    pure (sy.Value, symName)
  else .error (.exit f)

/-- The symbol lookup of a 64-bit relocation entry (lines 518-530 and 551-563). -/
def relocSymbol64 (elfFs : elfFile) (secs : List Section) (k s : Nat) :
    Except Failure (Nat × GoString) := do
  let sec ← goIndex secs k
  let secNdx := sec.Link
  let linkName ← goIndex elfFs.ElfSections.SectionName secNdx
  if linkName = str ".dynsym" then do
    let symbol := elfFs.DynSymbols.get s
    let sy ← asSym64 symbol
    let symName := (elfFs.DynSymbolsName.get sy.Name).getD []
    pure (sy.Value, symName)
  else if linkName = str ".symtab" then do
    let symbol := elfFs.Symbols.get s
    let sy ← asSym64 symbol
    let symName := (elfFs.SymbolsName.get sy.Name).getD []
    pure (sy.Value, symName)
  else .error (.exit f)

/-- The body of the loop over a `[]elf.Rel32` (lines 432-458). -/
def rel32Row (T : RelocTables) (elfFs : elfFile) (secs : List Section) (k : Nat) (r : Rel) :
    Except Failure RelRow := do
  let o := r.Off
  let t := R_TYPE32 r.Info
  let s := R_SYM32 r.Info
  let i := R_INFO s t
  let relName := resolveRelocType T t elfFs.FileHdr.Machine
  let (symValue, symName) ← relocSymbol32 elfFs secs k s
  pure { o := o, i := i, relName := relName, symValue := symValue, symName := symName,
         a := none }

/-- The body of the loop over a `[]elf.Rela32` (lines 462-492). -/
def rela32Row (T : RelocTables) (elfFs : elfFile) (secs : List Section) (k : Nat) (r : Rela) :
    Except Failure RelRow := do
  let o := r.Off
  let a := r.Addend
  let t := R_TYPE32 r.Info
  let s := R_SYM32 r.Info
  let i := R_INFO s t
  let relName := resolveRelocType T t elfFs.FileHdr.Machine
  let (symValue, symName) ← relocSymbol32 elfFs secs k s
  let symName := if s ≠ SHN_UNDEF then symName ++ str " + " else symName
  pure { o := o, i := i, relName := relName, symValue := symValue, symName := symName,
         a := some a }

/-- The body of the loop over a `[]elf.Rel64` (lines 506-532). -/
def rel64Row (T : RelocTables) (elfFs : elfFile) (secs : List Section) (k : Nat) (r : Rel) :
    Except Failure RelRow := do
  let o := r.Off
  let t := R_TYPE64 r.Info
  let s := R_SYM64 r.Info
  let i := R_INFO s t
  let relName := resolveRelocType T t elfFs.FileHdr.Machine
  let (symValue, symName) ← relocSymbol64 elfFs secs k s
  pure { o := o, i := i, relName := relName, symValue := symValue, symName := symName,
         a := none }

/-- The body of the loop over a `[]elf.Rela64` (lines 538-568). -/
def rela64Row (T : RelocTables) (elfFs : elfFile) (secs : List Section) (k : Nat) (r : Rela) :
    Except Failure RelRow := do
  let o := r.Off
  let a := r.Addend
  let t := R_TYPE64 r.Info
  let s := R_SYM64 r.Info
  let i := R_INFO s t
  let relName := resolveRelocType T t elfFs.FileHdr.Machine
  let (symValue, symName) ← relocSymbol64 elfFs secs k s
  let symName := if s ≠ SHN_UNDEF then symName ++ str " + " else symName
  pure { o := o, i := i, relName := relName, symValue := symValue, symName := symName,
         a := some a }

/-- The lines printed for one entry `k, v` of `elfFs.Rels` in the 32-bit pass: the
section name is looked up first, then the type switch picks the loop; a value of a
64-bit type prints nothing. -/
def relSection32 (T : RelocTables) (elfFs : elfFile) (secs : List Section)
    (kv : Nat × RelsVal) : Except Failure (List RelRow) := do
  let _sName ← goIndex elfFs.ElfSections.SectionName kv.1
  match kv.2 with
  | .Rel32 r => mapExcept (rel32Row T elfFs secs kv.1) r
  | .Rela32 r => mapExcept (rela32Row T elfFs secs kv.1) r
  | _ => pure []

/-- The lines printed for one entry `k, v` of `elfFs.Rels` in the 64-bit pass. -/
def relSection64 (T : RelocTables) (elfFs : elfFile) (secs : List Section)
    (kv : Nat × RelsVal) : Except Failure (List RelRow) := do
  let _sName ← goIndex elfFs.ElfSections.SectionName kv.1
  match kv.2 with
  | .Rel64 r => mapExcept (rel64Row T elfFs secs kv.1) r
  | .Rela64 r => mapExcept (rela64Row T elfFs secs kv.1) r
  | _ => pure []

/-- The function `printRelocations`: the lines it prints, section after section, in the
order the map `Rels` is listed (Go ranges over a map in an unspecified order). -/
def printRelocations (T : RelocTables) (elfFs : elfFile) : Except Failure (List RelRow) :=
  match elfFs.ElfSections.Section with
  | .Section32 secs => do
    let rows ← mapExcept (relSection32 T elfFs secs) elfFs.Rels
    pure rows.flatten
  | .Section64 secs => do
    let rows ← mapExcept (relSection64 T elfFs secs) elfFs.Rels
    pure rows.flatten
  | .nil => .ok []

/-! ## Auxiliary definitions of the statements -/

/-- The bytes `lo .. hi - 1` of a buffer. -/
def bytesAt (bs : List Byte) (lo hi : Nat) : List Byte := (bs.drop lo).take (hi - lo)

/-- The ten machine types `resolveRelocType` has a case for. -/
def coveredMachines : List Nat :=
  [EM_X86_64, EM_386, EM_ARM, EM_AARCH64, EM_PPC, EM_PPC64, EM_MIPS, EM_RISCV, EM_S390,
    EM_SPARCV9]

/-- The relocation-type tables of `debug/elf` for the two machine types of the fixtures:
`rx86_64Strings` (the codes 0 to 42) and `r386Strings` (the codes 0 to 11 and 14 to 43),
each in full and in the order of the library. The tables of the other eight covered
machine types are not reproduced here and are left empty; no statement evaluates
`resolveRelocType` on them. -/
def exampleTables : RelocTables :=
  { rx86_64Strings :=
      [(0, "R_X86_64_NONE"), (1, "R_X86_64_64"), (2, "R_X86_64_PC32"),
       (3, "R_X86_64_GOT32"), (4, "R_X86_64_PLT32"), (5, "R_X86_64_COPY"),
       (6, "R_X86_64_GLOB_DAT"), (7, "R_X86_64_JMP_SLOT"), (8, "R_X86_64_RELATIVE"),
       (9, "R_X86_64_GOTPCREL"), (10, "R_X86_64_32"), (11, "R_X86_64_32S"),
       (12, "R_X86_64_16"), (13, "R_X86_64_PC16"), (14, "R_X86_64_8"),
       (15, "R_X86_64_PC8"), (16, "R_X86_64_DTPMOD64"), (17, "R_X86_64_DTPOFF64"),
       (18, "R_X86_64_TPOFF64"), (19, "R_X86_64_TLSGD"), (20, "R_X86_64_TLSLD"),
       (21, "R_X86_64_DTPOFF32"), (22, "R_X86_64_GOTTPOFF"), (23, "R_X86_64_TPOFF32"),
       (24, "R_X86_64_PC64"), (25, "R_X86_64_GOTOFF64"), (26, "R_X86_64_GOTPC32"),
       (27, "R_X86_64_GOT64"), (28, "R_X86_64_GOTPCREL64"), (29, "R_X86_64_GOTPC64"),
       (30, "R_X86_64_GOTPLT64"), (31, "R_X86_64_PLTOFF64"), (32, "R_X86_64_SIZE32"),
       (33, "R_X86_64_SIZE64"), (34, "R_X86_64_GOTPC32_TLSDESC"),
       (35, "R_X86_64_TLSDESC_CALL"), (36, "R_X86_64_TLSDESC"),
       (37, "R_X86_64_IRELATIVE"), (38, "R_X86_64_RELATIVE64"),
       (39, "R_X86_64_PC32_BND"), (40, "R_X86_64_PLT32_BND"),
       (41, "R_X86_64_GOTPCRELX"), (42, "R_X86_64_REX_GOTPCRELX")]
    r386Strings :=
      [(0, "R_386_NONE"), (1, "R_386_32"), (2, "R_386_PC32"), (3, "R_386_GOT32"),
       (4, "R_386_PLT32"), (5, "R_386_COPY"), (6, "R_386_GLOB_DAT"),
       (7, "R_386_JMP_SLOT"), (8, "R_386_RELATIVE"), (9, "R_386_GOTOFF"),
       (10, "R_386_GOTPC"), (11, "R_386_32PLT"), (14, "R_386_TLS_TPOFF"),
       (15, "R_386_TLS_IE"), (16, "R_386_TLS_GOTIE"), (17, "R_386_TLS_LE"),
       (18, "R_386_TLS_GD"), (19, "R_386_TLS_LDM"), (20, "R_386_16"),
       (21, "R_386_PC16"), (22, "R_386_8"), (23, "R_386_PC8"), (24, "R_386_TLS_GD_32"),
       (25, "R_386_TLS_GD_PUSH"), (26, "R_386_TLS_GD_CALL"), (27, "R_386_TLS_GD_POP"),
       (28, "R_386_TLS_LDM_32"), (29, "R_386_TLS_LDM_PUSH"),
       (30, "R_386_TLS_LDM_CALL"), (31, "R_386_TLS_LDM_POP"), (32, "R_386_TLS_LDO_32"),
       (33, "R_386_TLS_IE_32"), (34, "R_386_TLS_LE_32"), (35, "R_386_TLS_DTPMOD32"),
       (36, "R_386_TLS_DTPOFF32"), (37, "R_386_TLS_TPOFF32"), (38, "R_386_SIZE32"),
       (39, "R_386_TLS_GOTDESC"), (40, "R_386_TLS_DESC_CALL"), (41, "R_386_TLS_DESC"),
       (42, "R_386_IRELATIVE"), (43, "R_386_GOT32X")]
    rarmStrings := []
    raarch64Strings := []
    rppcStrings := []
    rppc64Strings := []
    rmipsStrings := []
    rriscvStrings := []
    r390Strings := []
    rsparcStrings := [] }

/-- The state after `setArch` and `mapHeader`, before any table is loaded: the file, the
class, the byte order and the decoded header, with empty tables. -/
def freshState (fh : List Byte) (arch : Nat) (order : Option ByteOrder) (machine : Nat)
    (hdr : HdrVal) : elfFile :=
  { Fh := fh, Ident := fh.take 16,
    FileHdr := { Endianness := order, Arch := arch, Machine := machine },
    Hdr := hdr, ElfSections := { Section := .nil, SectionName := [] },
    Symbols := [], SymbolsName := [], DynSymbols := [], DynSymbolsName := [], Rels := [] }

/-- A header that declares 1024 sections of 64 bytes each at offset 64: a section header
table of 65536 bytes. -/
def header1024Sections : Header :=
  { Ident := [], Typ := 1, Machine := 62, Version := 1, Entry := 0, Phoff := 0, Shoff := 64,
    Flags := 0, Ehsize := 64, Phentsize := 0, Phnum := 0, Shentsize := 64, Shnum := 1024,
    Shstrndx := 1 }

/-- The two widths of the format, to state a property of both copies of a code path
at once. -/
inductive Width where
  | W32
  | W64
  deriving DecidableEq

/-- The class byte of a width. -/
def Width.arch : Width → Nat
  | .W32 => ELFCLASS32
  | .W64 => ELFCLASS64

/-- A section table with the dynamic type of a width. -/
def Width.sections : Width → List Section → SectionsVal
  | .W32, secs => .Section32 secs
  | .W64, secs => .Section64 secs

/-- The symbol record size `symSize` of a width. -/
def Width.symSize : Width → Nat
  | .W32 => symSize32
  | .W64 => symSize64

/-- A symbol record with the dynamic type of a width. -/
def Width.symVal : Width → Sym → SymVal
  | .W32, s => .Sym32 s
  | .W64, s => .Sym64 s

/-- The symbol decoder of a width. -/
def Width.decodeSym : Width → ByteOrder → List Byte → Sym
  | .W32 => decodeSym32
  | .W64 => decodeSym64

/-- The bound on `offset + size` of a section below which the load of a width involves no
overflow: `2 ^ 32` for the 32-bit width, whose sums are computed in `uint32`, and
`2 ^ 62` for the 64-bit width, where the reader length `int64(offset + size)` added to
the offset then stays below `2 ^ 63`. -/
def Width.sumBound : Width → Nat
  | .W32 => 2 ^ 32
  | .W64 => 2 ^ 62

/-- The fixed-width sum of a width: `uint32` arithmetic for the 32-bit branch, `uint64`
arithmetic for the 64-bit branch. -/
def Width.wrap : Width → Nat → Nat
  | .W32 => u32
  | .W64 => u64

/-- The reader `loadSymbols` opens on a symbol-table section: it starts at the offset of
the section and has the length `int64(off + symtabSize)`. -/
def Width.symReader (w : Width) (fh : List Byte) (sec : Section) : SectionReader :=
  NewSectionReader fh (int64 sec.Off) (int64 (w.wrap (sec.Off + sec.Size)))

/-- The string pool `loadSymbols` reads in the branch of a width. -/
def Width.loadStrtab : Width → elfFile → List Section → Nat → Except Failure (List Byte)
  | .W32 => loadStrtab32
  | .W64 => loadStrtab64

/-- The symbol lookup of a relocation entry in the pass of a width. -/
def Width.relocSymbol : Width → elfFile → List Section → Nat → Nat →
    Except Failure (Nat × GoString)
  | .W32 => relocSymbol32
  | .W64 => relocSymbol64

/-- The symbol map `loadSymbols` fills for a table kind: `DynSymbols` for `dynSym`,
`Symbols` for `sym`. -/
def symTable (elfFs : elfFile) (symType : Nat) : GoMap SymVal :=
  if symType = dynSym then elfFs.DynSymbols else elfFs.Symbols

/-- The name map `loadSymbols` fills for a table kind. -/
def symNames (elfFs : elfFile) (symType : Nat) : GoMap GoString :=
  if symType = dynSym then elfFs.DynSymbolsName else elfFs.SymbolsName

/-- The section name that routes a relocation entry to the table of a kind. -/
def tableSection (symType : Nat) : GoString :=
  if symType = dynSym then str ".dynsym" else str ".symtab"

/-- The bytes of record `i` of a table of `E`-byte records at file offset `off`. -/
def recordAt (fh : List Byte) (off E i : Nat) : List Byte :=
  bytesAt fh (off + i * E) (off + i * E + E)

/-- The invariant of the symbol loop after `j` iterations: the symbol map holds exactly
the keys below `j`, every entry satisfies `P`, and the name map holds, under the name
offset of every entry, the name resolved for that offset in the pool `strtab`. -/
def TableInv (P : SymVal → Prop) (strtab : List Byte) (j : Nat) (syms : GoMap SymVal)
    (names : GoMap GoString) : Prop :=
  syms.len = j ∧ (∀ i, j ≤ i → syms.get i = none) ∧
    (∀ i, i < j → ∃ v, syms.get i = some v ∧ P v ∧
      ∃ nm, names.get v.sym.Name = some nm ∧ getSymbolName v.sym.Name strtab = .ok nm)

/-- The state `loadSymbols` returns once its symbol loop has filled the maps `S` and `N`
for a table kind. -/
def withTable (elfFs : elfFile) (symType : Nat) (S : GoMap SymVal) (N : GoMap GoString) :
    elfFile :=
  if symType = dynSym then { elfFs with DynSymbols := S, DynSymbolsName := N }
  else { elfFs with Symbols := S, SymbolsName := N }

/-- The symbol index of an info word in the pass of a width. -/
def Width.R_SYM : Width → Nat → Nat
  | .W32 => R_SYM32
  | .W64 => R_SYM64

/-- The line printed for a REL entry in the pass of a width. -/
def Width.relRow : Width → RelocTables → elfFile → List Section → Nat → Rel →
    Except Failure RelRow
  | .W32 => rel32Row
  | .W64 => rel64Row

/-- The line printed for a RELA entry in the pass of a width. -/
def Width.relaRow : Width → RelocTables → elfFile → List Section → Nat → Rela →
    Except Failure RelRow
  | .W32 => rela32Row
  | .W64 => rela64Row

/-! ## Fixtures -/

/-- A 64-bit little-endian shared object of 550 bytes: the header, a `.dynsym` section
with three symbols (the null symbol, `foo` at `0x1000`, `bar` at `0x2000`) at offset 64,
its `.dynstr` pool at offset 136, a `.rela.dyn` section with two entries that name the
symbols 1 and 2 at offset 145, the section names at offset 193 and the section header
table of five entries at offset 230. -/
def dynFile : List Byte :=
  [
    127, 69, 76, 70, 2, 1, 1, 0, 0, 0, 0, 0, 0, 0, 0, 0, 3, 0, 62, 0,
    1, 0, 0, 0, 0, 0, 0, 0, 0, 0, 0, 0, 0, 0, 0, 0, 0, 0, 0, 0,
    230, 0, 0, 0, 0, 0, 0, 0, 0, 0, 0, 0, 64, 0, 56, 0, 0, 0, 64, 0,
    5, 0, 4, 0, 0, 0, 0, 0, 0, 0, 0, 0, 0, 0, 0, 0, 0, 0, 0, 0,
    0, 0, 0, 0, 0, 0, 0, 0, 1, 0, 0, 0, 18, 0, 5, 0, 0, 16, 0, 0,
    0, 0, 0, 0, 0, 0, 0, 0, 0, 0, 0, 0, 5, 0, 0, 0, 18, 0, 5, 0,
    0, 32, 0, 0, 0, 0, 0, 0, 0, 0, 0, 0, 0, 0, 0, 0, 0, 102, 111, 111,
    0, 98, 97, 114, 0, 0, 48, 0, 0, 0, 0, 0, 0, 7, 0, 0, 0, 1, 0, 0,
    0, 0, 0, 0, 0, 0, 0, 0, 0, 8, 48, 0, 0, 0, 0, 0, 0, 7, 0, 0,
    0, 2, 0, 0, 0, 0, 0, 0, 0, 0, 0, 0, 0, 0, 46, 100, 121, 110, 115, 121,
    109, 0, 46, 100, 121, 110, 115, 116, 114, 0, 46, 114, 101, 108, 97, 46, 100, 121, 110, 0,
    46, 115, 104, 115, 116, 114, 116, 97, 98, 0, 0, 0, 0, 0, 0, 0, 0, 0, 0, 0,
    0, 0, 0, 0, 0, 0, 0, 0, 0, 0, 0, 0, 0, 0, 0, 0, 0, 0, 0, 0,
    0, 0, 0, 0, 0, 0, 0, 0, 0, 0, 0, 0, 0, 0, 0, 0, 0, 0, 0, 0,
    0, 0, 0, 0, 0, 0, 0, 0, 0, 0, 0, 0, 0, 0, 1, 0, 0, 0, 11, 0,
    0, 0, 2, 0, 0, 0, 0, 0, 0, 0, 0, 0, 0, 0, 0, 0, 0, 0, 64, 0,
    0, 0, 0, 0, 0, 0, 72, 0, 0, 0, 0, 0, 0, 0, 2, 0, 0, 0, 1, 0,
    0, 0, 8, 0, 0, 0, 0, 0, 0, 0, 24, 0, 0, 0, 0, 0, 0, 0, 9, 0,
    0, 0, 3, 0, 0, 0, 2, 0, 0, 0, 0, 0, 0, 0, 0, 0, 0, 0, 0, 0,
    0, 0, 136, 0, 0, 0, 0, 0, 0, 0, 9, 0, 0, 0, 0, 0, 0, 0, 0, 0,
    0, 0, 0, 0, 0, 0, 1, 0, 0, 0, 0, 0, 0, 0, 0, 0, 0, 0, 0, 0,
    0, 0, 17, 0, 0, 0, 4, 0, 0, 0, 2, 0, 0, 0, 0, 0, 0, 0, 0, 0,
    0, 0, 0, 0, 0, 0, 145, 0, 0, 0, 0, 0, 0, 0, 48, 0, 0, 0, 0, 0,
    0, 0, 1, 0, 0, 0, 0, 0, 0, 0, 8, 0, 0, 0, 0, 0, 0, 0, 24, 0,
    0, 0, 0, 0, 0, 0, 27, 0, 0, 0, 3, 0, 0, 0, 0, 0, 0, 0, 0, 0,
    0, 0, 0, 0, 0, 0, 0, 0, 0, 0, 193, 0, 0, 0, 0, 0, 0, 0, 37, 0,
    0, 0, 0, 0, 0, 0, 0, 0, 0, 0, 0, 0, 0, 0, 1, 0, 0, 0, 0, 0,
    0, 0, 0, 0, 0, 0, 0, 0, 0, 0 ]

/-- The section header table of `dynFile`. -/
def dynSections : List Section :=
  [ { Name := 0, Typ := 0, Flags := 0, Addr := 0, Off := 0, Size := 0, Link := 0, Info := 0, Addralign := 0, Entsize := 0 },
    { Name := 1, Typ := 11, Flags := 2, Addr := 0, Off := 64, Size := 72, Link := 2, Info := 1, Addralign := 8, Entsize := 24 },
    { Name := 9, Typ := 3, Flags := 2, Addr := 0, Off := 136, Size := 9, Link := 0, Info := 0, Addralign := 1, Entsize := 0 },
    { Name := 17, Typ := 4, Flags := 2, Addr := 0, Off := 145, Size := 48, Link := 1, Info := 0, Addralign := 8, Entsize := 24 },
    { Name := 27, Typ := 3, Flags := 0, Addr := 0, Off := 193, Size := 37, Link := 0, Info := 0, Addralign := 1, Entsize := 0 } ]

/-- The header of `dynFile`. -/
def dynHeader : Header :=
  { Ident := dynFile.take 16, Typ := 3, Machine := 62, Version := 1, Entry := 0, Phoff := 0,
    Shoff := 230, Flags := 0, Ehsize := 64, Phentsize := 56, Phnum := 0, Shentsize := 64,
    Shnum := 5, Shstrndx := 4 }

/-- The header of `dynFile` with the string-table index set to 5, the section count: one
past the end of the section table. -/
def headerShstrndxPastEnd : Header := { dynHeader with Shstrndx := 5 }

/-- The state of a run on `dynFile` after `getSections`. -/
def dynState : elfFile :=
  { Fh := dynFile, Ident := dynFile.take 16,
    FileHdr := { Endianness := some .LittleEndian, Arch := ELFCLASS64, Machine := 62 },
    Hdr := .Header64 dynHeader,
    ElfSections := { Section := .Section64 dynSections,
                     SectionName := [str "", str ".dynsym", str ".dynstr", str ".rela.dyn",
                       str ".shstrtab"] },
    Symbols := [], SymbolsName := [], DynSymbols := [], DynSymbolsName := [], Rels := [] }

/-- The state of a run on `dynFile` after `loadSymbols` for the dynamic table. -/
def dynLoaded : elfFile :=
  { dynState with
    DynSymbols :=
      [ (0, .Sym64 { Name := 0, Value := 0, Size := 0, Info := 0, Other := 0, Shndx := 0 }),
        (1, .Sym64 { Name := 1, Value := 0x1000, Size := 0, Info := 0x12, Other := 0,
                     Shndx := 5 }),
        (2, .Sym64 { Name := 5, Value := 0x2000, Size := 0, Info := 0x12, Other := 0,
                     Shndx := 5 }) ],
    DynSymbolsName := [(0, str ""), (1, str "foo"), (5, str "bar")] }

/-- A 32-bit little-endian state whose section table holds a `.symtab` section of two
symbol records (the 32 bytes of the file) and no `.strtab` section. -/
def noStrtabState : elfFile :=
  { Fh := [ 0, 0, 0, 0, 0, 0, 0, 0, 0, 0, 0, 0, 0, 0, 0, 0,
            1, 0, 0, 0, 0, 16, 0, 0, 4, 0, 0, 0, 18, 0, 1, 0 ],
    Ident := [],
    FileHdr := { Endianness := some .LittleEndian, Arch := ELFCLASS32, Machine := 3 },
    Hdr := .nil,
    ElfSections :=
      { Section := .Section32
          [ { Name := 0, Typ := 0, Flags := 0, Addr := 0, Off := 0, Size := 0, Link := 0,
              Info := 0, Addralign := 0, Entsize := 0 },
            { Name := 1, Typ := 2, Flags := 0, Addr := 0, Off := 0, Size := 32, Link := 0,
              Info := 1, Addralign := 4, Entsize := 16 } ],
        SectionName := [str "", str ".symtab"] },
    Symbols := [], SymbolsName := [], DynSymbols := [], DynSymbolsName := [], Rels := [] }

/-! ## Identification and header (`isElf`, `setArch`, `mapHeader`) -/

/-- The function `isElf(magic)`: `!(magic[0] != 0x7f || magic[1] != 'E' || magic[2] != 'L'
|| magic[3] != 'F')`. The operands are evaluated from left to right and the evaluation
stops at the first that differs; an index expression out of range panics. -/
def isElf (magic : List Byte) : Except Failure Bool :=
  match goIndex magic 0 with
  | .error e => .error e
  | .ok b0 =>
    if b0 ≠ 0x7f then .ok false
    else
      match goIndex magic 1 with
      | .error e => .error e
      | .ok b1 =>
        if b1 ≠ 69 then .ok false
        else
          match goIndex magic 2 with
          | .error e => .error e
          | .ok b2 =>
            if b2 ≠ 76 then .ok false
            else
              match goIndex magic 3 with
              | .error e => .error e
              | .ok b3 => if b3 ≠ 70 then .ok false else .ok true

/-- The index `elf.EI_CLASS` of the class byte. -/
def EI_CLASS : Nat := 4

/-- The index `elf.EI_DATA` of the data-encoding byte. -/
def EI_DATA : Nat := 5

/-- The data encoding `elf.ELFDATA2LSB`. -/
def ELFDATA2LSB : Nat := 1

/-- The data encoding `elf.ELFDATA2MSB`. -/
def ELFDATA2MSB : Nat := 2

/-- The byte `elfFs.Ident[i]` of the 16-byte array `Ident`, whose bytes past the end of a
shorter file are zero. -/
def identByte (elfFs : elfFile) (i : Nat) : Nat := (elfFs.Ident.getD i 0).val

/-- The state of `main` after the file is opened and its first 16 bytes are read into
`Ident`: nothing is classified and no table is loaded. -/
def openState (fh : List Byte) : elfFile :=
  { Fh := fh, Ident := fh.take 16 ++ List.replicate (16 - (fh.take 16).length) 0,
    FileHdr := { Endianness := none, Arch := 0, Machine := 0 },
    Hdr := .nil, ElfSections := { Section := .nil, SectionName := [] },
    Symbols := [], SymbolsName := [], DynSymbols := [], DynSymbolsName := [], Rels := [] }

/-- The method `setArch`: the class byte selects the header type and `FileHdr.Arch`; any
other class exits. The new header is zero-valued. -/
def setArch (elfFs : elfFile) : Except Failure elfFile :=
  if identByte elfFs EI_CLASS = ELFCLASS64 then
    .ok { elfFs with Hdr := .Header64 default,
                     FileHdr := { elfFs.FileHdr with Arch := ELFCLASS64 } }
  else if identByte elfFs EI_CLASS = ELFCLASS32 then
    .ok { elfFs with Hdr := .Header32 default,
                     FileHdr := { elfFs.FileHdr with Arch := ELFCLASS32 } }
  else .error (.exit f)

/-- Modelled from the spec: the layout of a 64-bit header (64 bytes): the 16
identification bytes, type and machine of 2 bytes, version of 4, entry point and the two
table offsets of 8, flags of 4, and six 2-byte sizes, counts and the string-table
index. -/
def decodeHeader64 (order : ByteOrder) (bs : List Byte) : Header :=
  match decodeFields order [2, 2, 4, 8, 8, 8, 4, 2, 2, 2, 2, 2, 2] (bs.drop 16) with
  | [typ, machine, version, entry, phoff, shoff, flags, ehsize, phentsize, phnum, shentsize,
      shnum, shstrndx] =>
    { Ident := bs.take 16, Typ := typ, Machine := machine, Version := version, Entry := entry,
      Phoff := phoff, Shoff := shoff, Flags := flags, Ehsize := ehsize,
      Phentsize := phentsize, Phnum := phnum, Shentsize := shentsize, Shnum := shnum,
      Shstrndx := shstrndx }
  | _ => default

/-- Modelled from the spec: the layout of a 32-bit header (52 bytes): as the 64-bit one
with an entry point and table offsets of 4 bytes. -/
def decodeHeader32 (order : ByteOrder) (bs : List Byte) : Header :=
  match decodeFields order [2, 2, 4, 4, 4, 4, 4, 2, 2, 2, 2, 2, 2] (bs.drop 16) with
  | [typ, machine, version, entry, phoff, shoff, flags, ehsize, phentsize, phnum, shentsize,
      shnum, shstrndx] =>
    { Ident := bs.take 16, Typ := typ, Machine := machine, Version := version, Entry := entry,
      Phoff := phoff, Shoff := shoff, Flags := flags, Ehsize := ehsize,
      Phentsize := phentsize, Phnum := phnum, Shentsize := shentsize, Shnum := shnum,
      Shstrndx := shstrndx }
  | _ => default

/-- The file itself as a reader positioned at offset 0 (after `Seek(0, io.SeekStart)`). -/
def fileReader (fh : List Byte) : SectionReader := { r := fh, off := 0, limit := maxint64 }

/-- The byte order `mapHeader` selects from the data-encoding byte: the switch has the
two cases and a default that prints a message and goes on, leaving `Endianness` as it
was. -/
def selectEndianness (elfFs : elfFile) : Option ByteOrder :=
  if identByte elfFs EI_DATA = ELFDATA2LSB then some .LittleEndian
  else if identByte elfFs EI_DATA = ELFDATA2MSB then some .BigEndian
  else elfFs.FileHdr.Endianness

/-- The method `mapHeader`: select the byte order, read the header from offset 0 into
`Hdr` through that byte order (`checkError` on failure), then copy the machine type of
the header into `FileHdr.Machine`. -/
def mapHeader (elfFs : elfFile) : Except Failure elfFile :=
  let order := selectEndianness elfFs
  match elfFs.Hdr with
  | .nil => .error (.panic .invalidType)
  | .Header32 _ =>
    match readStruct decodeHeader32 52 (fileReader elfFs.Fh) order with
    | .error e => .error e
    | .ok (h, _) =>
      .ok { elfFs with Hdr := .Header32 h,
                       FileHdr := { Endianness := order, Arch := elfFs.FileHdr.Arch,
                                    Machine := h.Machine } }
  | .Header64 _ =>
    match readStruct decodeHeader64 64 (fileReader elfFs.Fh) order with
    | .error e => .error e
    | .ok (h, _) =>
      .ok { elfFs with Hdr := .Header64 h,
                       FileHdr := { Endianness := order, Arch := elfFs.FileHdr.Arch,
                                    Machine := h.Machine } }

/-- The two steps `target.setArch(); target.mapHeader()` of `main`. -/
def classify (elfFs : elfFile) : Except Failure elfFile :=
  match setArch elfFs with
  | .error e => .error e
  | .ok e1 => mapHeader e1

/-! ## Section lookup and symbol tables (`getSectionNdx`, `getSymbols`, `printSymbols`) -/

/-- The loop of `getSectionNdx`: `for ndx = 0; ndx < uint32(len(names)); ndx++ { if
names[ndx] == name { return ndx } }; return 0`, where `limit` is `uint32(len(names))`. -/
def ndxLoop (name : GoString) (names : List GoString) (limit : Nat) :
    Nat → Nat → Except Failure Nat
  | 0, _ => .error .outOfFuel
  | fuel + 1, ndx =>
    if ndx < limit then
      match goIndex names ndx with
      | .error e => .error e
      | .ok nm => if nm = name then .ok ndx else ndxLoop name names limit fuel (u32 (ndx + 1))
    else .ok 0

/-- The function `getSectionNdx(name, elfFs)`: the first index whose resolved name is
`name`, and 0 when there is none. -/
def getSectionNdx (name : GoString) (elfFs : elfFile) : Except Failure Nat :=
  ndxLoop name elfFs.ElfSections.SectionName (u32 elfFs.ElfSections.SectionName.length)
    (elfFs.ElfSections.SectionName.length + 1) 0

/-- Modelled from the spec: the symbol type of an info byte, its low 4 bits
(`elf.ST_TYPE`). -/
def ST_TYPE (info : Nat) : Nat := info &&& 0xf

/-- Modelled from the spec: the binding of an info byte, its high 4 bits
(`elf.ST_BIND`). -/
def ST_BIND (info : Nat) : Nat := info >>> 4

/-- Modelled from the spec: the visibility held by the byte `other` of a symbol, its low
2 bits (`elf.ST_VISIBILITY(other)`). -/
def ST_VISIBILITY (other : Nat) : Nat := other &&& 0x3

/-- One line printed by `printSymbols`: index, value, size, type, binding, visibility,
section index and name. -/
structure SymRow where
  sNdx : Nat
  v : Nat
  s : Nat
  t : Nat
  b : Nat
  vis : Nat
  sec : Nat
  nm : GoString
  deriving DecidableEq

/-- The body of the two 32-bit loops of `printSymbols` (lines 589-599 and 603-613) over
a symbol map and its name map. The visibility is computed from the field `Info`. -/
def symRow32 (syms : GoMap SymVal) (names : GoMap GoString) (sNdx : Nat) :
    Except Failure SymRow :=
  match asSym32 (syms.get sNdx) with
  | .error e => .error e
  | .ok sy =>
    .ok { sNdx := sNdx, v := sy.Value, s := sy.Size, t := ST_TYPE sy.Info,
          b := ST_BIND sy.Info, vis := ST_VISIBILITY sy.Info, sec := sy.Shndx,
          nm := (names.get sy.Name).getD [] }

/-- The body of the two 64-bit loops of `printSymbols` (lines 618-628 and 632-642). -/
def symRow64 (syms : GoMap SymVal) (names : GoMap GoString) (sNdx : Nat) :
    Except Failure SymRow :=
  match asSym64 (syms.get sNdx) with
  | .error e => .error e
  | .ok sy =>
    .ok { sNdx := sNdx, v := sy.Value, s := sy.Size, t := ST_TYPE sy.Info,
          b := ST_BIND sy.Info, vis := ST_VISIBILITY sy.Info, sec := sy.Shndx,
          nm := (names.get sy.Name).getD [] }

/-- The lines of one table in `printSymbols`: none when the map is empty, otherwise one
line per index below `uint32(len(map))`. -/
def symRows (row : GoMap SymVal → GoMap GoString → Nat → Except Failure SymRow)
    (syms : GoMap SymVal) (names : GoMap GoString) : Except Failure (List SymRow) :=
  if syms.len > 0 then mapExcept (row syms names) (List.range (u32 syms.len)) else .ok []

/-- The function `printSymbols`: the lines of the dynamic table, then those of the
regular table, in the case of `FileHdr.Arch`; no line for any other class. -/
def printSymbols (elfFs : elfFile) : Except Failure (List SymRow) :=
  if elfFs.FileHdr.Arch = ELFCLASS32 then
    match symRows symRow32 elfFs.DynSymbols elfFs.DynSymbolsName with
    | .error e => .error e
    | .ok d =>
      match symRows symRow32 elfFs.Symbols elfFs.SymbolsName with
      | .error e => .error e
      | .ok r => .ok (d ++ r)
  else if elfFs.FileHdr.Arch = ELFCLASS64 then
    match symRows symRow64 elfFs.DynSymbols elfFs.DynSymbolsName with
    | .error e => .error e
    | .ok d =>
      match symRows symRow64 elfFs.Symbols elfFs.SymbolsName with
      | .error e => .error e
      | .ok r => .ok (d ++ r)
  else .ok []

/-- One of the two blocks of `getSymbols`, the same up to the two section names and the
table kind: look the symbol-table section up; when its index is not 0, look the string
table up, load the symbols and print both tables; otherwise print a message only. -/
def loadNamed (elfFs : elfFile) (tabName strName : GoString) (symType : Nat) :
    Except Failure elfFile :=
  match getSectionNdx tabName elfFs with
  | .error e => .error e
  | .ok ndx =>
    if ndx ≠ 0 then
      match getSectionNdx strName elfFs with
      | .error e => .error e
      | .ok strNdx =>
        match loadSymbols elfFs ndx strNdx symType with
        | .error e => .error e
        | .ok e1 =>
          match printSymbols e1 with
          | .error e => .error e
          | .ok _ => .ok e1
    else .ok elfFs

/-- The method `getSymbols`: the block of `.dynsym` and `.dynstr`, then the block of
`.symtab` and `.strtab`. The lines printed are not part of the result. -/
def getSymbols (elfFs : elfFile) : Except Failure elfFile :=
  match loadNamed elfFs (str ".dynsym") (str ".dynstr") dynSym with
  | .error e => .error e
  | .ok e1 => loadNamed e1 (str ".symtab") (str ".strtab") sym

/-! ## Relocation tables (`getRelocations`) -/

/-- The section type `elf.SHT_RELA`, relocation entries with addends. -/
def SHT_RELA : Nat := 4

/-- The section type `elf.SHT_REL`, relocation entries without addends. -/
def SHT_REL : Nat := 9

/-- The signed integer of `w` bits with the bit pattern `n` (the conversion `int32(x)`,
`int64(x)` of a decoded unsigned value). -/
def toSigned (w : Nat) (n : Nat) : Int :=
  if n % 2 ^ w < 2 ^ (w - 1) then ((n % 2 ^ w : Nat) : Int)
  else ((n % 2 ^ w : Nat) : Int) - ((2 ^ w : Nat) : Int)

/-- Modelled from the spec: the layout of a 32-bit record without addend (8 bytes):
offset and packed info of 4 bytes each. -/
def decodeRel32 (order : ByteOrder) (bs : List Byte) : Rel :=
  match decodeFields order [4, 4] bs with
  | [off, info] => { Off := off, Info := info }
  | _ => default

/-- Modelled from the spec: the layout of a 32-bit record with addend (12 bytes): offset,
packed info and signed addend of 4 bytes each. -/
def decodeRela32 (order : ByteOrder) (bs : List Byte) : Rela :=
  match decodeFields order [4, 4, 4] bs with
  | [off, info, addend] => { Off := off, Info := info, Addend := toSigned 32 addend }
  | _ => default

/-- Modelled from the spec: the layout of a 64-bit record without addend (16 bytes):
offset and packed info of 8 bytes each. -/
def decodeRel64 (order : ByteOrder) (bs : List Byte) : Rel :=
  match decodeFields order [8, 8] bs with
  | [off, info] => { Off := off, Info := info }
  | _ => default

/-- Modelled from the spec: the layout of a 64-bit record with addend (24 bytes): offset,
packed info and signed addend of 8 bytes each. -/
def decodeRela64 (order : ByteOrder) (bs : List Byte) : Rela :=
  match decodeFields order [8, 8, 8] bs with
  | [off, info, addend] => { Off := off, Info := info, Addend := toSigned 64 addend }
  | _ => default

/-- The body of the 32-bit loop of `getRelocations` for the section index `sNdx`: a
section of type `SHT_REL` or `SHT_RELA` is read through a reader of `Size` bytes at
`Off` into a slice of `Size / 8`, respectively `Size / 12`, records stored under `sNdx`;
a section of any other type leaves the map as it is. -/
def relStep32 (elfFs : elfFile) (s : List Section) (rels : GoMap RelsVal) (sNdx : Nat) :
    Except Failure (GoMap RelsVal) :=
  match goIndex s sNdx with
  | .error e => .error e
  | .ok sec =>
    if sec.Typ = SHT_REL then
      let sr := NewSectionReader elfFs.Fh (int64 sec.Off) (int64 sec.Size)
      let numRels := u32 (sec.Size / 8)
      match readRecords decodeRel32 8 sr elfFs.FileHdr.Endianness numRels with
      | .error e => .error e
      | .ok l => .ok (rels.set sNdx (.Rel32 l))
    else if sec.Typ = SHT_RELA then
      let sr := NewSectionReader elfFs.Fh (int64 sec.Off) (int64 sec.Size)
      let numRels := u32 (sec.Size / 12)
      match readRecords decodeRela32 12 sr elfFs.FileHdr.Endianness numRels with
      | .error e => .error e
      | .ok l => .ok (rels.set sNdx (.Rela32 l))
    else .ok rels

/-- The body of the 64-bit loop of `getRelocations`: as the 32-bit one, with records of
16 and 24 bytes and a reader whose length is `n := int64(Off) + int64(Size)`. The
allocation `make([]T, numRels)` is taken to succeed in both loops. -/
def relStep64 (elfFs : elfFile) (s : List Section) (rels : GoMap RelsVal) (sNdx : Nat) :
    Except Failure (GoMap RelsVal) :=
  match goIndex s sNdx with
  | .error e => .error e
  | .ok sec =>
    if sec.Typ = SHT_REL then
      let n := wrap64 (int64 sec.Off + int64 sec.Size)
      let sr := NewSectionReader elfFs.Fh (int64 sec.Off) n
      let numRels := u64 (sec.Size / 16)
      match readRecords decodeRel64 16 sr elfFs.FileHdr.Endianness numRels with
      | .error e => .error e
      | .ok l => .ok (rels.set sNdx (.Rel64 l))
    else if sec.Typ = SHT_RELA then
      let n := wrap64 (int64 sec.Off + int64 sec.Size)
      let sr := NewSectionReader elfFs.Fh (int64 sec.Off) n
      let numRels := u64 (sec.Size / 24)
      match readRecords decodeRela64 24 sr elfFs.FileHdr.Endianness numRels with
      | .error e => .error e
      | .ok l => .ok (rels.set sNdx (.Rela64 l))
    else .ok rels

/-- The loop `for sNdx := uint32(0); sNdx < uint32(len(s)); sNdx++`, by the number of
iterations left: it stops at the first failure of its body. -/
def relLoop (step : GoMap RelsVal → Nat → Except Failure (GoMap RelsVal)) :
    Nat → Nat → GoMap RelsVal → Except Failure (GoMap RelsVal)
  | 0, _, rels => .ok rels
  | left + 1, sNdx, rels =>
    match step rels sNdx with
    | .error e => .error e
    | .ok rels2 => relLoop step left (sNdx + 1) rels2

/-- The method `getRelocations`: a new empty map, filled by the loop of the width of the
section table (no loop when the table was never read). -/
def getRelocations (elfFs : elfFile) : Except Failure elfFile :=
  match elfFs.ElfSections.Section with
  | .nil => .ok { elfFs with Rels := [] }
  | .Section32 s =>
    match relLoop (relStep32 elfFs s) (u32 s.length) 0 [] with
    | .error e => .error e
    | .ok rels => .ok { elfFs with Rels := rels }
  | .Section64 s =>
    match relLoop (relStep64 elfFs s) (u32 s.length) 0 [] with
    | .error e => .error e
    | .ok rels => .ok { elfFs with Rels := rels }

/-- The line `printSymbols` prints for a symbol index in the pass of a width. -/
def Width.symRow : Width → GoMap SymVal → GoMap GoString → Nat → Except Failure SymRow
  | .W32 => symRow32
  | .W64 => symRow64

/-- The lines printed for one entry of `elfFs.Rels` in the pass of a width. -/
def Width.relSection : Width → RelocTables → elfFile → List Section → Nat × RelsVal →
    Except Failure (List RelRow)
  | .W32 => relSection32
  | .W64 => relSection64

/-- The type code of an info word in the pass of a width. -/
def Width.R_TYPE : Width → Nat → Nat
  | .W32 => R_TYPE32
  | .W64 => R_TYPE64

/-- The size in bytes of a record without addend. -/
def Width.relSize : Width → Nat
  | .W32 => 8
  | .W64 => 16

/-- The size in bytes of a record with addend. -/
def Width.relaSize : Width → Nat
  | .W32 => 12
  | .W64 => 24

/-- A slice of records without addend as a value of the relocation map. -/
def Width.relVal : Width → List Rel → RelsVal
  | .W32 => .Rel32
  | .W64 => .Rel64

/-- A slice of records with addend as a value of the relocation map. -/
def Width.relaVal : Width → List Rela → RelsVal
  | .W32 => .Rela32
  | .W64 => .Rela64

/-- The decoder of a record without addend. -/
def Width.decodeRel : Width → ByteOrder → List Byte → Rel
  | .W32 => decodeRel32
  | .W64 => decodeRel64

/-- The decoder of a record with addend. -/
def Width.decodeRela : Width → ByteOrder → List Byte → Rela
  | .W32 => decodeRela32
  | .W64 => decodeRela64

/-- The body of the loop of `getRelocations` of a width. -/
def Width.relStep : Width → elfFile → List Section → GoMap RelsVal → Nat →
    Except Failure (GoMap RelsVal)
  | .W32 => relStep32
  | .W64 => relStep64

/-- The bound of an unsigned section field of a width: `2 ^ 32` for the `uint32` fields
of a 32-bit section header, `2 ^ 64` for the `uint64` fields of a 64-bit one. -/
def Width.fieldBound : Width → Nat
  | .W32 => 2 ^ 32
  | .W64 => 2 ^ 64

/-- The `n` records of `E` bytes each that start at file offset `off`, decoded one by
one. -/
def recordsAt {α : Type} (decode : List Byte → α) (fh : List Byte) (off E n : Nat) : List α :=
  (chunks E n (bytesAt fh off (off + n * E))).map decode

/-- The value the loop of `getRelocations` stores for a section whose records lie inside
the file: the `Size / E` decoded records of a section of type `SHT_REL` or `SHT_RELA`,
and nothing for a section of another type. -/
def Width.relsEntry (w : Width) (fh : List Byte) (o : ByteOrder) (sec : Section) :
    Option RelsVal :=
  if sec.Typ = SHT_REL then
    some (w.relVal (recordsAt (w.decodeRel o) fh sec.Off w.relSize (sec.Size / w.relSize)))
  else if sec.Typ = SHT_RELA then
    some (w.relaVal (recordsAt (w.decodeRela o) fh sec.Off w.relaSize (sec.Size / w.relaSize)))
  else none

/-! ## The program (`main`) -/

/-- The function `printHeader(hdr)`: the header whose fields are printed, none for a
value that is neither a `*elf.Header64` nor a `*elf.Header32`. -/
def printHeader (hdr : HdrVal) : Option Header :=
  match hdr with
  | .Header64 h => some h
  | .Header32 h => some h
  | .nil => none

/-- The function `printSections(ElfSections, numSec, secOff)`: one block per index below
`numSec`, with the name `SectionName[i]` and the fields of the section `i`; the offset
`secOff` is only printed. -/
def printSections (ElfSections : shdrTble) (numSec : Nat) :
    Except Failure (List (Nat × GoString × Section)) :=
  match ElfSections.Section with
  | .Section32 secs =>
    mapExcept (fun i =>
      match goIndex ElfSections.SectionName i with
      | .error e => .error e
      | .ok nm =>
        match goIndex secs i with
        | .error e => .error e
        | .ok sec => .ok (i, nm, sec)) (List.range numSec)
  | .Section64 secs =>
    mapExcept (fun i =>
      match goIndex ElfSections.SectionName i with
      | .error e => .error e
      | .ok nm =>
        match goIndex secs i with
        | .error e => .error e
        | .ok sec => .ok (i, nm, sec)) (List.range numSec)
  | .nil => .ok []

/-- The stages of a run that `main` calls after the options are read. -/
inductive Stage where
  | printHeader
  | getSections
  | printSections
  | getSymbols
  | getRelocations
  | printRelocations
  | test
  deriving DecidableEq

/-- The five option variables of `main`. -/
structure Flags where
  optHeader : Bool
  optSections : Bool
  optSymbols : Bool
  optRelocations : Bool
  optTest : Bool
  deriving DecidableEq

/-- The loop of `main` over the characters of the option string after the first: each of
`h`, `S`, `s`, `r`, `t` sets its variable, any other character exits. -/
def parseLoop : List Byte → Flags → Except Failure Flags
  | [], o => .ok o
  | c :: cs, o =>
    if c = 104 then parseLoop cs { o with optHeader := true }
    else if c = 83 then parseLoop cs { o with optSections := true }
    else if c = 115 then parseLoop cs { o with optSymbols := true }
    else if c = 114 then parseLoop cs { o with optRelocations := true }
    else if c = 116 then parseLoop cs { o with optTest := true }
    else .error (.exit f)

/-- The option handling of `main`: `options[0]` must be `-` (the index expression panics
on an empty string), then the loop runs from index 1. -/
def parseOptions (options : GoString) : Except Failure Flags :=
  match goIndex options 0 with
  | .error e => .error e
  | .ok c =>
    if c ≠ 45 then .error (.exit f)
    else parseLoop (options.drop 1)
      { optHeader := false, optSections := false, optSymbols := false,
        optRelocations := false, optTest := false }

/-- The call `printSections(target.ElfSections, target.Hdr.(*elf.HeaderNN).Shnum, ...)`
of `main`, in the switch on `FileHdr.Arch`: the type assertion on the header panics on
another dynamic type, and any other class prints nothing. -/
def printSectionsCall (elfFs : elfFile) : Except Failure elfFile :=
  if elfFs.FileHdr.Arch = ELFCLASS32 then
    match elfFs.Hdr with
    | .Header32 h =>
      match printSections elfFs.ElfSections h.Shnum with
      | .error e => .error e
      | .ok _ => .ok elfFs
    | _ => .error (.panic .typeAssertion)
  else if elfFs.FileHdr.Arch = ELFCLASS64 then
    match elfFs.Hdr with
    | .Header64 h =>
      match printSections elfFs.ElfSections h.Shnum with
      | .error e => .error e
      | .ok _ => .ok elfFs
    | _ => .error (.panic .typeAssertion)
  else .ok elfFs

/-- The call `printRelocations(&target)` of `main`: the lines are printed, the state is
as it was. -/
def printRelocationsCall (T : RelocTables) (elfFs : elfFile) : Except Failure elfFile :=
  match printRelocations T elfFs with
  | .error e => .error e
  | .ok _ => .ok elfFs

/-- The calls `main` makes after the options are read, in program order, each with the
stage it belongs to: the five `if` blocks on the option variables, with the inner tests
`optSections == false` and `optSymbols == false` of the blocks of symbols and
relocations. -/
def stages (T : RelocTables) (o : Flags) : List (Stage × (elfFile → Except Failure elfFile)) :=
  (if o.optHeader then [(Stage.printHeader, fun e => .ok e)] else []) ++
  (if o.optSections then
    [(Stage.getSections, getSections), (Stage.printSections, printSectionsCall)]
   else []) ++
  (if o.optSymbols then
    (if o.optSections = false then [(Stage.getSections, getSections)] else []) ++
      [(Stage.getSymbols, getSymbols)]
   else []) ++
  (if o.optRelocations then
    (if o.optSections = false then [(Stage.getSections, getSections)] else []) ++
      (if o.optSymbols = false then [(Stage.getSymbols, getSymbols)] else []) ++
      [(Stage.getRelocations, getRelocations),
       (Stage.printRelocations, printRelocationsCall T)]
   else []) ++
  (if o.optTest then [(Stage.test, fun e => .ok e)] else [])

/-- A run of the program so far: the stages called, in order, and the state reached or
the failure that ended the run. -/
structure Run where
  trace : List Stage
  result : Except Failure elfFile

/-- One call of a run: nothing is called once the run has ended in a failure; otherwise
the stage is entered and its outcome becomes the outcome of the run. -/
def Run.call (r : Run) (c : Stage × (elfFile → Except Failure elfFile)) : Run :=
  match r.result with
  | .error _ => r
  | .ok e => { trace := r.trace ++ [c.1], result := c.2 e }

/-- A sequence of calls, one after the other. -/
def Run.calls (r : Run) : List (Stage × (elfFile → Except Failure elfFile)) → Run
  | [] => r
  | c :: cs => Run.calls (r.call c) cs

/-- The part of `main` before the first stage: the argument count, `os.Open` of the file
named by `os.Args[2]`, the read of the identification, the magic check (exit status 1),
`setArch`, `mapHeader`, and the option handling. The file system is the map `fs` from a
name to the content of the file, if it can be opened. -/
def startup (args : List GoString) (fs : GoString → Option (List Byte)) :
    Except Failure (elfFile × Flags) :=
  if args.length < 3 then .error (.exit f)
  else
    match goIndex args 2 with
    | .error e => .error e
    | .ok bin =>
      match fs bin with
      | none => .error (.panic .openError)
      | some fh =>
        let target := openState fh
        match isElf (target.Ident.take 4) with
        | .error e => .error e
        | .ok b =>
          if b = false then .error (.exit 1)
          else
            match classify target with
            | .error e => .error e
            | .ok target =>
              match goIndex args 1 with
              | .error e => .error e
              | .ok options =>
                match parseOptions options with
                | .error e => .error e
                | .ok o => .ok (target, o)

/-- The function `main` on the arguments `os.Args` and a file system: the stages it
calls and the outcome of the run. -/
def main (T : RelocTables) (args : List GoString) (fs : GoString → Option (List Byte)) :
    Run :=
  match startup args fs with
  | .error e => { trace := [], result := .error e }
  | .ok (target, o) => Run.calls { trace := [], result := .ok target } (stages T o)

/-- The stages of the calls of `main` for given option variables, by name. -/
def schedule (o : Flags) : List Stage :=
  (if o.optHeader then [Stage.printHeader] else []) ++
  (if o.optSections then [Stage.getSections, Stage.printSections] else []) ++
  (if o.optSymbols then
    (if o.optSections = false then [Stage.getSections] else []) ++ [Stage.getSymbols]
   else []) ++
  (if o.optRelocations then
    (if o.optSections = false then [Stage.getSections] else []) ++
      (if o.optSymbols = false then [Stage.getSymbols] else []) ++
      [Stage.getRelocations, Stage.printRelocations]
   else []) ++
  (if o.optTest then [Stage.test] else [])

/-- A file system with one file, `a.out`, whose content is the fixture file. -/
def dynFs (name : GoString) : Option (List Byte) :=
  if name = str "a.out" then some dynFile else none

/-! ## Further fixtures -/

/-- The file `dynFile` with the data-encoding byte (index 5) set to 0. -/
def noEncodingFile : List Byte := dynFile.set 5 0

/-- The state `dynState` with the size of `.dynsym` declared as 73 instead of 72: one
byte more than three records. -/
def oddSizeState : elfFile :=
  { dynState with
    ElfSections :=
      { dynState.ElfSections with
        Section := .Section64 (dynSections.set 1
          { Name := 1, Typ := 11, Flags := 2, Addr := 0, Off := 64, Size := 73, Link := 2,
            Info := 1, Addralign := 8, Entsize := 24 }) } }

/-- The section table of `dynFile` with the size of `.dynsym` declared as 0. -/
def emptyDynsymSections : List Section :=
  dynSections.set 1
    { Name := 1, Typ := 11, Flags := 2, Addr := 0, Off := 64, Size := 0, Link := 2,
      Info := 1, Addralign := 8, Entsize := 24 }

/-- The state `dynState` with the size of `.dynsym` declared as 0: a dynamic symbol
table without any entry. -/
def emptyDynsymState : elfFile :=
  { dynState with
    ElfSections :=
      { dynState.ElfSections with Section := .Section64 emptyDynsymSections } }

/-- The section table of `dynFile` with the link of `.rela.dyn` set to 2, the index of
`.dynstr`. -/
def linkToDynstr : List Section :=
  dynSections.set 3
    { Name := 17, Typ := 4, Flags := 2, Addr := 0, Off := 145, Size := 48, Link := 2,
      Info := 0, Addralign := 8, Entsize := 24 }

/-- A 32-bit little-endian state whose section table holds a `.symtab` section of two
records, the null symbol and a section symbol without a name, and no `.strtab`
section. -/
def sectionSymbolState : elfFile :=
  { Fh := [ 0, 0, 0, 0, 0, 0, 0, 0, 0, 0, 0, 0, 0, 0, 0, 0,
            0, 0, 0, 0, 0, 0, 0, 0, 0, 0, 0, 0, 3, 0, 1, 0 ],
    Ident := [],
    FileHdr := { Endianness := some .LittleEndian, Arch := ELFCLASS32, Machine := 3 },
    Hdr := .nil,
    ElfSections :=
      { Section := .Section32
          [ { Name := 0, Typ := 0, Flags := 0, Addr := 0, Off := 0, Size := 0, Link := 0,
              Info := 0, Addralign := 0, Entsize := 0 },
            { Name := 1, Typ := 2, Flags := 0, Addr := 0, Off := 0, Size := 32, Link := 0,
              Info := 2, Addralign := 4, Entsize := 16 } ],
        SectionName := [str "", str ".symtab"] },
    Symbols := [], SymbolsName := [], DynSymbols := [], DynSymbolsName := [], Rels := [] }

/-- A 32-bit little-endian state with a `.dynsym` section of two records and a readable
`.dynstr` section of one byte, and no `.symtab` section; the second symbol has the name
offset 5, beyond the one byte of `.dynstr`. -/
def shortDynstrState : elfFile :=
  { Fh := [ 0, 0, 0, 0, 0, 0, 0, 0, 0, 0, 0, 0, 0, 0, 0, 0,
            5, 0, 0, 0, 0, 16, 0, 0, 4, 0, 0, 0, 18, 0, 1, 0,
            0 ],
    Ident := [],
    FileHdr := { Endianness := some .LittleEndian, Arch := ELFCLASS32, Machine := 3 },
    Hdr := .nil,
    ElfSections :=
      { Section := .Section32
          [ { Name := 0, Typ := 0, Flags := 0, Addr := 0, Off := 0, Size := 0, Link := 0,
              Info := 0, Addralign := 0, Entsize := 0 },
            { Name := 1, Typ := 11, Flags := 2, Addr := 0, Off := 0, Size := 32, Link := 2,
              Info := 1, Addralign := 4, Entsize := 16 },
            { Name := 9, Typ := 3, Flags := 2, Addr := 0, Off := 32, Size := 1, Link := 0,
              Info := 0, Addralign := 1, Entsize := 0 } ],
        SectionName := [str "", str ".dynsym", str ".dynstr"] },
    Symbols := [], SymbolsName := [], DynSymbols := [], DynSymbolsName := [], Rels := [] }

/-- A 32-bit little-endian state whose section 0 is named `.dynsym` (one record, the 16
first bytes of the file) and whose section 1 is named `.dynstr` (one byte). -/
def dynsymAtZeroState : elfFile :=
  { Fh := [ 0, 0, 0, 0, 0, 0, 0, 0, 0, 0, 0, 0, 0, 0, 0, 0, 0 ],
    Ident := [],
    FileHdr := { Endianness := some .LittleEndian, Arch := ELFCLASS32, Machine := 3 },
    Hdr := .nil,
    ElfSections :=
      { Section := .Section32
          [ { Name := 1, Typ := 11, Flags := 2, Addr := 0, Off := 0, Size := 16, Link := 1,
              Info := 1, Addralign := 4, Entsize := 16 },
            { Name := 9, Typ := 3, Flags := 2, Addr := 0, Off := 16, Size := 1, Link := 0,
              Info := 0, Addralign := 1, Entsize := 0 } ],
        SectionName := [str ".dynsym", str ".dynstr"] },
    Symbols := [], SymbolsName := [], DynSymbols := [], DynSymbolsName := [], Rels := [] }

/-- A string pool of exactly `2 ^ 32` bytes: a zero byte, the name `abc`, its terminator
and zero bytes up to the end. -/
def pool4GiB : List Byte := [0, 97, 98, 99, 0] ++ List.replicate (2 ^ 32 - 5) 0

/-- Two 64-bit symbol records: the null symbol, and a global function with name offset
1, value `0x1000` and section index 5. -/
def poolSyms : List Byte :=
  [ 0, 0, 0, 0, 0, 0, 0, 0, 0, 0, 0, 0, 0, 0, 0, 0, 0, 0, 0, 0, 0, 0, 0, 0,
    1, 0, 0, 0, 18, 0, 5, 0, 0, 16, 0, 0, 0, 0, 0, 0, 0, 0, 0, 0, 0, 0, 0, 0 ]

/-- The section table of a 64-bit file that holds the records `poolSyms` as `.dynsym` at
offset 0 and the string pool `pool` as `.dynstr` at offset 48, with a `.rela.dyn`
section that links to `.dynsym`. -/
def poolSections (pool : List Byte) : List Section :=
  [ { Name := 0, Typ := 0, Flags := 0, Addr := 0, Off := 0, Size := 0, Link := 0, Info := 0,
      Addralign := 0, Entsize := 0 },
    { Name := 1, Typ := 11, Flags := 2, Addr := 0, Off := 0, Size := 48, Link := 2, Info := 1,
      Addralign := 8, Entsize := 24 },
    { Name := 9, Typ := 3, Flags := 2, Addr := 0, Off := 48, Size := pool.length, Link := 0,
      Info := 0, Addralign := 1, Entsize := 0 },
    { Name := 17, Typ := 4, Flags := 2, Addr := 0, Off := 0, Size := 0, Link := 1, Info := 0,
      Addralign := 8, Entsize := 24 } ]

/-- The state of a run on the 64-bit little-endian file `poolSyms ++ pool` once its
section table is read. -/
def poolState (pool : List Byte) : elfFile :=
  { Fh := poolSyms ++ pool, Ident := [],
    FileHdr := { Endianness := some .LittleEndian, Arch := ELFCLASS64, Machine := 62 },
    Hdr := .nil,
    ElfSections := { Section := .Section64 (poolSections pool),
                     SectionName := [str "", str ".dynsym", str ".dynstr", str ".rela.dyn"] },
    Symbols := [], SymbolsName := [], DynSymbols := [], DynSymbolsName := [], Rels := [] }

/-! # Theorems -/

/-! ## Name resolution -/

theorem goIndex_of_lt {α : Type} (l : List α) (i : Nat) (h : i < l.length) :
    goIndex l i = .ok (l.get ⟨i, h⟩) := by
  simp [goIndex, List.getElem?_eq_getElem h]

theorem u32_le (n : Nat) : u32 n ≤ n := Nat.mod_le _ _

theorem u32_lt (n : Nat) : u32 n < 2 ^ 32 := Nat.mod_lt _ (by norm_num)

theorem u32_of_lt {n : Nat} (h : n < 2 ^ 32) : u32 n = n := Nat.mod_eq_of_lt h

theorem scanName_stop (tab : List Byte) (limit fuel e : Nat) (h : ¬ e < limit) :
    scanName tab limit (fuel + 1) e = .ok e := by
  simp [scanName, h]

theorem scanName_spec (tab : List Byte) (limit : Nat) (hl : limit ≤ tab.length)
    (h32 : limit < 2 ^ 32) :
    ∀ fuel e, limit < e + fuel → 0 < fuel →
      ∃ e2, scanName tab limit fuel e = .ok e2 ∧ e ≤ e2 ∧ (e2 ≤ limit ∨ e2 = e) ∧
        (∀ i, e ≤ i → i < e2 → tab[i]? ≠ some 0) ∧ (e2 < limit → tab[e2]? = some 0) := by
  intro fuel
  induction fuel with
  | zero => intro e _ h; omega
  | succ fuel ih =>
    intro e hf _
    by_cases he : e < limit
    · have hlen : e < tab.length := by omega
      by_cases hb : tab[e] = 0
      · refine ⟨e, ?_, le_refl _, Or.inr rfl, ?_, ?_⟩
        · simp [scanName, he, goIndex, List.getElem?_eq_getElem hlen, hb]
        · intro i h1 h2; omega
        · intro _; simp [List.getElem?_eq_getElem hlen, hb]
      · have hstep : u32 (e + 1) = e + 1 := u32_of_lt (by omega)
        obtain ⟨e2, h1, h2, h3, h4, h5⟩ := ih (e + 1) (by omega) (by omega)
        refine ⟨e2, ?_, by omega, ?_, ?_, h5⟩
        · simp [scanName, he, goIndex, List.getElem?_eq_getElem hlen, hb, hstep, h1]
        · rcases h3 with h3 | h3
          · exact Or.inl h3
          · left; omega
        · intro i hi1 hi2
          by_cases hie : i = e
          · subst hie; simp [List.getElem?_eq_getElem hlen, hb]
          · exact h4 i (by omega) hi2
    · exact ⟨e, scanName_stop tab limit fuel e he, le_refl _, Or.inr rfl,
        fun i h1 h2 => by omega, fun h => absurd h he⟩

theorem takeWhile_eq_take {α : Type} (p : α → Bool) :
    ∀ (l : List α) (n : Nat), n ≤ l.length →
      (∀ i, i < n → ∃ a, l[i]? = some a ∧ p a = true) →
      (n < l.length → ∃ a, l[n]? = some a ∧ p a = false) →
      l.takeWhile p = l.take n := by
  intro l
  induction l with
  | nil => intro n _ _ _; simp
  | cons a l ih =>
    intro n hn hall hstop
    cases n with
    | zero =>
      obtain ⟨b, hb, hp⟩ := hstop (by simp)
      simp at hb; subst hb
      simp [List.takeWhile, hp]
    | succ n =>
      obtain ⟨b, hb, hp⟩ := hall 0 (by omega)
      simp at hb; subst hb
      have := ih n (by simpa using hn) (fun i hi => by simpa using hall (i + 1) (by omega))
        (fun h => by simpa using hstop (by simpa using h))
      simp [List.takeWhile, hp, this]


/-- The general shape of a name resolution: for an offset within the pool the scan ends
without a panic at some `e` between the offset and the end of the pool, the bytes before
`e` are nonzero, and the name is `tab[sIndex:e]`. -/
theorem getSectionName_scan (tab : List Byte) (sIndex : Nat) (h : sIndex ≤ tab.length) :
    ∃ e, sIndex ≤ e ∧ e ≤ tab.length ∧ (e ≤ u32 tab.length ∨ e = sIndex) ∧
      (∀ i, sIndex ≤ i → i < e → tab[i]? ≠ some 0) ∧
      (e < u32 tab.length → tab[e]? = some 0) ∧
      getSectionName sIndex tab = .ok ((tab.drop sIndex).take (e - sIndex)) := by
  obtain ⟨e, h1, h2, h3, h4, h5⟩ :=
    scanName_spec tab (u32 tab.length) (u32_le _) (u32_lt _) (tab.length + 1) sIndex
      (by have := u32_le tab.length; omega) (by omega)
  have hle : e ≤ tab.length := by
    have := u32_le tab.length
    rcases h3 with h3 | h3 <;> omega
  refine ⟨e, h2, hle, h3, h4, h5, ?_⟩
  simp [getSectionName, h1, goSlice, h2, hle]

/-- An offset beyond the end of the pool makes the slice expression panic. -/
theorem getSectionName_beyond (tab : List Byte) (sIndex : Nat) (h : tab.length < sIndex) :
    getSectionName sIndex tab = .error (.panic .sliceBounds) := by
  have hs : ¬ sIndex < u32 tab.length := by
    have := u32_le tab.length; omega
  simp [getSectionName, scanName_stop _ _ _ _ hs, goSlice]
  omega

/-- A name resolution succeeds exactly for the offsets within the pool. -/
theorem getSectionName_ok (tab : List Byte) (sIndex : Nat) (h : sIndex ≤ tab.length) :
    ∃ nm, getSectionName sIndex tab = .ok nm := by
  obtain ⟨e, _, _, _, _, _, h6⟩ := getSectionName_scan tab sIndex h
  exact ⟨_, h6⟩

/-- A successful name resolution had its offset within the pool. -/
theorem getSectionName_ok_le (tab : List Byte) (sIndex : Nat) (nm : GoString)
    (h : getSectionName sIndex tab = .ok nm) : sIndex ≤ tab.length := by
  by_contra hlt
  rw [getSectionName_beyond tab sIndex (by omega)] at h
  cases h

/-- For a pool shorter than `2 ^ 32` bytes and an offset within it, `getSectionName`
returns the null-terminated string at the offset: the bytes from the offset up to the
first zero byte, or up to the end of the pool when there is none. -/
theorem getSectionName_eq_cstringAt (tab : List Byte) (sIndex : Nat)
    (h32 : tab.length < 2 ^ 32) (h : sIndex ≤ tab.length) :
    getSectionName sIndex tab = .ok (cstringAt tab sIndex) := by
  obtain ⟨e, h1, h2, _, h4, h5, h6⟩ := getSectionName_scan tab sIndex h
  rw [h6, cstringAt]
  congr 1
  symm
  rw [u32_of_lt h32] at h5
  apply takeWhile_eq_take
  · simp; omega
  · intro i hi
    have hlt : sIndex + i < tab.length := by omega
    refine ⟨tab[sIndex + i], by simp [List.getElem?_drop, List.getElem?_eq_getElem hlt], ?_⟩
    have := h4 (sIndex + i) (by omega) (by omega)
    simpa [List.getElem?_eq_getElem hlt] using this
  · intro hlt
    simp at hlt
    have hlt2 : e < tab.length := by omega
    have := h5 hlt2
    refine ⟨0, ?_, by simp⟩
    simp [List.getElem?_drop]
    have he : sIndex + (e - sIndex) = e := by omega
    rw [he]; exact this

/-- The name returned by `getSectionName` holds no zero byte (pools shorter than
`2 ^ 32` bytes). -/
theorem getSectionName_no_zero (tab : List Byte) (sIndex : Nat) (nm : GoString)
    (h32 : tab.length < 2 ^ 32) (h : getSectionName sIndex tab = .ok nm) : (0 : Byte) ∉ nm := by
  have hle := getSectionName_ok_le tab sIndex nm h
  rw [getSectionName_eq_cstringAt tab sIndex h32 hle] at h
  cases h
  intro hmem
  have := List.mem_takeWhile_imp hmem
  simp at this

/-- A pool whose length is a multiple of `2 ^ 32`: the scan does not start, and the name
at offset `0` is empty. -/
theorem getSectionName_zero_of_u32_length (tab : List Byte) (h : u32 tab.length = 0) :
    getSectionName 0 tab = .ok [] := by
  have hs : ¬ 0 < u32 tab.length := by omega
  rw [getSectionName, scanName_stop _ _ _ _ hs]
  simp [goSlice]

/-- The null-terminated string at the start of a pool that begins with `abc\0`. -/
theorem cstringAt_abc (rest : List Byte) : cstringAt ([97, 98, 99, 0] ++ rest) 0 = [97, 98, 99] := by
  simp [cstringAt, List.takeWhile]

/-- C1 (the code at the failing input). A pool of exactly `2 ^ 32` bytes that starts
with the name `abc` and its terminator: the length converted to `uint32` is `0`, the
scan does not start, and the name resolved at offset `0` is empty, while the
null-terminated string at offset `0` is `abc`. -/
theorem getSectionName_pool_of_4GiB :
    ([97, 98, 99, 0] ++ List.replicate (2 ^ 32 - 4) (0 : Byte)).length = 2 ^ 32 ∧
    getSectionName 0 ([97, 98, 99, 0] ++ List.replicate (2 ^ 32 - 4) (0 : Byte)) = .ok [] ∧
    cstringAt ([97, 98, 99, 0] ++ List.replicate (2 ^ 32 - 4) (0 : Byte)) 0 = [97, 98, 99] := by
  have hlen : ([97, 98, 99, 0] ++ List.replicate (2 ^ 32 - 4) (0 : Byte)).length = 2 ^ 32 := by
    rw [List.length_append, List.length_replicate]
    rfl
  refine ⟨hlen, getSectionName_zero_of_u32_length _ ?_, cstringAt_abc _⟩
  rw [hlen]
  rfl

/-- C7 (counterexample). In the pool `\0ab` the scan from offset 1 reaches the end of the
pool without meeting a zero byte, and so does the scan from offset 3, the length of the
pool: both resolutions return a name (`ab` and the empty name), neither fails. -/
theorem getSectionName_runs_to_end_of_pool :
    getSectionName 1 [0, 97, 98] = .ok [97, 98] ∧ getSectionName 3 [0, 97, 98] = .ok [] := by
  decide

/-- C7 (amended). From an offset within the pool, name resolution never fails: it
returns a name, and when the scan reaches the end of a pool shorter than `2 ^ 32` bytes
without meeting a zero byte the name is the rest of the pool from the offset (empty at
the offset equal to the length). From an offset beyond the length of the pool it does not
return a name: the slice expression panics. -/
theorem getSectionName_end_of_pool (tab : List Byte) (sIndex : Nat) :
    (sIndex ≤ tab.length →
      ∃ nm, getSectionName sIndex tab = .ok nm ∧
        (tab.length < 2 ^ 32 → (∀ i, sIndex ≤ i → tab[i]? ≠ some 0) →
          nm = tab.drop sIndex)) ∧
    (tab.length < sIndex → getSectionName sIndex tab = .error (.panic .sliceBounds)) := by
  refine ⟨fun h => ?_, getSectionName_beyond tab sIndex⟩
  obtain ⟨e, h1, h2, _, _, h5, h6⟩ := getSectionName_scan tab sIndex h
  refine ⟨_, h6, fun h32 hnz => ?_⟩
  rw [u32_of_lt h32] at h5
  have he : e = tab.length := by
    by_contra hne
    exact hnz e h1 (h5 (by omega))
  subst he
  rw [List.take_of_length_le]
  simp

/-- C7 (witness): the amended statement at the pool `\0ab`, offsets 1 and 4. -/
theorem getSectionName_end_of_pool_witness :
    (∃ nm, getSectionName 1 [0, 97, 98] = .ok nm ∧
      ((3 : Nat) < 2 ^ 32 → (∀ i, 1 ≤ i → ([0, 97, 98] : List Byte)[i]? ≠ some 0) →
        nm = [97, 98])) ∧
    getSectionName 4 [0, 97, 98] = .error (.panic .sliceBounds) :=
  ⟨(getSectionName_end_of_pool [0, 97, 98] 1).1 (by decide),
   (getSectionName_end_of_pool [0, 97, 98] 4).2 (by decide)⟩

/-! ## Relocation info words and relocation-type names -/

/-- C3. The 32-bit info word splits into its high 24 bits (symbol index, `info / 2 ^ 8`)
and its low 8 bits (type code, `info mod 2 ^ 8`); the 64-bit info word splits into its
high 32 bits and its low 32 bits; in both widths the pair determines the word. -/
theorem R_info_split (info32 info64 : Nat) (h64 : info64 < 2 ^ 64) :
    (R_SYM32 info32 = info32 / 2 ^ 8 ∧ R_TYPE32 info32 = info32 % 2 ^ 8 ∧
      R_SYM32 info32 * 2 ^ 8 + R_TYPE32 info32 = info32) ∧
    (R_SYM64 info64 = info64 / 2 ^ 32 ∧ R_TYPE64 info64 = info64 % 2 ^ 32 ∧
      R_SYM64 info64 * 2 ^ 32 + R_TYPE64 info64 = info64) := by
  have hs32 : R_SYM32 info32 = info32 / 2 ^ 8 := by
    simp [R_SYM32, Nat.shiftRight_eq_div_pow]
  have ht32 : R_TYPE32 info32 = info32 % 2 ^ 8 := by
    have := Nat.and_pow_two_sub_one_eq_mod info32 8
    simpa [R_TYPE32] using this
  have hs64 : R_SYM64 info64 = info64 / 2 ^ 32 := by
    simp only [R_SYM64, u32, Nat.shiftRight_eq_div_pow]
    apply Nat.mod_eq_of_lt
    omega
  have ht64 : R_TYPE64 info64 = info64 % 2 ^ 32 := rfl
  refine ⟨⟨hs32, ht32, ?_⟩, hs64, ht64, ?_⟩
  · rw [hs32, ht32]; omega
  · rw [hs64, ht64]; omega

/-- C3 (witness): the split of the 64-bit word `0x0000000500000007` and of the 32-bit
word `0x00000507`. -/
theorem R_info_split_witness :
    (R_SYM32 0x507 = 0x507 / 2 ^ 8 ∧ R_TYPE32 0x507 = 0x507 % 2 ^ 8 ∧
      R_SYM32 0x507 * 2 ^ 8 + R_TYPE32 0x507 = 0x507) ∧
    (R_SYM64 0x500000007 = 0x500000007 / 2 ^ 32 ∧ R_TYPE64 0x500000007 = 0x500000007 % 2 ^ 32 ∧
      R_SYM64 0x500000007 * 2 ^ 32 + R_TYPE64 0x500000007 = 0x500000007) :=
  R_info_split 0x507 0x500000007 (by norm_num)

/-- C8. For a machine type that is none of the ten covered ones, and for every
relocation-type code, `resolveRelocType` returns the marker `R_UNKNOWN`; the function is
total, so it does not fail. -/
theorem resolveRelocType_other_machine (T : RelocTables) (rType mType : Nat)
    (h : mType ∉ coveredMachines) : resolveRelocType T rType mType = "R_UNKNOWN" := by
  simp [coveredMachines] at h
  obtain ⟨h1, h2, h3, h4, h5, h6, h7, h8, h9, h10⟩ := h
  simp [resolveRelocType, h1, h2, h3, h4, h5, h6, h7, h8, h9, h10]

/-- C8 (witness): machine type 0 (`EM_NONE`), code 7. -/
theorem resolveRelocType_other_machine_witness :
    resolveRelocType exampleTables 7 0 = "R_UNKNOWN" :=
  resolveRelocType_other_machine exampleTables 7 0 (by decide)

/-- The fields of a 32-bit symbol record by their position in the record. -/
theorem decodeSym32_fields (order : ByteOrder) (bs : List Byte) :
    decodeSym32 order bs =
      { Name := order.uint (bytesAt bs 0 4), Value := order.uint (bytesAt bs 4 8),
        Size := order.uint (bytesAt bs 8 12), Info := order.uint (bytesAt bs 12 13),
        Other := order.uint (bytesAt bs 13 14), Shndx := order.uint (bytesAt bs 14 16) } := by
  simp [decodeSym32, decodeFields, bytesAt, List.drop_drop]

/-- The fields of a 64-bit symbol record by their position in the record. -/
theorem decodeSym64_fields (order : ByteOrder) (bs : List Byte) :
    decodeSym64 order bs =
      { Name := order.uint (bytesAt bs 0 4), Info := order.uint (bytesAt bs 4 5),
        Other := order.uint (bytesAt bs 5 6), Shndx := order.uint (bytesAt bs 6 8),
        Value := order.uint (bytesAt bs 8 16), Size := order.uint (bytesAt bs 16 24) } := by
  simp [decodeSym64, decodeFields, bytesAt, List.drop_drop]

/-- The bytes below `n` of a buffer do not depend on what follows them. -/
theorem bytesAt_take (bs : List Byte) (n lo hi : Nat) (h : hi ≤ n) :
    bytesAt (bs.take n) lo hi = bytesAt bs lo hi := by
  unfold bytesAt
  rw [List.drop_take, List.take_take]
  congr 1
  omega

/-- C10. A 32-bit symbol record (16 bytes) yields the name offset from bytes 0-3, the
value from bytes 4-7, the size from bytes 8-11, info from byte 12, other from byte 13
and the section index from bytes 14-15; a 64-bit record (24 bytes) yields the name
offset from bytes 0-3, info from byte 4, other from byte 5, the section index from
bytes 6-7, the value from bytes 8-15 and the size from bytes 16-23; nothing after the
record is read; every field is read in the byte order the decoder is given, least
significant byte first for little-endian and last for big-endian. -/
theorem decodeSym_layout (order : ByteOrder) (bs : List Byte) :
    decodeSym32 order bs =
      { Name := order.uint (bytesAt bs 0 4), Value := order.uint (bytesAt bs 4 8),
        Size := order.uint (bytesAt bs 8 12), Info := order.uint (bytesAt bs 12 13),
        Other := order.uint (bytesAt bs 13 14), Shndx := order.uint (bytesAt bs 14 16) } ∧
    decodeSym64 order bs =
      { Name := order.uint (bytesAt bs 0 4), Info := order.uint (bytesAt bs 4 5),
        Other := order.uint (bytesAt bs 5 6), Shndx := order.uint (bytesAt bs 6 8),
        Value := order.uint (bytesAt bs 8 16), Size := order.uint (bytesAt bs 16 24) } ∧
    decodeSym32 order (bs.take symSize32) = decodeSym32 order bs ∧
    decodeSym64 order (bs.take symSize64) = decodeSym64 order bs ∧
    symSize32 = 16 ∧ symSize64 = 24 ∧
    (∀ a b c d : Byte, ByteOrder.LittleEndian.uint [a, b, c, d] =
      a.val + 2 ^ 8 * b.val + 2 ^ 16 * c.val + 2 ^ 24 * d.val) ∧
    (∀ a b c d : Byte, ByteOrder.BigEndian.uint [a, b, c, d] =
      2 ^ 24 * a.val + 2 ^ 16 * b.val + 2 ^ 8 * c.val + d.val) := by
  refine ⟨decodeSym32_fields order bs, decodeSym64_fields order bs, ?_, ?_, rfl, rfl, ?_, ?_⟩
  · rw [decodeSym32_fields, decodeSym32_fields order bs]
    simp only [symSize32]
    rw [bytesAt_take _ _ _ _ (by norm_num), bytesAt_take _ _ _ _ (by norm_num),
      bytesAt_take _ _ _ _ (by norm_num), bytesAt_take _ _ _ _ (by norm_num),
      bytesAt_take _ _ _ _ (by norm_num), bytesAt_take _ _ _ _ (by norm_num)]
  · rw [decodeSym64_fields, decodeSym64_fields order bs]
    simp only [symSize64]
    rw [bytesAt_take _ _ _ _ (by norm_num), bytesAt_take _ _ _ _ (by norm_num),
      bytesAt_take _ _ _ _ (by norm_num), bytesAt_take _ _ _ _ (by norm_num),
      bytesAt_take _ _ _ _ (by norm_num), bytesAt_take _ _ _ _ (by norm_num)]
  · intro a b c d; simp [ByteOrder.uint]; omega
  · intro a b c d; simp [ByteOrder.uint]; omega

/-! ## Section table -/

set_option maxRecDepth 100000

theorem chunks_length (E : Nat) : ∀ (n : Nat) (bs : List Byte), (chunks E n bs).length = n := by
  intro n
  induction n with
  | zero => intro bs; rfl
  | succ n ih => intro bs; simp [chunks, ih]

theorem readRecords_length {α : Type} (decode : ByteOrder → List Byte → α) (E : Nat)
    (sr : SectionReader) (order : Option ByteOrder) (count : Nat) (recs : List α)
    (h : readRecords decode E sr order count = .ok recs) : recs.length = count := by
  unfold readRecords at h
  split at h
  · cases h
  · split at h
    · cases h; subst_vars; rfl
    · split at h
      · cases h
      · cases h; simp [chunks_length]

theorem readRecords_error {α : Type} (decode : ByteOrder → List Byte → α) (E : Nat)
    (sr : SectionReader) (order : Option ByteOrder) (count : Nat) (e : Failure)
    (h : readRecords decode E sr order count = .error e) :
    e = .panic .nilByteOrder ∨ ∃ r, e = .panic (.read r) := by
  unfold readRecords at h
  split at h
  · cases h; exact Or.inr ⟨_, rfl⟩
  · split at h
    · cases h
    · split at h
      · cases h; exact Or.inl rfl
      · cases h

theorem goIndex_of_le {α : Type} (l : List α) (i : Nat) (h : l.length ≤ i) :
    goIndex l i = .error (.panic .indexOutOfRange) := by
  simp [goIndex, List.getElem?_eq_none h]

theorem getSections64_bad (elfFs : elfFile) (h : Header) (hbad : h.Shnum ≤ h.Shstrndx) :
    ∃ p, getSections64 elfFs h = .error (.panic p) ∧
      (p = .indexOutOfRange ∨ p = .nilByteOrder ∨ ∃ e, p = .read e) := by
  unfold getSections64
  cases hrd : readRecords decodeSection64 64
      (NewSectionReader elfFs.Fh (int64 h.Shoff) (int64 (shdrTableSize h)))
      elfFs.FileHdr.Endianness h.Shnum with
  | error e =>
    rcases readRecords_error _ _ _ _ _ _ hrd with rfl | ⟨r, rfl⟩
    · exact ⟨.nilByteOrder, by simp only [bind, Except.bind, hrd], Or.inr (Or.inl rfl)⟩
    · exact ⟨.read r, by simp only [bind, Except.bind, hrd], Or.inr (Or.inr ⟨_, rfl⟩)⟩
  | ok secs =>
    have hlen := readRecords_length _ _ _ _ _ _ hrd
    have hidx := goIndex_of_le secs h.Shstrndx (by omega)
    refine ⟨.indexOutOfRange, ?_, Or.inl rfl⟩
    simp only [bind, Except.bind, hrd, hidx]

theorem getSections32_bad (elfFs : elfFile) (h : Header) (hbad : h.Shnum ≤ h.Shstrndx) :
    ∃ p, getSections32 elfFs h = .error (.panic p) ∧
      (p = .indexOutOfRange ∨ p = .nilByteOrder ∨ ∃ e, p = .read e) := by
  unfold getSections32
  cases hrd : readRecords decodeSection32 40
      (NewSectionReader elfFs.Fh (int64 h.Shoff) (int64 (shdrTableSize h)))
      elfFs.FileHdr.Endianness h.Shnum with
  | error e =>
    rcases readRecords_error _ _ _ _ _ _ hrd with rfl | ⟨r, rfl⟩
    · exact ⟨.nilByteOrder, by simp only [bind, Except.bind, hrd], Or.inr (Or.inl rfl)⟩
    · exact ⟨.read r, by simp only [bind, Except.bind, hrd], Or.inr (Or.inr ⟨_, rfl⟩)⟩
  | ok secs =>
    have hlen := readRecords_length _ _ _ _ _ _ hrd
    have hidx := goIndex_of_le secs h.Shstrndx (by omega)
    refine ⟨.indexOutOfRange, ?_, Or.inl rfl⟩
    simp only [bind, Except.bind, hrd, hidx]

/-- C5 (counterexample). The fixture file with the string-table index of its header set
to 5, the section count: the five section headers are read, and `getSections` ends in
the runtime panic of the index expression `Section[h.Shstrndx]`. -/
theorem getSections_shstrndx_past_end_panics :
    headerShstrndxPastEnd.Shstrndx = headerShstrndxPastEnd.Shnum ∧
    getSections (freshState dynFile ELFCLASS64 (some .LittleEndian) 62
      (.Header64 headerShstrndxPastEnd)) = .error (.panic .indexOutOfRange) := by
  decide

/-- C5 (amended). For every header, of either width, whose string-table index is not
below the section count, `getSections` does not return a section table: the run ends in
a runtime panic, which is the index expression `Section[h.Shstrndx]` out of range, or,
before it is reached, the failed read of the section header table or its decode through
an unset byte order. -/
theorem getSections_shstrndx_out_of_range (elfFs : elfFile) (h : Header)
    (hh : elfFs.Hdr = .Header64 h ∨ elfFs.Hdr = .Header32 h) (hbad : h.Shnum ≤ h.Shstrndx) :
    ∃ p, getSections elfFs = .error (.panic p) ∧
      (p = .indexOutOfRange ∨ p = .nilByteOrder ∨ ∃ e, p = .read e) := by
  rcases hh with hh | hh
  · simpa only [getSections, hh] using getSections64_bad elfFs h hbad
  · simpa only [getSections, hh] using getSections32_bad elfFs h hbad

/-- C5 (witness): the amended statement at the fixture file with the string-table index
5. -/
theorem getSections_shstrndx_out_of_range_witness :
    ∃ p, getSections (freshState dynFile ELFCLASS64 (some .LittleEndian) 62
        (.Header64 headerShstrndxPastEnd)) = .error (.panic p) ∧
      (p = .indexOutOfRange ∨ p = .nilByteOrder ∨ ∃ e, p = .read e) :=
  getSections_shstrndx_out_of_range _ headerShstrndxPastEnd (Or.inl rfl) (by decide)

/-- The byte span is the exact product as long as the product stays below `2 ^ 16`. -/
theorem shdrTableSize_of_lt (h : Header) (hlt : h.Shentsize * h.Shnum < 2 ^ 16) :
    shdrTableSize h = h.Shentsize * h.Shnum := Nat.mod_eq_of_lt hlt

/-- C6 (the code at the failing input). A header with 1024 sections of 64 bytes: the
exact product is 65536, the span `getSections` opens its reader with is 0, and on every
file the read of the section header table fails at once with `EOF`, which `checkError`
turns into a panic. -/
theorem getSections_span_wraps (fh : List Byte) (order : Option ByteOrder) :
    header1024Sections.Shentsize * header1024Sections.Shnum = 65536 ∧
    shdrTableSize header1024Sections = 0 ∧
    getSections (freshState fh ELFCLASS64 order 62 (.Header64 header1024Sections)) =
      .error (.panic (.read .EOF)) := by
  refine ⟨rfl, rfl, ?_⟩
  have hsr : NewSectionReader fh (int64 header1024Sections.Shoff)
      (int64 (shdrTableSize header1024Sections)) = { r := fh, off := 64, limit := 64 } := by
    simp [NewSectionReader, header1024Sections, shdrTableSize, u16, int64, wrap64, maxint64]
  simp only [getSections, freshState, getSections64, hsr, bind, Except.bind]
  simp [readRecords, SectionReader.ReadFull, header1024Sections]

/-! ## Symbol tables and relocation entries -/

/-! ## Go maps -/

theorem GoMap.get_set_self {α : Type} (m : GoMap α) (k : Nat) (v : α) :
    (m.set k v).get k = some v := by
  induction m with
  | nil => simp [GoMap.set, GoMap.get]
  | cons p m ih =>
    obtain ⟨k2, v2⟩ := p
    by_cases h : k2 = k
    · simp [GoMap.set, GoMap.get, h]
    · simp [GoMap.set, GoMap.get, h, ih]

theorem GoMap.get_set_ne {α : Type} (m : GoMap α) (k k2 : Nat) (v : α) (h : k ≠ k2) :
    (m.set k v).get k2 = m.get k2 := by
  induction m with
  | nil => simp [GoMap.set, GoMap.get, h]
  | cons p m ih =>
    obtain ⟨k3, v3⟩ := p
    by_cases h3 : k3 = k
    · subst h3; simp [GoMap.set, GoMap.get, h]
    · by_cases h4 : k3 = k2
      · subst h4; simp [GoMap.set, GoMap.get, h3]
      · simp [GoMap.set, GoMap.get, h3, h4, ih]

theorem GoMap.len_set_of_none {α : Type} (m : GoMap α) (k : Nat) (v : α)
    (h : m.get k = none) : (m.set k v).len = m.len + 1 := by
  induction m with
  | nil => simp [GoMap.set, GoMap.len]
  | cons p m ih =>
    obtain ⟨k3, v3⟩ := p
    by_cases h3 : k3 = k
    · simp [GoMap.get, h3] at h
    · simp only [GoMap.get, h3, if_false] at h
      have := ih h
      simp only [GoMap.len] at this ⊢
      simp [GoMap.set, h3, this]

/-! ## Section readers -/

theorem ReadFull_ok (fh : List Byte) (p E : Nat) (L : Int) (hE : 0 < E)
    (hL : ((p + E : Nat) : Int) ≤ L) (hfile : p + E ≤ fh.length) :
    SectionReader.ReadFull { r := fh, off := (p : Int), limit := L } E =
      .ok ((fh.drop p).take E, { r := fh, off := ((p + E : Nat) : Int), limit := L }) := by
  unfold SectionReader.ReadFull
  have h1 : ¬ E = 0 := by omega
  have h2 : ¬ L ≤ (p : Int) := by omega
  have h3 : ¬ (p : Int) < 0 := by omega
  have h4 : E ≤ min L.toNat fh.length - p := by omega
  simp [h1, h2, h3, h4]

theorem readStruct_ok {α : Type} (decode : ByteOrder → List Byte → α) (fh : List Byte)
    (p E : Nat) (L : Int) (o : ByteOrder) (hE : 0 < E)
    (hL : ((p + E : Nat) : Int) ≤ L) (hfile : p + E ≤ fh.length) :
    readStruct decode E { r := fh, off := (p : Int), limit := L } (some o) =
      .ok (decode o (bytesAt fh p (p + E)),
        { r := fh, off := ((p + E : Nat) : Int), limit := L }) := by
  simp [readStruct, ReadFull_ok fh p E L hE hL hfile, bytesAt]

theorem readStruct_form {α : Type} (decode : ByteOrder → List Byte → α) (E : Nat)
    (sr sr2 : SectionReader) (order : Option ByteOrder) (v : α)
    (h : readStruct decode E sr order = .ok (v, sr2)) : ∃ o bs, v = decode o bs := by
  unfold readStruct at h
  split at h
  · cases h
  · split at h
    · cases h
    · cases h; exact ⟨_, _, rfl⟩

theorem readBytes_ok (fh : List Byte) (p n : Nat) (L : Int)
    (hL : ((p + n : Nat) : Int) ≤ L) (hfile : p + n ≤ fh.length) :
    readBytes { r := fh, off := (p : Int), limit := L } n = .ok (bytesAt fh p (p + n)) := by
  by_cases hn : n = 0
  · subst hn; simp [readBytes, SectionReader.ReadFull, bytesAt]
  · simp [readBytes, ReadFull_ok fh p n L (by omega) hL hfile, bytesAt]


/-! ## The symbol loop -/

theorem TableInv_nil (P : SymVal → Prop) (strtab : List Byte) : TableInv P strtab 0 [] [] :=
  ⟨rfl, fun _ _ => rfl, fun i h => absurd h (by omega)⟩

theorem TableInv_step (P : SymVal → Prop) (strtab : List Byte) (j : Nat)
    (syms : GoMap SymVal) (names : GoMap GoString) (v : SymVal) (nm : GoString)
    (hinv : TableInv P strtab j syms names) (hP : P v)
    (hnm : getSymbolName v.sym.Name strtab = .ok nm) :
    TableInv P strtab (j + 1) (syms.set j v) (names.set v.sym.Name nm) := by
  obtain ⟨h1, h2, h3⟩ := hinv
  refine ⟨?_, ?_, ?_⟩
  · rw [GoMap.len_set_of_none _ _ _ (h2 j (le_refl _)), h1]
  · intro i hi
    rw [GoMap.get_set_ne _ _ _ _ (by omega)]
    exact h2 i (by omega)
  · intro i hi
    by_cases hij : i = j
    · subst hij
      exact ⟨v, GoMap.get_set_self _ _ _, hP, nm, GoMap.get_set_self _ _ _, hnm⟩
    · obtain ⟨v2, hv2, hP2, nm2, hn2, hg2⟩ := h3 i (by omega)
      refine ⟨v2, by rw [GoMap.get_set_ne _ _ _ _ (Ne.symm hij)]; exact hv2, hP2, ?_⟩
      by_cases hname : v.sym.Name = v2.sym.Name
      · refine ⟨nm, ?_, ?_⟩
        · rw [← hname]; exact GoMap.get_set_self _ _ _
        · rw [← hname]; exact hnm
      · exact ⟨nm2, by rw [GoMap.get_set_ne _ _ _ _ hname]; exact hn2, hg2⟩

/-- A symbol loop that returns has established the table invariant for all
`numSymbols` entries. -/
theorem symLoop_inv (decode : ByteOrder → List Byte → SymVal) (E : Nat)
    (order : Option ByteOrder) (strtab : List Byte) (numSymbols : Nat)
    (P : SymVal → Prop) (hP : ∀ o bs, P (decode o bs)) (hnum : numSymbols < 2 ^ 32) :
    ∀ (fuel j : Nat) (sr : SectionReader) (syms : GoMap SymVal) (names : GoMap GoString)
      (S : GoMap SymVal) (N : GoMap GoString),
      symLoop decode E order strtab numSymbols fuel j sr syms names = .ok (S, N) →
      j ≤ numSymbols → TableInv P strtab j syms names →
      TableInv P strtab numSymbols S N := by
  intro fuel
  induction fuel with
  | zero => intro j sr syms names S N h; simp [symLoop] at h
  | succ fuel ih =>
    intro j sr syms names S N h hj hinv
    unfold symLoop at h
    by_cases hlt : j < numSymbols
    · simp only [hlt, if_true] at h
      cases hrd : readStruct decode E sr order with
      | error e => simp [hrd] at h
      | ok res =>
        obtain ⟨v, sr2⟩ := res
        simp only [hrd] at h
        cases hnm : getSymbolName v.sym.Name strtab with
        | error e => simp [hnm] at h
        | ok nm =>
          simp only [hnm] at h
          have hstep : u32 (j + 1) = j + 1 := u32_of_lt (by omega)
          rw [hstep] at h
          obtain ⟨o, bs, hv⟩ := readStruct_form _ _ _ _ _ _ hrd
          exact ih (j + 1) sr2 _ _ S N h (by omega)
            (TableInv_step P strtab j syms names v nm hinv (hv ▸ hP o bs) hnm)
    · simp only [hlt, if_false] at h
      cases h
      have : j = numSymbols := by omega
      subst this
      exact hinv

/-- A symbol loop over `2 ^ 32` or more entries never returns: its `uint32` counter
wraps and stays below the count. -/
theorem symLoop_big (decode : ByteOrder → List Byte → SymVal) (E : Nat)
    (order : Option ByteOrder) (strtab : List Byte) (numSymbols : Nat)
    (hnum : 2 ^ 32 ≤ numSymbols) :
    ∀ (fuel j : Nat) (sr : SectionReader) (syms : GoMap SymVal) (names : GoMap GoString)
      (R : GoMap SymVal × GoMap GoString), j < 2 ^ 32 →
      symLoop decode E order strtab numSymbols fuel j sr syms names ≠ .ok R := by
  intro fuel
  induction fuel with
  | zero => intro j sr syms names R _ h; simp [symLoop] at h
  | succ fuel ih =>
    intro j sr syms names R hj h
    unfold symLoop at h
    have hlt : j < numSymbols := by omega
    simp only [hlt, if_true] at h
    cases hrd : readStruct decode E sr order with
    | error e => simp [hrd] at h
    | ok res =>
      obtain ⟨v, sr2⟩ := res
      simp only [hrd] at h
      cases hnm : getSymbolName v.sym.Name strtab with
      | error e => simp [hnm] at h
      | ok nm =>
        simp only [hnm] at h
        exact ih _ _ _ _ R (u32_lt _) h

/-- A symbol loop started at entry 0 that returns has loaded fewer than `2 ^ 32` entries
and established the table invariant. -/
theorem symLoop_ok (decode : ByteOrder → List Byte → SymVal) (E : Nat)
    (order : Option ByteOrder) (strtab : List Byte) (numSymbols : Nat)
    (P : SymVal → Prop) (hP : ∀ o bs, P (decode o bs))
    (fuel : Nat) (sr : SectionReader) (S : GoMap SymVal) (N : GoMap GoString)
    (h : symLoop decode E order strtab numSymbols fuel 0 sr [] [] = .ok (S, N)) :
    numSymbols < 2 ^ 32 ∧ TableInv P strtab numSymbols S N := by
  have hnum : numSymbols < 2 ^ 32 := by
    by_contra hge
    exact symLoop_big decode E order strtab numSymbols (by omega) fuel 0 sr [] [] (S, N)
      (by norm_num) h
  exact ⟨hnum, symLoop_inv decode E order strtab numSymbols P hP hnum fuel 0 sr [] [] S N h
    (by omega) (TableInv_nil P strtab)⟩


/-- A symbol loop whose records lie inside the reader window and the file, whose count
is below `2 ^ 32` and whose name offsets lie within the pool returns, and the entry it
stores under every index is the record decoded at that index. -/
theorem symLoop_succeeds (decode : ByteOrder → List Byte → SymVal) (E : Nat) (o : ByteOrder)
    (strtab : List Byte) (numSymbols : Nat) (fh : List Byte) (base : Nat) (L : Int)
    (hE : 0 < E) (hL : ((base + numSymbols * E : Nat) : Int) ≤ L)
    (hfile : base + numSymbols * E ≤ fh.length) (hnum : numSymbols < 2 ^ 32)
    (hnames : ∀ i, i < numSymbols →
      (decode o (recordAt fh base E i)).sym.Name ≤ strtab.length) :
    ∀ (fuel j : Nat) (syms : GoMap SymVal) (names : GoMap GoString),
      j ≤ numSymbols → numSymbols - j < fuel →
      ∃ S N, symLoop decode E (some o) strtab numSymbols fuel j
          { r := fh, off := ((base + j * E : Nat) : Int), limit := L } syms names = .ok (S, N) ∧
        (∀ i, j ≤ i → i < numSymbols → S.get i = some (decode o (recordAt fh base E i))) ∧
        (∀ i, i < j → S.get i = syms.get i) := by
  intro fuel
  induction fuel with
  | zero => intro j syms names _ h; omega
  | succ fuel ih =>
    intro j syms names hj hfuel
    unfold symLoop
    by_cases hlt : j < numSymbols
    · have hmul : (j + 1) * E ≤ numSymbols * E := Nat.mul_le_mul_right E (by omega)
      have hsucc : (j + 1) * E = j * E + E := Nat.succ_mul j E
      have hoff : base + j * E + E = base + (j + 1) * E := by omega
      have hrd : readStruct decode E { r := fh, off := ((base + j * E : Nat) : Int), limit := L }
          (some o) = .ok (decode o (recordAt fh base E j),
            { r := fh, off := ((base + (j + 1) * E : Nat) : Int), limit := L }) := by
        have h := readStruct_ok decode fh (base + j * E) E L o hE
          (by have : base + j * E + E ≤ base + numSymbols * E := by omega
              omega)
          (by omega)
        rw [h]
        unfold recordAt
        rw [hoff]
      obtain ⟨nm, hnm⟩ := getSectionName_ok strtab
        (decode o (recordAt fh base E j)).sym.Name (hnames j hlt)
      have hnm2 : getSymbolName (decode o (recordAt fh base E j)).sym.Name strtab = .ok nm := hnm
      have hstep : u32 (j + 1) = j + 1 := u32_of_lt (by omega)
      simp only [hlt, if_true, hrd, hnm2, hstep]
      obtain ⟨S, N, h1, h2, h3⟩ := ih (j + 1)
        (syms.set j (decode o (recordAt fh base E j)))
        (names.set (decode o (recordAt fh base E j)).sym.Name nm)
        (by omega) (by omega)
      refine ⟨S, N, h1, ?_, ?_⟩
      · intro i hi1 hi2
        by_cases hij : i = j
        · subst hij
          rw [h3 i (by omega), GoMap.get_set_self]
        · exact h2 i (by omega) hi2
      · intro i hi
        rw [h3 i (by omega), GoMap.get_set_ne _ _ _ _ (by omega)]
    · have : j = numSymbols := by omega
      subst this
      simp only [hlt, if_false]
      exact ⟨syms, names, rfl, fun i h1 h2 => absurd h2 (by omega), fun i _ => rfl⟩


theorem goIndex_eq_ok {α : Type} (l : List α) (i : Nat) (a : α) :
    goIndex l i = .ok a ↔ l[i]? = some a := by
  unfold goIndex
  cases l[i]? <;> simp

/-- The case of `loadSymbols` for a width, written out: the section table must have the
dynamic type of the width, both section indices must be in range and the pool must be
readable; then the outcome is the outcome of the symbol loop. -/
theorem loadSymbols_inv (w : Width) (elfFs e1 : elfFile) (sectionNdx symstrNdx symType : Nat)
    (harch : elfFs.FileHdr.Arch = w.arch) (hkind : symType = sym ∨ symType = dynSym)
    (h : loadSymbols elfFs sectionNdx symstrNdx symType = .ok e1) :
    ∃ secs sec strtab S N, elfFs.ElfSections.Section = w.sections secs ∧
      secs[sectionNdx]? = some sec ∧ w.loadStrtab elfFs secs symstrNdx = .ok strtab ∧
      symLoop (fun o bs => w.symVal (w.decodeSym o bs)) w.symSize elfFs.FileHdr.Endianness
        strtab (sec.Size / w.symSize) (elfFs.Fh.length + 1) 0 (w.symReader elfFs.Fh sec)
        [] [] = .ok (S, N) ∧
      e1 = withTable elfFs symType S N := by
  cases w with
  | W32 =>
    have ha : elfFs.FileHdr.Arch = ELFCLASS32 := harch
    simp only [loadSymbols, ha, if_true, loadSymbols32, bind, Except.bind] at h
    cases hs : elfFs.ElfSections.Section with
    | nil => simp [hs, asSection32] at h
    | Section64 secs => simp [hs, asSection32] at h
    | Section32 secs =>
      simp only [hs, asSection32] at h
      cases hsec : goIndex secs sectionNdx with
      | error e => simp [hsec] at h
      | ok sec =>
        simp only [hsec] at h
        cases hstr : loadStrtab32 elfFs secs symstrNdx with
        | error e => simp [hstr] at h
        | ok strtab =>
          simp only [hstr] at h
          rcases hkind with hk | hk
          · subst hk
            have hne : ¬ sym = dynSym := by decide
            simp only [if_true, hne, if_false, pure, Except.pure] at h
            cases hloop : symLoop (fun o bs => SymVal.Sym32 (decodeSym32 o bs)) symSize32
                elfFs.FileHdr.Endianness strtab (sec.Size / symSize32) (elfFs.Fh.length + 1) 0
                (NewSectionReader elfFs.Fh (int64 sec.Off) (int64 (u32 (sec.Off + sec.Size))))
                [] [] with
            | error e => simp [hloop] at h
            | ok R =>
              obtain ⟨S, N⟩ := R
              simp only [hloop] at h
              cases h
              exact ⟨secs, sec, strtab, S, N, rfl, (goIndex_eq_ok _ _ _).1 hsec, hstr, hloop,
                by simp [withTable, hne]⟩
          · subst hk
            have hne : ¬ dynSym = sym := by decide
            simp only [if_true, hne, if_false, pure, Except.pure] at h
            cases hloop : symLoop (fun o bs => SymVal.Sym32 (decodeSym32 o bs)) symSize32
                elfFs.FileHdr.Endianness strtab (sec.Size / symSize32) (elfFs.Fh.length + 1) 0
                (NewSectionReader elfFs.Fh (int64 sec.Off) (int64 (u32 (sec.Off + sec.Size))))
                [] [] with
            | error e => simp [hloop] at h
            | ok R =>
              obtain ⟨S, N⟩ := R
              simp only [hloop] at h
              cases h
              exact ⟨secs, sec, strtab, S, N, rfl, (goIndex_eq_ok _ _ _).1 hsec, hstr, hloop,
                by simp [withTable]⟩
  | W64 =>
    have ha : elfFs.FileHdr.Arch = ELFCLASS64 := harch
    have hc : ¬ ELFCLASS64 = ELFCLASS32 := by decide
    simp only [loadSymbols, ha, hc, if_false, if_true, loadSymbols64, bind, Except.bind] at h
    cases hs : elfFs.ElfSections.Section with
    | nil => simp [hs, asSection64] at h
    | Section32 secs => simp [hs, asSection64] at h
    | Section64 secs =>
      simp only [hs, asSection64] at h
      cases hsec : goIndex secs sectionNdx with
      | error e => simp [hsec] at h
      | ok sec =>
        simp only [hsec] at h
        cases hstr : loadStrtab64 elfFs secs symstrNdx with
        | error e => simp [hstr] at h
        | ok strtab =>
          simp only [hstr] at h
          rcases hkind with hk | hk
          · subst hk
            have hne : ¬ sym = dynSym := by decide
            simp only [if_true, hne, if_false, pure, Except.pure] at h
            cases hloop : symLoop (fun o bs => SymVal.Sym64 (decodeSym64 o bs)) symSize64
                elfFs.FileHdr.Endianness strtab (sec.Size / symSize64) (elfFs.Fh.length + 1) 0
                (NewSectionReader elfFs.Fh (int64 sec.Off) (int64 (u64 (sec.Off + sec.Size))))
                [] [] with
            | error e => simp [hloop] at h
            | ok R =>
              obtain ⟨S, N⟩ := R
              simp only [hloop] at h
              cases h
              exact ⟨secs, sec, strtab, S, N, rfl, (goIndex_eq_ok _ _ _).1 hsec, hstr, hloop,
                by simp [withTable, hne]⟩
          · subst hk
            have hne : ¬ dynSym = sym := by decide
            simp only [if_true, hne, if_false, pure, Except.pure] at h
            cases hloop : symLoop (fun o bs => SymVal.Sym64 (decodeSym64 o bs)) symSize64
                elfFs.FileHdr.Endianness strtab (sec.Size / symSize64) (elfFs.Fh.length + 1) 0
                (NewSectionReader elfFs.Fh (int64 sec.Off) (int64 (u64 (sec.Off + sec.Size))))
                [] [] with
            | error e => simp [hloop] at h
            | ok R =>
              obtain ⟨S, N⟩ := R
              simp only [hloop] at h
              cases h
              exact ⟨secs, sec, strtab, S, N, rfl, (goIndex_eq_ok _ _ _).1 hsec, hstr, hloop,
                by simp [withTable]⟩


/-- The case of `loadSymbols` for a width when the section table has the dynamic type of
the width, the symbol section index is in range and the pool is read: the outcome is the
outcome of the symbol loop. -/
theorem loadSymbols_eq (w : Width) (elfFs : elfFile) (secs : List Section)
    (sectionNdx symstrNdx symType : Nat) (sec : Section) (strtab : List Byte)
    (harch : elfFs.FileHdr.Arch = w.arch) (hkind : symType = sym ∨ symType = dynSym)
    (hs : elfFs.ElfSections.Section = w.sections secs)
    (hsec : secs[sectionNdx]? = some sec)
    (hstr : w.loadStrtab elfFs secs symstrNdx = .ok strtab) :
    loadSymbols elfFs sectionNdx symstrNdx symType =
      match symLoop (fun o bs => w.symVal (w.decodeSym o bs)) w.symSize
          elfFs.FileHdr.Endianness strtab (sec.Size / w.symSize) (elfFs.Fh.length + 1) 0
          (w.symReader elfFs.Fh sec) [] [] with
      | .error e => .error e
      | .ok R => .ok (withTable elfFs symType R.1 R.2) := by
  have hidx : goIndex secs sectionNdx = .ok sec := (goIndex_eq_ok _ _ _).2 hsec
  cases w with
  | W32 =>
    have ha : elfFs.FileHdr.Arch = ELFCLASS32 := harch
    have hs2 : elfFs.ElfSections.Section = .Section32 secs := hs
    have hstr2 : loadStrtab32 elfFs secs symstrNdx = .ok strtab := hstr
    simp only [loadSymbols, ha, if_true, loadSymbols32, bind, Except.bind, hs2, asSection32,
      hidx, hstr2, Width.symVal, Width.decodeSym, Width.symSize, Width.symReader, Width.wrap]
    rcases hkind with hk | hk
    · subst hk
      have hne : ¬ sym = dynSym := by decide
      simp only [if_true, hne, if_false, pure, Except.pure, withTable]
      cases symLoop (fun o bs => SymVal.Sym32 (decodeSym32 o bs)) symSize32
          elfFs.FileHdr.Endianness strtab (sec.Size / symSize32) (elfFs.Fh.length + 1) 0
          (NewSectionReader elfFs.Fh (int64 sec.Off) (int64 (u32 (sec.Off + sec.Size))))
          [] [] <;> rfl
    · subst hk
      have hne : ¬ dynSym = sym := by decide
      simp only [if_true, hne, if_false, pure, Except.pure, withTable]
      cases symLoop (fun o bs => SymVal.Sym32 (decodeSym32 o bs)) symSize32
          elfFs.FileHdr.Endianness strtab (sec.Size / symSize32) (elfFs.Fh.length + 1) 0
          (NewSectionReader elfFs.Fh (int64 sec.Off) (int64 (u32 (sec.Off + sec.Size))))
          [] [] <;> rfl
  | W64 =>
    have ha : elfFs.FileHdr.Arch = ELFCLASS64 := harch
    have hc : ¬ ELFCLASS64 = ELFCLASS32 := by decide
    have hs2 : elfFs.ElfSections.Section = .Section64 secs := hs
    have hstr2 : loadStrtab64 elfFs secs symstrNdx = .ok strtab := hstr
    simp only [loadSymbols, ha, hc, if_false, if_true, loadSymbols64, bind, Except.bind, hs2,
      asSection64, hidx, hstr2, Width.symVal, Width.decodeSym, Width.symSize, Width.symReader,
      Width.wrap]
    rcases hkind with hk | hk
    · subst hk
      have hne : ¬ sym = dynSym := by decide
      simp only [if_true, hne, if_false, pure, Except.pure, withTable]
      cases symLoop (fun o bs => SymVal.Sym64 (decodeSym64 o bs)) symSize64
          elfFs.FileHdr.Endianness strtab (sec.Size / symSize64) (elfFs.Fh.length + 1) 0
          (NewSectionReader elfFs.Fh (int64 sec.Off) (int64 (u64 (sec.Off + sec.Size))))
          [] [] <;> rfl
    · subst hk
      have hne : ¬ dynSym = sym := by decide
      simp only [if_true, hne, if_false, pure, Except.pure, withTable]
      cases symLoop (fun o bs => SymVal.Sym64 (decodeSym64 o bs)) symSize64
          elfFs.FileHdr.Endianness strtab (sec.Size / symSize64) (elfFs.Fh.length + 1) 0
          (NewSectionReader elfFs.Fh (int64 sec.Off) (int64 (u64 (sec.Off + sec.Size))))
          [] [] <;> rfl


theorem int64_of_lt (n : Nat) (h : n < 2 ^ 63) : int64 n = (n : Int) := by
  unfold int64
  have h1 : n % 2 ^ 64 = n := Nat.mod_eq_of_lt (by omega)
  rw [h1, if_pos h]

theorem wrap64_of_range (z : Int) (h1 : -2 ^ 63 ≤ z) (h2 : z < 2 ^ 63) : wrap64 z = z := by
  unfold wrap64
  omega

/-- The reader opened at a file offset `p` with a length `n`, both below `2 ^ 63`: its
window starts at `p` and covers every `p + m` with `m ≤ n` that is below `2 ^ 63`. -/
theorem NewSectionReader_window (fh : List Byte) (p n : Nat) (hp : p < 2 ^ 63)
    (hn : n < 2 ^ 63) :
    ∃ L, NewSectionReader fh (int64 p) (int64 n) = { r := fh, off := (p : Int), limit := L } ∧
      ∀ m : Nat, m ≤ n → p + m < 2 ^ 63 → ((p + m : Nat) : Int) ≤ L := by
  rw [int64_of_lt p hp, int64_of_lt n hn]
  unfold NewSectionReader
  have hw : wrap64 (maxint64 - (n : Int)) = maxint64 - (n : Int) := by
    apply wrap64_of_range <;> simp only [maxint64] <;> omega
  rw [hw]
  by_cases hc : (p : Int) ≤ maxint64 - (n : Int)
  · have hw2 : wrap64 ((n : Int) + (p : Int)) = (n : Int) + (p : Int) := by
      simp only [maxint64] at hc
      apply wrap64_of_range <;> omega
    refine ⟨(n : Int) + (p : Int), by simp [hc, hw2], ?_⟩
    intro m hm _
    omega
  · refine ⟨maxint64, by simp [hc], ?_⟩
    intro m _ hm
    simp only [maxint64]
    omega

theorem bytesAt_length (fh : List Byte) (p n : Nat) (h : p + n ≤ fh.length) :
    (bytesAt fh p (p + n)).length = n := by
  simp [bytesAt]; omega

theorem Width.wrap_of_lt (w : Width) (n : Nat) (h : n < w.sumBound) : w.wrap n = n := by
  cases w
  · exact Nat.mod_eq_of_lt h
  · exact Nat.mod_eq_of_lt (by simp only [Width.sumBound] at h; omega)

theorem Width.sumBound_le (w : Width) : w.sumBound ≤ 2 ^ 63 := by
  cases w <;> simp [Width.sumBound]

theorem Width.symSize_pos (w : Width) : 0 < w.symSize := by
  cases w <;> simp [Width.symSize, symSize32, symSize64]

/-- The pool of a string-table section that lies inside the file, with an end offset
below the wrap bound of the width, is read, and is the bytes of the section. -/
theorem loadStrtab_ok (w : Width) (elfFs : elfFile) (secs : List Section) (symstrNdx : Nat)
    (strSec : Section) (hstr : secs[symstrNdx]? = some strSec)
    (hpool : strSec.Off + strSec.Size ≤ elfFs.Fh.length)
    (hpoolw : strSec.Off + strSec.Size < w.sumBound) :
    w.loadStrtab elfFs secs symstrNdx =
      .ok (bytesAt elfFs.Fh strSec.Off (strSec.Off + strSec.Size)) := by
  have hidx : goIndex secs symstrNdx = .ok strSec := (goIndex_eq_ok _ _ _).2 hstr
  have hb := w.sumBound_le
  have hwrap := w.wrap_of_lt _ hpoolw
  obtain ⟨L, hL1, hL2⟩ := NewSectionReader_window elfFs.Fh strSec.Off
    (strSec.Off + strSec.Size) (by omega) (by omega)
  have hrd := readBytes_ok elfFs.Fh strSec.Off strSec.Size L
    (hL2 strSec.Size (by omega) (by omega)) hpool
  cases w with
  | W32 =>
    have hwrap2 : u32 (strSec.Off + strSec.Size) = strSec.Off + strSec.Size := hwrap
    simp only [Width.loadStrtab, loadStrtab32, bind, Except.bind, hidx, hwrap2, hL1, hrd]
  | W64 =>
    have hwrap2 : u64 (strSec.Off + strSec.Size) = strSec.Off + strSec.Size := hwrap
    simp only [Width.loadStrtab, loadStrtab64, bind, Except.bind, hidx, hwrap2, hL1, hrd]

theorem symTable_withTable (elfFs : elfFile) (symType : Nat) (S : GoMap SymVal)
    (N : GoMap GoString) : symTable (withTable elfFs symType S N) symType = S := by
  unfold symTable withTable
  by_cases h : symType = dynSym <;> simp [h]

theorem symNames_withTable (elfFs : elfFile) (symType : Nat) (S : GoMap SymVal)
    (N : GoMap GoString) : symNames (withTable elfFs symType S N) symType = N := by
  unfold symNames withTable
  by_cases h : symType = dynSym <;> simp [h]

/-- The section table of the fixture file, as `getSections` loads it. -/
theorem getSections_dynFile :
    getSections (freshState dynFile ELFCLASS64 (some .LittleEndian) 62 (.Header64 dynHeader)) =
      .ok dynState := by
  decide

/-- The dynamic symbol table of the fixture file, as `loadSymbols` loads it. -/
theorem loadSymbols_dynState : loadSymbols dynState 1 2 dynSym = .ok dynLoaded := by
  decide

/-- C4 (counterexample). A 32-bit table of two records that fill the 32 bytes of the
file, loaded against section 0 as its string table (the index `getSymbols` passes when
no `.strtab` section exists): every record is readable, yet the second record has the
name offset 1, beyond the empty pool, and `loadSymbols` ends in the panic of the slice
expression instead of populating the table. -/
theorem loadSymbols_name_offset_beyond_pool :
    noStrtabState.Fh.length = 32 ∧
    loadSymbols noStrtabState 1 0 sym = .error (.panic .sliceBounds) := by
  decide

/-- The load of a table whose records, pool and name offsets lie inside the file and
whose arithmetic does not overflow: `loadSymbols` returns the state with the two maps of
the kind replaced, and the symbol map holds the `size / E` decoded records. -/
theorem loadSymbols_table (w : Width) (elfFs : elfFile) (secs : List Section)
    (sectionNdx symstrNdx symType : Nat) (o : ByteOrder) (sec strSec : Section)
    (harch : elfFs.FileHdr.Arch = w.arch)
    (hs : elfFs.ElfSections.Section = w.sections secs)
    (ho : elfFs.FileHdr.Endianness = some o)
    (hkind : symType = sym ∨ symType = dynSym)
    (hsec : secs[sectionNdx]? = some sec) (hstr : secs[symstrNdx]? = some strSec)
    (hrec : sec.Off + sec.Size / w.symSize * w.symSize ≤ elfFs.Fh.length)
    (hrecw : sec.Off + sec.Size < w.sumBound)
    (hpool : strSec.Off + strSec.Size ≤ elfFs.Fh.length)
    (hpoolw : strSec.Off + strSec.Size < w.sumBound)
    (hcount : sec.Size / w.symSize < 2 ^ 32)
    (hnames : ∀ i, i < sec.Size / w.symSize →
      (w.decodeSym o (recordAt elfFs.Fh sec.Off w.symSize i)).Name ≤ strSec.Size) :
    ∃ S N, loadSymbols elfFs sectionNdx symstrNdx symType =
        .ok (withTable elfFs symType S N) ∧
      S.len = sec.Size / w.symSize ∧
      (∀ i, S.get i =
        if i < sec.Size / w.symSize then
          some (w.symVal (w.decodeSym o (recordAt elfFs.Fh sec.Off w.symSize i)))
        else none) := by
  have hb := w.sumBound_le
  have hE := w.symSize_pos
  have hstrtab := loadStrtab_ok w elfFs secs symstrNdx strSec hstr hpool hpoolw
  have hlen := bytesAt_length elfFs.Fh strSec.Off strSec.Size hpool
  have hmul : sec.Size / w.symSize * w.symSize ≤ sec.Size := Nat.div_mul_le_self _ _
  obtain ⟨L, hL1, hL2⟩ := NewSectionReader_window elfFs.Fh sec.Off (sec.Off + sec.Size)
    (by omega) (by omega)
  have hrdr : w.symReader elfFs.Fh sec =
      { r := elfFs.Fh, off := ((sec.Off + 0 * w.symSize : Nat) : Int), limit := L } := by
    unfold Width.symReader
    rw [w.wrap_of_lt _ hrecw, hL1]
    simp
  have hcnt : sec.Size / w.symSize ≤ sec.Size / w.symSize * w.symSize :=
    Nat.le_mul_of_pos_right _ hE
  have hnumle : sec.Size / w.symSize ≤ elfFs.Fh.length :=
    le_trans hcnt (le_trans (Nat.le_add_left _ _) hrec)
  obtain ⟨S, N, hrun, hget, _⟩ := symLoop_succeeds (fun o bs => w.symVal (w.decodeSym o bs))
    w.symSize o (bytesAt elfFs.Fh strSec.Off (strSec.Off + strSec.Size))
    (sec.Size / w.symSize) elfFs.Fh sec.Off L hE
    (hL2 _ (by omega) (by omega)) hrec hcount
    (fun i hi => by
      rw [hlen]
      have := hnames i hi
      cases w <;> exact this)
    (elfFs.Fh.length + 1) 0 [] [] (Nat.zero_le _)
    (by rw [Nat.sub_zero]; exact Nat.lt_succ_of_le hnumle)
  rw [← hrdr, ← ho] at hrun
  obtain ⟨_, hinv⟩ := symLoop_ok _ _ _ _ _ (fun _ => True) (fun _ _ => trivial) _ _ S N hrun
  refine ⟨S, N, ?_, hinv.1, ?_⟩
  · rw [loadSymbols_eq w elfFs secs sectionNdx symstrNdx symType sec _ harch hkind hs hsec
      hstrtab, hrun]
  · intro i
    by_cases hi : i < sec.Size / w.symSize
    · simp only [hi, if_true]; exact hget i (by omega) hi
    · simp only [hi, if_false]; exact hinv.2.1 i (by omega)

/-- C4 (amended). For a symbol-table section of either width and either kind whose
records all lie inside the file, whose paired string-table section lies inside the file,
whose record name offsets are all within the pool, and whose end offset and record count
do not overflow the fixed-width arithmetic of the load (offset plus size below `2 ^ 32`
for the 32-bit width and `2 ^ 62` for the 64-bit width, count below `2 ^ 32`),
`loadSymbols` returns, the selected table has exactly `size / E` entries, its keys are
exactly the indices `0 .. size / E - 1`, and entry `i` is the record decoded from the `E`
bytes at file offset `offset + i * E`, where `E` is 16 for the 32-bit and 24 for the
64-bit width. -/
theorem loadSymbols_entries (w : Width) (elfFs : elfFile) (secs : List Section)
    (sectionNdx symstrNdx symType : Nat) (o : ByteOrder) (sec strSec : Section)
    (harch : elfFs.FileHdr.Arch = w.arch)
    (hs : elfFs.ElfSections.Section = w.sections secs)
    (ho : elfFs.FileHdr.Endianness = some o)
    (hkind : symType = sym ∨ symType = dynSym)
    (hsec : secs[sectionNdx]? = some sec) (hstr : secs[symstrNdx]? = some strSec)
    (hrec : sec.Off + sec.Size / w.symSize * w.symSize ≤ elfFs.Fh.length)
    (hrecw : sec.Off + sec.Size < w.sumBound)
    (hpool : strSec.Off + strSec.Size ≤ elfFs.Fh.length)
    (hpoolw : strSec.Off + strSec.Size < w.sumBound)
    (hcount : sec.Size / w.symSize < 2 ^ 32)
    (hnames : ∀ i, i < sec.Size / w.symSize →
      (w.decodeSym o (recordAt elfFs.Fh sec.Off w.symSize i)).Name ≤ strSec.Size) :
    ∃ e1, loadSymbols elfFs sectionNdx symstrNdx symType = .ok e1 ∧
      (symTable e1 symType).len = sec.Size / w.symSize ∧
      (∀ i, (symTable e1 symType).get i =
        if i < sec.Size / w.symSize then
          some (w.symVal (w.decodeSym o (recordAt elfFs.Fh sec.Off w.symSize i)))
        else none) ∧
      w.symSize = (match w with | .W32 => 16 | .W64 => 24) := by
  obtain ⟨S, N, hrun, hlen, hget⟩ := loadSymbols_table w elfFs secs sectionNdx symstrNdx
    symType o sec strSec harch hs ho hkind hsec hstr hrec hrecw hpool hpoolw hcount hnames
  refine ⟨_, hrun, ?_, ?_, by cases w <;> rfl⟩
  · rw [symTable_withTable]; exact hlen
  · intro i
    rw [symTable_withTable]; exact hget i

/-- C4 (witness): the amended statement at the `.dynsym` section of the fixture file,
three records of 24 bytes at offset 64. -/
theorem loadSymbols_entries_witness :
    ∃ e1, loadSymbols dynState 1 2 dynSym = .ok e1 ∧
      (symTable e1 dynSym).len = 72 / Width.W64.symSize ∧
      (∀ i, (symTable e1 dynSym).get i =
        if i < 72 / Width.W64.symSize then
          some (Width.W64.symVal (Width.W64.decodeSym .LittleEndian
            (recordAt dynState.Fh 64 Width.W64.symSize i)))
        else none) ∧
      Width.W64.symSize = 24 :=
  loadSymbols_entries .W64 dynState dynSections 1 2 dynSym .LittleEndian
    { Name := 1, Typ := 11, Flags := 2, Addr := 0, Off := 64, Size := 72, Link := 2, Info := 1,
      Addralign := 8, Entsize := 24 }
    { Name := 9, Typ := 3, Flags := 2, Addr := 0, Off := 136, Size := 9, Link := 0, Info := 0,
      Addralign := 1, Entsize := 0 }
    rfl rfl rfl (Or.inr rfl) (by decide) (by decide) (by decide) (by decide) (by decide)
    (by decide) (by decide) (by decide)

theorem tableSection_ne : str ".symtab" ≠ str ".dynsym" := by decide

/-- The lookup of the referenced symbol of a relocation entry in a table loaded by
`loadSymbols`, for an index below the number of its entries. -/
theorem relocSymbol_lookup (w : Width) (e0 e1 st : elfFile) (secs : List Section)
    (sectionNdx symstrNdx symType k s : Nat) (relSec : Section)
    (harch : e0.FileHdr.Arch = w.arch) (hkind : symType = sym ∨ symType = dynSym)
    (hload : loadSymbols e0 sectionNdx symstrNdx symType = .ok e1)
    (htab : symTable st symType = symTable e1 symType)
    (hnames : symNames st symType = symNames e1 symType)
    (hrel : secs[k]? = some relSec)
    (hlink : st.ElfSections.SectionName[relSec.Link]? = some (tableSection symType))
    (hs : s < (symTable st symType).len) :
    ∃ secs0 strtab sy nm, e0.ElfSections.Section = w.sections secs0 ∧
      w.loadStrtab e0 secs0 symstrNdx = .ok strtab ∧
      (symTable st symType).get s = some (w.symVal sy) ∧
      getSymbolName sy.Name strtab = .ok nm ∧
      w.relocSymbol st secs k s = .ok (sy.Value, nm) ∧
      (strtab.length < 2 ^ 32 → nm = cstringAt strtab sy.Name) ∧
      (∀ (T : RelocTables) (r : Rel), w.R_SYM r.Info = s →
        ∃ row, w.relRow T st secs k r = .ok row ∧ row.symValue = sy.Value ∧
          row.symName = nm) ∧
      (∀ (T : RelocTables) (r : Rela), w.R_SYM r.Info = s →
        ∃ row, w.relaRow T st secs k r = .ok row ∧ row.symValue = sy.Value ∧
          row.symName = if s ≠ SHN_UNDEF then nm ++ str " + " else nm) := by
  obtain ⟨secs0, sec, strtab, S, N, hs0, _, hstr, hloop, he1⟩ :=
    loadSymbols_inv w e0 e1 sectionNdx symstrNdx symType harch hkind hload
  obtain ⟨_, hinv⟩ := symLoop_ok _ _ _ _ _ (fun v => ∃ sy, v = w.symVal sy)
    (fun _ _ => ⟨_, rfl⟩) _ _ S N hloop
  rw [he1, symTable_withTable] at htab
  rw [he1, symNames_withTable] at hnames
  rw [htab] at hs ⊢
  rw [hinv.1] at hs
  obtain ⟨v, hv, ⟨sy, hsy⟩, nm, hnm, hres⟩ := hinv.2.2 s hs
  subst hsy
  have hsym : (w.symVal sy).sym = sy := by cases w <;> rfl
  rw [hsym] at hnm hres
  have hmain : w.relocSymbol st secs k s = .ok (sy.Value, nm) := by
    have hidx : goIndex secs k = .ok relSec := (goIndex_eq_ok _ _ _).2 hrel
    have hidx2 : goIndex st.ElfSections.SectionName relSec.Link = .ok (tableSection symType) :=
      (goIndex_eq_ok _ _ _).2 hlink
    rcases hkind with hk | hk
    · subst hk
      have hne : ¬ sym = dynSym := by decide
      simp only [symTable, symNames, hne, if_false] at htab hnames
      simp only [tableSection, hne, if_false] at hidx2
      cases w with
      | W32 =>
        simp only [Width.relocSymbol, relocSymbol32, bind, Except.bind, hidx, hidx2,
          tableSection_ne, if_false, if_true, htab, hnames, hv, Width.symVal, asSym32, hnm,
          Option.getD, pure, Except.pure]
      | W64 =>
        simp only [Width.relocSymbol, relocSymbol64, bind, Except.bind, hidx, hidx2,
          tableSection_ne, if_false, if_true, htab, hnames, hv, Width.symVal, asSym64, hnm,
          Option.getD, pure, Except.pure]
    · subst hk
      simp only [symTable, symNames, if_true] at htab hnames
      simp only [tableSection, if_true] at hidx2
      cases w with
      | W32 =>
        simp only [Width.relocSymbol, relocSymbol32, bind, Except.bind, hidx, hidx2,
          if_true, htab, hnames, hv, Width.symVal, asSym32, hnm,
          Option.getD, pure, Except.pure]
      | W64 =>
        simp only [Width.relocSymbol, relocSymbol64, bind, Except.bind, hidx, hidx2,
          if_true, htab, hnames, hv, Width.symVal, asSym64, hnm,
          Option.getD, pure, Except.pure]
  refine ⟨secs0, strtab, sy, nm, hs0, hstr, hv, hres, hmain, ?_, ?_, ?_⟩
  · intro h32
    have hle := getSectionName_ok_le strtab sy.Name nm hres
    have := getSectionName_eq_cstringAt strtab sy.Name h32 hle
    rw [getSymbolName, this] at hres
    cases hres
    rfl
  · intro T r hr
    cases w with
    | W32 =>
      have hr2 : R_SYM32 r.Info = s := hr
      have hm2 : relocSymbol32 st secs k s = .ok (sy.Value, nm) := hmain
      have hrow : rel32Row T st secs k r = .ok
          { o := r.Off, i := R_INFO s (R_TYPE32 r.Info),
            relName := resolveRelocType T (R_TYPE32 r.Info) st.FileHdr.Machine,
            symValue := sy.Value, symName := nm, a := none } := by
        simp only [rel32Row, bind, Except.bind, hr2, hm2, pure, Except.pure]
      exact ⟨_, hrow, rfl, rfl⟩
    | W64 =>
      have hr2 : R_SYM64 r.Info = s := hr
      have hm2 : relocSymbol64 st secs k s = .ok (sy.Value, nm) := hmain
      have hrow : rel64Row T st secs k r = .ok
          { o := r.Off, i := R_INFO s (R_TYPE64 r.Info),
            relName := resolveRelocType T (R_TYPE64 r.Info) st.FileHdr.Machine,
            symValue := sy.Value, symName := nm, a := none } := by
        simp only [rel64Row, bind, Except.bind, hr2, hm2, pure, Except.pure]
      exact ⟨_, hrow, rfl, rfl⟩
  · intro T r hr
    cases w with
    | W32 =>
      have hr2 : R_SYM32 r.Info = s := hr
      have hm2 : relocSymbol32 st secs k s = .ok (sy.Value, nm) := hmain
      have hrow : rela32Row T st secs k r = .ok
          { o := r.Off, i := R_INFO s (R_TYPE32 r.Info),
            relName := resolveRelocType T (R_TYPE32 r.Info) st.FileHdr.Machine,
            symValue := sy.Value, symName := (if s ≠ SHN_UNDEF then nm ++ str " + " else nm), a := some r.Addend } := by
        simp only [rela32Row, bind, Except.bind, hr2, hm2, pure, Except.pure]
      exact ⟨_, hrow, rfl, rfl⟩
    | W64 =>
      have hr2 : R_SYM64 r.Info = s := hr
      have hm2 : relocSymbol64 st secs k s = .ok (sy.Value, nm) := hmain
      have hrow : rela64Row T st secs k r = .ok
          { o := r.Off, i := R_INFO s (R_TYPE64 r.Info),
            relName := resolveRelocType T (R_TYPE64 r.Info) st.FileHdr.Machine,
            symValue := sy.Value, symName := (if s ≠ SHN_UNDEF then nm ++ str " + " else nm), a := some r.Addend } := by
        simp only [rela64Row, bind, Except.bind, hr2, hm2, pure, Except.pure]
      exact ⟨_, hrow, rfl, rfl⟩

/-- The part of the join that holds for every pool shorter than `2 ^ 32` bytes. For a
relocation entry of either shape (REL, RELA) and either width whose owning section links
to a section named `.dynsym` (respectively `.symtab`) and whose decoded symbol index is
below the number of symbols loaded into the dynamic (respectively regular) table, the
lookup succeeds, the symbol value resolved for the entry is the `Value` field of the
symbol stored under that index, and the symbol name resolved for it, before any ` + `
suffix, is the name resolution of that symbol's name offset in the string pool
`loadSymbols` read with the table, which for a pool shorter than `2 ^ 32` bytes is the
null-terminated string at that offset. -/
theorem relocSymbol_resolves (w : Width) (e0 e1 st : elfFile) (secs : List Section)
    (sectionNdx symstrNdx symType k s : Nat) (relSec : Section)
    (harch : e0.FileHdr.Arch = w.arch) (hkind : symType = sym ∨ symType = dynSym)
    (hload : loadSymbols e0 sectionNdx symstrNdx symType = .ok e1)
    (htab : symTable st symType = symTable e1 symType)
    (hnames : symNames st symType = symNames e1 symType)
    (hrel : secs[k]? = some relSec)
    (hlink : st.ElfSections.SectionName[relSec.Link]? = some (tableSection symType))
    (hs : s < (symTable st symType).len) :
    ∃ secs0 strtab sy nm, e0.ElfSections.Section = w.sections secs0 ∧
      w.loadStrtab e0 secs0 symstrNdx = .ok strtab ∧
      (symTable st symType).get s = some (w.symVal sy) ∧
      getSymbolName sy.Name strtab = .ok nm ∧
      w.relocSymbol st secs k s = .ok (sy.Value, nm) ∧
      (strtab.length < 2 ^ 32 → nm = cstringAt strtab sy.Name) ∧
      (∀ (T : RelocTables) (r : Rel), w.R_SYM r.Info = s →
        ∃ row, w.relRow T st secs k r = .ok row ∧ row.symValue = sy.Value ∧
          row.symName = nm) ∧
      (∀ (T : RelocTables) (r : Rela), w.R_SYM r.Info = s →
        ∃ row, w.relaRow T st secs k r = .ok row ∧ row.symValue = sy.Value ∧
          row.symName = if s ≠ SHN_UNDEF then nm ++ str " + " else nm) :=
  relocSymbol_lookup w e0 e1 st secs sectionNdx symstrNdx symType k s relSec harch hkind
    hload htab hnames hrel hlink hs

/-- The lookup at the fixture file, for an entry of section 3 (`.rela.dyn`, which links
to section 1, `.dynsym`) that names symbol 1. -/
theorem relocSymbol_resolves_witness :
    ∃ secs0 strtab sy nm, dynState.ElfSections.Section = Width.W64.sections secs0 ∧
      Width.W64.loadStrtab dynState secs0 2 = .ok strtab ∧
      (symTable dynLoaded dynSym).get 1 = some (Width.W64.symVal sy) ∧
      getSymbolName sy.Name strtab = .ok nm ∧
      Width.W64.relocSymbol dynLoaded dynSections 3 1 = .ok (sy.Value, nm) ∧
      (strtab.length < 2 ^ 32 → nm = cstringAt strtab sy.Name) ∧
      (∀ (T : RelocTables) (r : Rel), Width.W64.R_SYM r.Info = 1 →
        ∃ row, Width.W64.relRow T dynLoaded dynSections 3 r = .ok row ∧
          row.symValue = sy.Value ∧ row.symName = nm) ∧
      (∀ (T : RelocTables) (r : Rela), Width.W64.R_SYM r.Info = 1 →
        ∃ row, Width.W64.relaRow T dynLoaded dynSections 3 r = .ok row ∧
          row.symValue = sy.Value ∧
          row.symName = if 1 ≠ SHN_UNDEF then nm ++ str " + " else nm) :=
  relocSymbol_resolves .W64 dynState dynLoaded dynLoaded dynSections 1 2 dynSym 3 1
    { Name := 17, Typ := 4, Flags := 2, Addr := 0, Off := 145, Size := 48, Link := 1, Info := 0,
      Addralign := 8, Entsize := 24 }
    rfl (Or.inr rfl) loadSymbols_dynState rfl rfl (by decide) (by decide) (by decide)

/-- The two lines `printRelocations` prints for the fixture file once its relocation
section is loaded: the entries resolve to `foo` at `0x1000` and `bar` at `0x2000`. -/
theorem printRelocations_dynLoaded :
    printRelocations exampleTables
      { dynLoaded with Rels := [(3, .Rela64 [{ Off := 0x3000, Info := 0x100000007, Addend := 0 },
                                             { Off := 0x3008, Info := 0x200000007, Addend := 0 }])] } =
      .ok [ { o := 0x3000, i := 0x100000007, relName := "R_X86_64_JMP_SLOT", symValue := 0x1000,
              symName := str "foo + ", a := some 0 },
            { o := 0x3008, i := 0x200000007, relName := "R_X86_64_JMP_SLOT", symValue := 0x2000,
              symName := str "bar + ", a := some 0 } ] := by
  decide

/-! ## The iteration budgets are never used up -/

/-- The scan of `getSectionName` never uses up its budget. -/
theorem getSectionName_fuel (sIndex : Nat) (tab : List Byte) :
    getSectionName sIndex tab ≠ .error .outOfFuel := by
  by_cases h : sIndex ≤ tab.length
  · obtain ⟨nm, hnm⟩ := getSectionName_ok tab sIndex h
    rw [hnm]; exact fun h2 => Except.noConfusion h2
  · rw [getSectionName_beyond tab sIndex (by omega)]
    intro h2
    cases h2

theorem readStruct_advance {α : Type} (decode : ByteOrder → List Byte → α) (E : Nat)
    (sr sr2 : SectionReader) (order : Option ByteOrder) (v : α) (hE : 0 < E)
    (h : readStruct decode E sr order = .ok (v, sr2)) :
    sr2.r = sr.r ∧ sr2.r.length - sr2.off.toNat < sr.r.length - sr.off.toNat := by
  unfold readStruct at h
  cases hrf : sr.ReadFull E with
  | error e => simp [hrf] at h
  | ok res =>
    obtain ⟨bs, sr3⟩ := res
    simp only [hrf] at h
    cases order with
    | none => simp at h
    | some o =>
      simp only [Except.ok.injEq, Prod.mk.injEq] at h
      obtain ⟨_, rfl⟩ := h
      unfold SectionReader.ReadFull at hrf
      have h1 : ¬ E = 0 := by omega
      simp only [h1, if_false] at hrf
      split at hrf
      · cases hrf
      · split at hrf
        · cases hrf
        · split at hrf
          · simp only [Except.ok.injEq, Prod.mk.injEq] at hrf
            obtain ⟨_, rfl⟩ := hrf
            refine ⟨rfl, ?_⟩
            simp only
            omega
          · split at hrf <;> cases hrf

/-- The symbol loop never uses up a budget larger than the number of file bytes after the
position of its reader: every iteration consumes `E > 0` bytes of the file. -/
theorem symLoop_fuel (decode : ByteOrder → List Byte → SymVal) (E : Nat)
    (order : Option ByteOrder) (strtab : List Byte) (numSymbols : Nat) (hE : 0 < E) :
    ∀ (fuel j : Nat) (sr : SectionReader) (syms : GoMap SymVal) (names : GoMap GoString),
      sr.r.length - sr.off.toNat < fuel →
      symLoop decode E order strtab numSymbols fuel j sr syms names ≠ .error .outOfFuel := by
  intro fuel
  induction fuel with
  | zero => intro j sr syms names h; omega
  | succ fuel ih =>
    intro j sr syms names hf
    unfold symLoop
    by_cases hlt : j < numSymbols
    · simp only [hlt, if_true]
      cases hrd : readStruct decode E sr order with
      | error e =>
        simp only
        unfold readStruct at hrd
        split at hrd
        · cases hrd; exact fun h2 => by cases h2
        · split at hrd
          · cases hrd; exact fun h2 => by cases h2
          · cases hrd
      | ok res =>
        obtain ⟨v, sr2⟩ := res
        simp only
        obtain ⟨_, hadv⟩ := readStruct_advance decode E sr sr2 order v hE hrd
        cases hnm : getSymbolName v.sym.Name strtab with
        | error e =>
          simp only
          intro h2
          cases h2
          exact getSectionName_fuel _ _ hnm
        | ok nm =>
          simp only
          exact ih _ _ _ _ (by omega)
    · simp only [hlt, if_false]
      exact fun h2 => by cases h2

theorem bind_ne_fuel {α β : Type} (x : Except Failure α) (g : α → Except Failure β)
    (hx : x ≠ .error .outOfFuel) (hg : ∀ a, x = .ok a → g a ≠ .error .outOfFuel) :
    (x >>= g) ≠ .error .outOfFuel := by
  cases x with
  | error e =>
    intro h
    apply hx
    simpa [bind, Except.bind] using h
  | ok a => exact hg a rfl

theorem goIndex_ne_fuel {α : Type} (l : List α) (i : Nat) :
    goIndex l i ≠ .error .outOfFuel := by
  unfold goIndex
  cases l[i]? <;> simp

theorem readBytes_ne_fuel (sr : SectionReader) (n : Nat) :
    readBytes sr n ≠ .error .outOfFuel := by
  unfold readBytes
  cases sr.ReadFull n <;> simp

theorem NewSectionReader_r (fh : List Byte) (off n : Int) :
    (NewSectionReader fh off n).r = fh := rfl

theorem loadSymbols32_fuel (elfFs : elfFile) (sectionNdx symstrNdx symType : Nat) :
    loadSymbols32 elfFs sectionNdx symstrNdx symType ≠ .error .outOfFuel := by
  unfold loadSymbols32
  refine bind_ne_fuel _ _ (by cases elfFs.ElfSections.Section <;> simp [asSection32])
    (fun secs _ => ?_)
  refine bind_ne_fuel _ _ (goIndex_ne_fuel _ _) (fun sec _ => ?_)
  refine bind_ne_fuel _ _ ?_ (fun strtab _ => ?_)
  · unfold loadStrtab32
    exact bind_ne_fuel _ _ (goIndex_ne_fuel _ _) (fun _ _ => readBytes_ne_fuel _ _)
  have hloop : ∀ (e : elfFile),
      symLoop (fun o bs => SymVal.Sym32 (decodeSym32 o bs)) symSize32 e.FileHdr.Endianness
        strtab (sec.Size / symSize32) (e.Fh.length + 1) 0
        (NewSectionReader e.Fh (int64 sec.Off) (int64 (u32 (sec.Off + sec.Size)))) [] [] ≠
        .error .outOfFuel := fun e =>
    symLoop_fuel _ _ _ _ _ (by decide) _ _ _ _ _ (by rw [NewSectionReader_r]; omega)
  have hl := hloop elfFs
  intro h
  simp only [bind, Except.bind, pure, Except.pure] at h
  by_cases hk : symType = sym
  · subst hk
    have hd : ¬ sym = dynSym := by decide
    simp only [if_true, hd, if_false] at h
    cases hrun : symLoop (fun o bs => SymVal.Sym32 (decodeSym32 o bs)) symSize32
        elfFs.FileHdr.Endianness strtab (sec.Size / symSize32) (elfFs.Fh.length + 1) 0
        (NewSectionReader elfFs.Fh (int64 sec.Off) (int64 (u32 (sec.Off + sec.Size)))) [] [] with
    | error e =>
      rw [hrun] at h hl
      simp only at h
      exact hl (by cases h; rfl)
    | ok R =>
      rw [hrun] at h
      simp at h
  · simp only [hk, if_false] at h
    by_cases hd : symType = dynSym
    · subst hd
      simp only [if_true] at h
      cases hrun : symLoop (fun o bs => SymVal.Sym32 (decodeSym32 o bs)) symSize32
          elfFs.FileHdr.Endianness strtab (sec.Size / symSize32) (elfFs.Fh.length + 1) 0
          (NewSectionReader elfFs.Fh (int64 sec.Off) (int64 (u32 (sec.Off + sec.Size)))) [] [] with
      | error e =>
        rw [hrun] at h hl
        simp only at h
        exact hl (by cases h; rfl)
      | ok R =>
        rw [hrun] at h
        simp at h
    · simp [hd] at h

theorem loadSymbols64_fuel (elfFs : elfFile) (sectionNdx symstrNdx symType : Nat) :
    loadSymbols64 elfFs sectionNdx symstrNdx symType ≠ .error .outOfFuel := by
  unfold loadSymbols64
  refine bind_ne_fuel _ _ (by cases elfFs.ElfSections.Section <;> simp [asSection64])
    (fun secs _ => ?_)
  refine bind_ne_fuel _ _ (goIndex_ne_fuel _ _) (fun sec _ => ?_)
  refine bind_ne_fuel _ _ ?_ (fun strtab _ => ?_)
  · unfold loadStrtab64
    exact bind_ne_fuel _ _ (goIndex_ne_fuel _ _) (fun _ _ => readBytes_ne_fuel _ _)
  have hloop : ∀ (e : elfFile),
      symLoop (fun o bs => SymVal.Sym64 (decodeSym64 o bs)) symSize64 e.FileHdr.Endianness
        strtab (sec.Size / symSize64) (e.Fh.length + 1) 0
        (NewSectionReader e.Fh (int64 sec.Off) (int64 (u64 (sec.Off + sec.Size)))) [] [] ≠
        .error .outOfFuel := fun e =>
    symLoop_fuel _ _ _ _ _ (by decide) _ _ _ _ _ (by rw [NewSectionReader_r]; omega)
  have hl := hloop elfFs
  intro h
  simp only [bind, Except.bind, pure, Except.pure] at h
  by_cases hk : symType = sym
  · subst hk
    have hd : ¬ sym = dynSym := by decide
    simp only [if_true, hd, if_false] at h
    cases hrun : symLoop (fun o bs => SymVal.Sym64 (decodeSym64 o bs)) symSize64
        elfFs.FileHdr.Endianness strtab (sec.Size / symSize64) (elfFs.Fh.length + 1) 0
        (NewSectionReader elfFs.Fh (int64 sec.Off) (int64 (u64 (sec.Off + sec.Size)))) [] [] with
    | error e =>
      rw [hrun] at h hl
      simp only at h
      exact hl (by cases h; rfl)
    | ok R =>
      rw [hrun] at h
      simp at h
  · simp only [hk, if_false] at h
    by_cases hd : symType = dynSym
    · subst hd
      simp only [if_true] at h
      cases hrun : symLoop (fun o bs => SymVal.Sym64 (decodeSym64 o bs)) symSize64
          elfFs.FileHdr.Endianness strtab (sec.Size / symSize64) (elfFs.Fh.length + 1) 0
          (NewSectionReader elfFs.Fh (int64 sec.Off) (int64 (u64 (sec.Off + sec.Size)))) [] [] with
      | error e =>
        rw [hrun] at h hl
        simp only at h
        exact hl (by cases h; rfl)
      | ok R =>
        rw [hrun] at h
        simp at h
    · simp [hd] at h

/-- The answer `outOfFuel` is never given by `loadSymbols`: its loops end by themselves or
by a panic of the program. -/
theorem loadSymbols_fuel (elfFs : elfFile) (sectionNdx symstrNdx symType : Nat) :
    loadSymbols elfFs sectionNdx symstrNdx symType ≠ .error .outOfFuel := by
  unfold loadSymbols
  split
  · exact loadSymbols32_fuel _ _ _ _
  · split
    · exact loadSymbols64_fuel _ _ _ _
    · exact fun h => by cases h


/-! ## Identification, header and symbol lines -/

theorem isElf_of_four (a b c d : Byte) (rest : List Byte) :
    isElf (a :: b :: c :: d :: rest) = .ok (decide ([a, b, c, d] = [0x7f, 69, 76, 70])) := by
  unfold isElf
  simp only [goIndex, List.length_cons, Nat.zero_lt_succ, dite_true, List.get_eq_getElem,
    List.getElem_cons_zero, List.getElem_cons_succ, Nat.succ_lt_succ_iff, Nat.lt_add_one]
  by_cases ha : a = 0x7f
  · by_cases hb : b = 69
    · by_cases hc : c = 76
      · by_cases hd : d = 70
        · simp [ha, hb, hc, hd]
        · simp [ha, hb, hc, hd]
      · simp [ha, hb, hc]
    · simp [ha, hb]
  · simp [ha]

/-- C20. For every byte sequence of at least 4 bytes, `isElf` returns, and it returns
true exactly when the first four bytes are `0x7f`, `E`, `L`, `F` in that order; the
result is the same for every sequence with the same first four bytes. -/
theorem isElf_iff_magic (magic : List Byte) (h : 4 ≤ magic.length) :
    isElf magic = .ok (decide (magic.take 4 = [0x7f, 69, 76, 70])) ∧
      ∀ tail, isElf (magic.take 4 ++ tail) = isElf magic := by
  match magic, h with
  | a :: b :: c :: d :: rest, _ =>
    refine ⟨?_, fun tail => ?_⟩
    · rw [isElf_of_four]; rfl
    · show isElf (a :: b :: c :: d :: ([] ++ tail)) = _
      rw [isElf_of_four, isElf_of_four]

/-- C20 (witness): the statement at the first 16 bytes of the fixture file. -/
theorem isElf_iff_magic_witness :
    4 ≤ (dynFile.take 16).length ∧
      isElf (dynFile.take 16) = .ok (decide ((dynFile.take 16).take 4 = [0x7f, 69, 76, 70])) ∧
      ∀ tail, isElf ((dynFile.take 16).take 4 ++ tail) = isElf (dynFile.take 16) :=
  ⟨by decide, isElf_iff_magic (dynFile.take 16) (by decide)⟩

theorem selectEndianness_little (elfFs : elfFile) (h : identByte elfFs EI_DATA = ELFDATA2LSB) :
    selectEndianness elfFs = some .LittleEndian := by
  unfold selectEndianness
  rw [if_pos h]

theorem selectEndianness_big (elfFs : elfFile) (h : identByte elfFs EI_DATA = ELFDATA2MSB) :
    selectEndianness elfFs = some .BigEndian := by
  unfold selectEndianness
  rw [if_neg (by rw [h]; decide), if_pos h]

theorem selectEndianness_other (elfFs : elfFile) (h1 : identByte elfFs EI_DATA ≠ ELFDATA2LSB)
    (h2 : identByte elfFs EI_DATA ≠ ELFDATA2MSB) :
    selectEndianness elfFs = elfFs.FileHdr.Endianness := by
  unfold selectEndianness
  rw [if_neg h1, if_neg h2]

theorem fileReader_read (fh : List Byte) (E : Nat) (hE : 0 < E) (hle : E ≤ fh.length)
    (hsmall : E < 2 ^ 63) :
    ∃ bs sr2, (fileReader fh).ReadFull E = .ok (bs, sr2) := by
  unfold SectionReader.ReadFull fileReader maxint64
  have hne : E ≠ 0 := by omega
  simp only [hne, if_false]
  rw [if_neg (by norm_num), if_neg (by norm_num)]
  have h63 : Int.toNat (2 ^ 63 - 1) = 2 ^ 63 - 1 := by decide
  have : E ≤ min (Int.toNat (2 ^ 63 - 1)) fh.length - Int.toNat 0 := by
    rw [h63]
    simp only [Int.toNat_zero, Nat.sub_zero]
    exact le_min (by omega) hle
  simp only [this, if_true]
  exact ⟨_, _, rfl⟩

/-- With a data-encoding byte other than 1 and 2 and no byte order set before,
`mapHeader` goes on to the read of the header: it never returns, and once the header
bytes are read the failure is the decode through the unset byte order. -/
theorem mapHeader_other_encoding (elfFs : elfFile)
    (h1 : identByte elfFs EI_DATA ≠ ELFDATA2LSB) (h2 : identByte elfFs EI_DATA ≠ ELFDATA2MSB)
    (hnone : elfFs.FileHdr.Endianness = none) :
    (∃ p, mapHeader elfFs = .error (.panic p)) ∧
      (∀ h, elfFs.Hdr = .Header64 h → 64 ≤ elfFs.Fh.length →
        mapHeader elfFs = .error (.panic .nilByteOrder)) ∧
      (∀ h, elfFs.Hdr = .Header32 h → 52 ≤ elfFs.Fh.length →
        mapHeader elfFs = .error (.panic .nilByteOrder)) := by
  have hsel : selectEndianness elfFs = none := by
    rw [selectEndianness_other elfFs h1 h2, hnone]
  have hform : ∀ (decode : ByteOrder → List Byte → Header) (E : Nat),
      (∃ p, readStruct decode E (fileReader elfFs.Fh) none = .error (.panic p)) ∧
      (0 < E → E ≤ elfFs.Fh.length → E < 2 ^ 63 →
        readStruct decode E (fileReader elfFs.Fh) none = .error (.panic .nilByteOrder)) := by
    intro decode E
    constructor
    · unfold readStruct
      cases (fileReader elfFs.Fh).ReadFull E with
      | error e => exact ⟨_, rfl⟩
      | ok v => exact ⟨_, rfl⟩
    · intro hE hle hsmall
      obtain ⟨bs, sr2, hrd⟩ := fileReader_read elfFs.Fh E hE hle hsmall
      unfold readStruct
      rw [hrd]
  refine ⟨?_, ?_, ?_⟩
  · unfold mapHeader
    rw [hsel]
    cases hh : elfFs.Hdr with
    | nil => exact ⟨_, rfl⟩
    | Header32 h =>
      obtain ⟨p, hp⟩ := (hform decodeHeader32 52).1
      simp only [hp]
      exact ⟨_, rfl⟩
    | Header64 h =>
      obtain ⟨p, hp⟩ := (hform decodeHeader64 64).1
      simp only [hp]
      exact ⟨_, rfl⟩
  · intro h hh hlen
    unfold mapHeader
    rw [hsel]
    simp only [hh, (hform decodeHeader64 64).2 (by norm_num) hlen (by norm_num)]
  · intro h hh hlen
    unfold mapHeader
    rw [hsel]
    simp only [hh, (hform decodeHeader32 52).2 (by norm_num) hlen (by norm_num)]

/-- C19. A data-encoding byte of 0 does not stop `mapHeader`: on the fixture file with
that byte set to 0 no byte order is selected, the 64 header bytes are read all the same,
and the run ends in the panic of the decode through the unset byte order; with the byte
1 of the unchanged file the order is little-endian and the header is decoded. -/
theorem mapHeader_decodes_with_unset_order :
    identByte (openState noEncodingFile) EI_DATA = 0 ∧
      selectEndianness (openState noEncodingFile) = none ∧
      (∃ bs sr2, (fileReader noEncodingFile).ReadFull 64 = .ok (bs, sr2) ∧ bs.length = 64) ∧
      classify (openState noEncodingFile) = .error (.panic .nilByteOrder) ∧
      classify (openState dynFile) =
        .ok (freshState dynFile ELFCLASS64 (some .LittleEndian) 62 (.Header64 dynHeader)) := by
  refine ⟨by decide, by decide, ⟨_, _, rfl, by decide⟩, by decide, by decide⟩

theorem ST_TYPE_eq (info : Nat) : ST_TYPE info = info % 16 := by
  unfold ST_TYPE
  exact Nat.and_pow_two_sub_one_eq_mod info 4

theorem ST_BIND_eq (info : Nat) : ST_BIND info = info / 16 := by
  unfold ST_BIND
  exact Nat.shiftRight_eq_div_pow info 4

theorem ST_VISIBILITY_eq (other : Nat) : ST_VISIBILITY other = other % 4 := by
  unfold ST_VISIBILITY
  exact Nat.and_pow_two_sub_one_eq_mod other 2

theorem symRow_of_get (w : Width) (syms : GoMap SymVal) (names : GoMap GoString) (i : Nat)
    (sy : Sym) (h : syms.get i = some (w.symVal sy)) :
    w.symRow syms names i =
      .ok { sNdx := i, v := sy.Value, s := sy.Size, t := ST_TYPE sy.Info,
            b := ST_BIND sy.Info, vis := ST_VISIBILITY sy.Info, sec := sy.Shndx,
            nm := (names.get sy.Name).getD [] } := by
  cases w
  · show symRow32 syms names i = _
    unfold symRow32
    rw [h]; rfl
  · show symRow64 syms names i = _
    unfold symRow64
    rw [h]; rfl

/-- C11. The visibility `printSymbols` reports is computed from the info byte: for a
symbol of either width the line holds the low 2 bits of `Info` as visibility, whatever
the byte `Other` is, next to the low 4 bits of `Info` as type and its high 4 bits as
binding. In the table of the fixture file the three symbols have the same `Other` byte
0, and the first is reported with visibility 0, the two others with visibility 2. -/
theorem printSymbols_visibility_from_info :
    (∀ (w : Width) (names : GoMap GoString) (i : Nat) (sy : Sym) (other : Nat),
      ∃ row, w.symRow [(i, w.symVal { sy with Other := other })] names i = .ok row ∧
        row.vis = sy.Info % 4 ∧ row.t = sy.Info % 16 ∧ row.b = sy.Info / 16) ∧
      printSymbols dynLoaded = .ok
        [ { sNdx := 0, v := 0, s := 0, t := 0, b := 0, vis := 0, sec := 0, nm := str "" },
          { sNdx := 1, v := 0x1000, s := 0, t := 2, b := 1, vis := 2, sec := 5,
            nm := str "foo" },
          { sNdx := 2, v := 0x2000, s := 0, t := 2, b := 1, vis := 2, sec := 5,
            nm := str "bar" } ] := by
  refine ⟨fun w names i sy other => ?_, by decide⟩
  have hget : GoMap.get [(i, w.symVal { sy with Other := other })] i =
      some (w.symVal { sy with Other := other }) := by
    simp [GoMap.get]
  exact ⟨_, symRow_of_get w _ names i _ hget, ST_VISIBILITY_eq _, ST_TYPE_eq _, ST_BIND_eq _⟩

theorem readStruct_none {α : Type} (decode : ByteOrder → List Byte → α) (E : Nat)
    (sr : SectionReader) : ∃ e, readStruct decode E sr none = .error e := by
  unfold readStruct
  cases sr.ReadFull E with
  | error e => exact ⟨_, rfl⟩
  | ok v => exact ⟨_, rfl⟩

/-- A state `mapHeader` returns has its byte order set: every later stage of a run
decodes through a byte order. -/
theorem mapHeader_sets_order (elfFs e1 : elfFile) (h : mapHeader elfFs = .ok e1) :
    ∃ o, e1.FileHdr.Endianness = some o := by
  unfold mapHeader at h
  cases hh : elfFs.Hdr with
  | nil => simp only [hh] at h; exact Except.noConfusion h
  | Header32 h0 =>
    simp only [hh] at h
    cases ho : selectEndianness elfFs with
    | none =>
      obtain ⟨e, he⟩ := readStruct_none decodeHeader32 52 (fileReader elfFs.Fh)
      rw [ho, he] at h
      exact Except.noConfusion h
    | some o =>
      rw [ho] at h
      cases hr : readStruct decodeHeader32 52 (fileReader elfFs.Fh) (some o) with
      | error e => rw [hr] at h; exact Except.noConfusion h
      | ok v =>
        rw [hr] at h
        have he := Except.ok.inj h
        exact ⟨o, by rw [← he]⟩
  | Header64 h0 =>
    simp only [hh] at h
    cases ho : selectEndianness elfFs with
    | none =>
      obtain ⟨e, he⟩ := readStruct_none decodeHeader64 64 (fileReader elfFs.Fh)
      rw [ho, he] at h
      exact Except.noConfusion h
    | some o =>
      rw [ho] at h
      cases hr : readStruct decodeHeader64 64 (fileReader elfFs.Fh) (some o) with
      | error e => rw [hr] at h; exact Except.noConfusion h
      | ok v =>
        rw [hr] at h
        have he := Except.ok.inj h
        exact ⟨o, by rw [← he]⟩


/-! ## Section lookup and `getSymbols` -/

theorem ndxLoop_absent (name : GoString) (names : List GoString) (limit : Nat)
    (hlim : limit ≤ names.length) (hlim32 : limit < 2 ^ 32)
    (habs : ∀ nm ∈ names, nm ≠ name) :
    ∀ (fuel ndx : Nat), limit - ndx < fuel → ndxLoop name names limit fuel ndx = .ok 0 := by
  intro fuel
  induction fuel with
  | zero => intro ndx h; omega
  | succ fuel ih =>
    intro ndx hfuel
    unfold ndxLoop
    by_cases hlt : ndx < limit
    · have hi : ndx < names.length := by omega
      rw [if_pos hlt, goIndex_of_lt names ndx hi]
      have hne : names.get ⟨ndx, hi⟩ ≠ name := habs _ (List.get_mem names ndx hi)
      simp only [hne, if_false]
      rw [u32_of_lt (by omega)]
      exact ih (ndx + 1) (by omega)
    · rw [if_neg hlt]

theorem ndxLoop_first (name : GoString) (names : List GoString) (limit d : Nat)
    (hlim : limit ≤ names.length) (hlim32 : limit < 2 ^ 32) (hd : d < limit)
    (hname : names[d]? = some name) :
    ∀ (fuel ndx : Nat), ndx ≤ d → d - ndx < fuel →
      (∀ i, ndx ≤ i → i < d → names[i]? ≠ some name) →
      ndxLoop name names limit fuel ndx = .ok d := by
  intro fuel
  induction fuel with
  | zero => intro ndx _ h; omega
  | succ fuel ih =>
    intro ndx hle hfuel hfirst
    unfold ndxLoop
    have hlt : ndx < limit := by omega
    have hi : ndx < names.length := by omega
    rw [if_pos hlt, goIndex_of_lt names ndx hi]
    by_cases heq : ndx = d
    · subst heq
      have : names.get ⟨ndx, hi⟩ = name := by
        rw [List.getElem?_eq_getElem hi] at hname
        exact Option.some.inj hname
      simp only [this, if_true]
    · have hne : names.get ⟨ndx, hi⟩ ≠ name := by
        intro hc
        apply hfirst ndx (Nat.le_refl _) (by omega)
        rw [List.getElem?_eq_getElem hi]
        exact congrArg some hc
      simp only [hne, if_false]
      rw [u32_of_lt (by omega)]
      exact ih (ndx + 1) (by omega) (by omega) (fun i h1 h2 => hfirst i (by omega) h2)

/-- A name no section has is looked up as index 0. -/
theorem getSectionNdx_absent (name : GoString) (elfFs : elfFile)
    (habs : ∀ nm ∈ elfFs.ElfSections.SectionName, nm ≠ name) :
    getSectionNdx name elfFs = .ok 0 := by
  unfold getSectionNdx
  exact ndxLoop_absent name _ _ (u32_le _) (u32_lt _) habs _ 0
    (Nat.lt_succ_of_le (le_trans (Nat.sub_le _ _) (u32_le _)))

/-- The lookup of a name returns the first index that has it, in a table of fewer than
`2 ^ 32` sections. -/
theorem getSectionNdx_first (name : GoString) (elfFs : elfFile) (d : Nat)
    (hlen : elfFs.ElfSections.SectionName.length < 2 ^ 32)
    (hname : elfFs.ElfSections.SectionName[d]? = some name)
    (hfirst : ∀ i, i < d → elfFs.ElfSections.SectionName[i]? ≠ some name) :
    getSectionNdx name elfFs = .ok d := by
  unfold getSectionNdx
  have hd : d < elfFs.ElfSections.SectionName.length := by
    by_contra hc
    rw [List.getElem?_eq_none (by omega)] at hname
    exact Option.noConfusion hname
  rw [u32_of_lt hlen]
  exact ndxLoop_first name _ _ d (Nat.le_refl _) hlen hd hname _ 0 (Nat.zero_le _) (by omega)
    (fun i _ h2 => hfirst i h2)

theorem mapExcept_ok {α β : Type} (g : α → Except Failure β) :
    ∀ (l : List α), (∀ a ∈ l, ∃ b, g a = .ok b) → ∃ bs, mapExcept g l = .ok bs := by
  intro l
  induction l with
  | nil => intro _; exact ⟨[], rfl⟩
  | cons a as ih =>
    intro h
    obtain ⟨b, hb⟩ := h a (List.mem_cons_self _ _)
    obtain ⟨bs, hbs⟩ := ih (fun x hx => h x (List.mem_cons_of_mem _ hx))
    exact ⟨b :: bs, by simp only [mapExcept, hb, hbs]⟩

/-- The lines of a table whose keys below its length all hold a symbol of the width are
all printed. -/
theorem symRows_ok (w : Width) (syms : GoMap SymVal) (names : GoMap GoString)
    (h : ∀ i, i < syms.len → ∃ sy, syms.get i = some (w.symVal sy)) :
    ∃ rows, symRows w.symRow syms names = .ok rows := by
  unfold symRows
  by_cases hpos : syms.len > 0
  · rw [if_pos hpos]
    apply mapExcept_ok
    intro i hi
    rw [List.mem_range] at hi
    obtain ⟨sy, hsy⟩ := h i (lt_of_lt_of_le hi (u32_le _))
    exact ⟨_, symRow_of_get w syms names i sy hsy⟩
  · rw [if_neg hpos]; exact ⟨[], rfl⟩

theorem printSymbols_ok (w : Width) (elfFs : elfFile) (harch : elfFs.FileHdr.Arch = w.arch)
    (hd : ∀ i, i < elfFs.DynSymbols.len → ∃ sy, elfFs.DynSymbols.get i = some (w.symVal sy))
    (hs : ∀ i, i < elfFs.Symbols.len → ∃ sy, elfFs.Symbols.get i = some (w.symVal sy)) :
    ∃ rows, printSymbols elfFs = .ok rows := by
  obtain ⟨d, hd2⟩ := symRows_ok w elfFs.DynSymbols elfFs.DynSymbolsName hd
  obtain ⟨r, hr2⟩ := symRows_ok w elfFs.Symbols elfFs.SymbolsName hs
  unfold printSymbols
  cases w
  · have ha : elfFs.FileHdr.Arch = ELFCLASS32 := harch
    rw [if_pos ha]
    have hd3 : symRows symRow32 elfFs.DynSymbols elfFs.DynSymbolsName = .ok d := hd2
    have hr3 : symRows symRow32 elfFs.Symbols elfFs.SymbolsName = .ok r := hr2
    simp only [hd3, hr3]
    exact ⟨_, rfl⟩
  · have ha : elfFs.FileHdr.Arch = ELFCLASS64 := harch
    rw [if_neg (by rw [ha]; decide), if_pos ha]
    have hd3 : symRows symRow64 elfFs.DynSymbols elfFs.DynSymbolsName = .ok d := hd2
    have hr3 : symRows symRow64 elfFs.Symbols elfFs.SymbolsName = .ok r := hr2
    simp only [hd3, hr3]
    exact ⟨_, rfl⟩

theorem loadSymbols_frame (elfFs e1 : elfFile) (sectionNdx symstrNdx symType : Nat)
    (hkind : symType = sym ∨ symType = dynSym)
    (h : loadSymbols elfFs sectionNdx symstrNdx symType = .ok e1) :
    e1 = elfFs ∨ ∃ S N, e1 = withTable elfFs symType S N := by
  by_cases h32 : elfFs.FileHdr.Arch = ELFCLASS32
  · obtain ⟨_, _, _, S, N, _, _, _, _, he⟩ :=
      loadSymbols_inv .W32 elfFs e1 sectionNdx symstrNdx symType h32 hkind h
    exact Or.inr ⟨S, N, he⟩
  · by_cases h64 : elfFs.FileHdr.Arch = ELFCLASS64
    · obtain ⟨_, _, _, S, N, _, _, _, _, he⟩ :=
        loadSymbols_inv .W64 elfFs e1 sectionNdx symstrNdx symType h64 hkind h
      exact Or.inr ⟨S, N, he⟩
    · unfold loadSymbols at h
      rw [if_neg h32, if_neg h64] at h
      exact Or.inl (Except.ok.inj h).symm

theorem withTable_sections (elfFs : elfFile) (symType : Nat) (S : GoMap SymVal)
    (N : GoMap GoString) :
    (withTable elfFs symType S N).ElfSections = elfFs.ElfSections ∧
      (withTable elfFs symType S N).FileHdr = elfFs.FileHdr ∧
      (withTable elfFs symType S N).Fh = elfFs.Fh := by
  unfold withTable
  split <;> exact ⟨rfl, rfl, rfl⟩

theorem withTable_dynSym (elfFs : elfFile) (S : GoMap SymVal) (N : GoMap GoString) :
    withTable elfFs dynSym S N = { elfFs with DynSymbols := S, DynSymbolsName := N } := by
  unfold withTable
  rw [if_pos rfl]

/-- The block of `.dynsym` leaves the section table and the regular table as they
were. -/
theorem loadNamed_dynSym_frame (elfFs e1 : elfFile) (tabName strName : GoString)
    (h : loadNamed elfFs tabName strName dynSym = .ok e1) :
    e1.ElfSections = elfFs.ElfSections ∧ e1.Symbols = elfFs.Symbols ∧
      e1.SymbolsName = elfFs.SymbolsName := by
  unfold loadNamed at h
  cases h1 : getSectionNdx tabName elfFs with
  | error e => simp only [h1] at h; exact Except.noConfusion h
  | ok ndx =>
    simp only [h1] at h
    by_cases h0 : ndx ≠ 0
    · rw [if_pos h0] at h
      cases h2 : getSectionNdx strName elfFs with
      | error e => simp only [h2] at h; exact Except.noConfusion h
      | ok strNdx =>
        simp only [h2] at h
        cases h3 : loadSymbols elfFs ndx strNdx dynSym with
        | error e => simp only [h3] at h; exact Except.noConfusion h
        | ok e2 =>
          simp only [h3] at h
          cases h4 : printSymbols e2 with
          | error e => simp only [h4] at h; exact Except.noConfusion h
          | ok rows =>
            simp only [h4] at h
            have he : e2 = e1 := Except.ok.inj h
            subst he
            rcases loadSymbols_frame elfFs e2 ndx strNdx dynSym (Or.inr rfl) h3 with he | ⟨S, N, he⟩
            · rw [he]; exact ⟨rfl, rfl, rfl⟩
            · rw [he, withTable_dynSym]; exact ⟨rfl, rfl, rfl⟩
    · rw [if_neg h0] at h
      have he : elfFs = e1 := Except.ok.inj h
      subst he
      exact ⟨rfl, rfl, rfl⟩

/-- Without a section named `.symtab` the outcome of `getSymbols` is that of its
`.dynsym` block. -/
theorem getSymbols_eq_dyn_block (elfFs : elfFile)
    (hnosym : ∀ nm ∈ elfFs.ElfSections.SectionName, nm ≠ str ".symtab") :
    getSymbols elfFs = loadNamed elfFs (str ".dynsym") (str ".dynstr") dynSym := by
  unfold getSymbols
  cases h1 : loadNamed elfFs (str ".dynsym") (str ".dynstr") dynSym with
  | error e => rfl
  | ok e1 =>
    obtain ⟨hsec, _, _⟩ := loadNamed_dynSym_frame elfFs e1 _ _ h1
    show loadNamed e1 (str ".symtab") (str ".strtab") sym = .ok e1
    unfold loadNamed
    rw [getSectionNdx_absent (str ".symtab") e1 (by rw [hsec]; exact hnosym)]
    rfl

/-- The block of `.dynsym` on a table whose first `.dynsym` section has a nonzero index
and whose records, pool and name offsets lie inside the file: the dynamic table is
loaded and both tables are printed. -/
theorem loadNamed_dynsym_loaded (w : Width) (elfFs : elfFile) (secs : List Section)
    (d b : Nat) (o : ByteOrder) (sec strSec : Section)
    (harch : elfFs.FileHdr.Arch = w.arch)
    (hs : elfFs.ElfSections.Section = w.sections secs)
    (ho : elfFs.FileHdr.Endianness = some o)
    (hempty : elfFs.Symbols = [])
    (hlen : elfFs.ElfSections.SectionName.length < 2 ^ 32)
    (hd0 : d ≠ 0)
    (hdyn : elfFs.ElfSections.SectionName[d]? = some (str ".dynsym"))
    (hdfirst : ∀ i, i < d → elfFs.ElfSections.SectionName[i]? ≠ some (str ".dynsym"))
    (hdstr : elfFs.ElfSections.SectionName[b]? = some (str ".dynstr"))
    (hbfirst : ∀ i, i < b → elfFs.ElfSections.SectionName[i]? ≠ some (str ".dynstr"))
    (hsec : secs[d]? = some sec) (hstr : secs[b]? = some strSec)
    (hrec : sec.Off + sec.Size / w.symSize * w.symSize ≤ elfFs.Fh.length)
    (hrecw : sec.Off + sec.Size < w.sumBound)
    (hpool : strSec.Off + strSec.Size ≤ elfFs.Fh.length)
    (hpoolw : strSec.Off + strSec.Size < w.sumBound)
    (hcount : sec.Size / w.symSize < 2 ^ 32)
    (hnames : ∀ i, i < sec.Size / w.symSize →
      (w.decodeSym o (recordAt elfFs.Fh sec.Off w.symSize i)).Name ≤ strSec.Size) :
    ∃ S N, loadNamed elfFs (str ".dynsym") (str ".dynstr") dynSym =
        .ok { elfFs with DynSymbols := S, DynSymbolsName := N } ∧
      S.len = sec.Size / w.symSize ∧
      (∀ i, S.get i =
        if i < sec.Size / w.symSize then
          some (w.symVal (w.decodeSym o (recordAt elfFs.Fh sec.Off w.symSize i)))
        else none) := by
  obtain ⟨S, N, hrun, hSlen, hget⟩ := loadSymbols_table w elfFs secs d b dynSym o sec strSec
    harch hs ho (Or.inr rfl) hsec hstr hrec hrecw hpool hpoolw hcount hnames
  rw [withTable_dynSym] at hrun
  obtain ⟨rows, hrows⟩ := printSymbols_ok w { elfFs with DynSymbols := S, DynSymbolsName := N }
    harch
    (fun i hi => by
      have hi2 : i < sec.Size / w.symSize := by rw [← hSlen]; exact hi
      exact ⟨_, by rw [hget i, if_pos hi2]⟩)
    (fun i hi => by
      have h0 : GoMap.len elfFs.Symbols = 0 := by rw [hempty]; rfl
      have hi2 : i < GoMap.len elfFs.Symbols := hi
      omega)
  refine ⟨S, N, ?_, hSlen, hget⟩
  unfold loadNamed
  rw [getSectionNdx_first (str ".dynsym") elfFs d hlen hdyn hdfirst]
  simp only [hd0, ne_eq, not_false_eq_true, if_true]
  rw [getSectionNdx_first (str ".dynstr") elfFs b hlen hdstr hbfirst]
  simp only [hrun, hrows]

/-- C13 (counterexample). A table without `.symtab` whose `.dynsym` (two records) and
`.dynstr` (one byte) are present and readable: the second symbol has a name offset
beyond the pool and `getSymbols` ends in a panic instead of populating the dynamic
table. -/
theorem getSymbols_dynsym_name_beyond_pool :
    (∀ nm ∈ shortDynstrState.ElfSections.SectionName, nm ≠ str ".symtab") ∧
      readBytes (NewSectionReader shortDynstrState.Fh 0 32) 32 = .ok (shortDynstrState.Fh.take 32) ∧
      readBytes (NewSectionReader shortDynstrState.Fh 32 1) 1 = .ok [0] ∧
      getSymbols shortDynstrState = .error (.panic .sliceBounds) := by
  refine ⟨by decide, by decide, by decide, by decide⟩

/-- C13 (amended). On a section table without a section named `.symtab`, the outcome of
`getSymbols` is that of its `.dynsym` block alone and, when it returns, the regular
table is as it was before the call; without a section named `.dynsym` either it returns
the state unchanged. If the first `.dynsym` section has a nonzero index, a `.dynstr`
section is present, the records and the pool lie inside the file, every record name
offset is within the pool and the arithmetic of the load does not overflow, then on a
state with an empty regular table `getSymbols` returns, the regular table is still empty
and the dynamic table holds exactly the `size / E` records of `.dynsym`. -/
theorem getSymbols_without_symtab (elfFs : elfFile)
    (hnosym : ∀ nm ∈ elfFs.ElfSections.SectionName, nm ≠ str ".symtab") :
    getSymbols elfFs = loadNamed elfFs (str ".dynsym") (str ".dynstr") dynSym ∧
      (∀ e1, getSymbols elfFs = .ok e1 →
        e1.Symbols = elfFs.Symbols ∧ e1.SymbolsName = elfFs.SymbolsName) ∧
      ((∀ nm ∈ elfFs.ElfSections.SectionName, nm ≠ str ".dynsym") →
        getSymbols elfFs = .ok elfFs) ∧
      (∀ (w : Width) (secs : List Section) (d b : Nat) (o : ByteOrder) (sec strSec : Section),
        elfFs.FileHdr.Arch = w.arch → elfFs.ElfSections.Section = w.sections secs →
        elfFs.FileHdr.Endianness = some o → elfFs.Symbols = [] →
        elfFs.ElfSections.SectionName.length < 2 ^ 32 → d ≠ 0 →
        elfFs.ElfSections.SectionName[d]? = some (str ".dynsym") →
        (∀ i, i < d → elfFs.ElfSections.SectionName[i]? ≠ some (str ".dynsym")) →
        elfFs.ElfSections.SectionName[b]? = some (str ".dynstr") →
        (∀ i, i < b → elfFs.ElfSections.SectionName[i]? ≠ some (str ".dynstr")) →
        secs[d]? = some sec → secs[b]? = some strSec →
        sec.Off + sec.Size / w.symSize * w.symSize ≤ elfFs.Fh.length →
        sec.Off + sec.Size < w.sumBound →
        strSec.Off + strSec.Size ≤ elfFs.Fh.length →
        strSec.Off + strSec.Size < w.sumBound →
        sec.Size / w.symSize < 2 ^ 32 →
        (∀ i, i < sec.Size / w.symSize →
          (w.decodeSym o (recordAt elfFs.Fh sec.Off w.symSize i)).Name ≤ strSec.Size) →
        ∃ e1, getSymbols elfFs = .ok e1 ∧ e1.Symbols = [] ∧
          e1.DynSymbols.len = sec.Size / w.symSize ∧
          (∀ i, e1.DynSymbols.get i =
            if i < sec.Size / w.symSize then
              some (w.symVal (w.decodeSym o (recordAt elfFs.Fh sec.Off w.symSize i)))
            else none)) := by
  have heq := getSymbols_eq_dyn_block elfFs hnosym
  refine ⟨heq, ?_, ?_, ?_⟩
  · intro e1 h1
    rw [heq] at h1
    exact (loadNamed_dynSym_frame elfFs e1 _ _ h1).2
  · intro hnodyn
    rw [heq]
    unfold loadNamed
    rw [getSectionNdx_absent (str ".dynsym") elfFs hnodyn]
    rfl
  · intro w secs d b o sec strSec harch hs ho hempty hlen hd0 hdyn hdfirst hdstr hbfirst hsec
      hstr hrec hrecw hpool hpoolw hcount hnames
    obtain ⟨S, N, hrun, hSlen, hget⟩ := loadNamed_dynsym_loaded w elfFs secs d b o sec strSec
      harch hs ho hempty hlen hd0 hdyn hdfirst hdstr hbfirst hsec hstr hrec hrecw hpool hpoolw
      hcount hnames
    exact ⟨{ elfFs with DynSymbols := S, DynSymbolsName := N }, by rw [heq, hrun], hempty,
      hSlen, hget⟩

/-- C13 (witness): the amended statement at the fixture file, which has `.dynsym` at
index 1, `.dynstr` at index 2 and no `.symtab`. -/
theorem getSymbols_without_symtab_witness :
    (∀ nm ∈ dynState.ElfSections.SectionName, nm ≠ str ".symtab") ∧
      ∃ e1, getSymbols dynState = .ok e1 ∧ e1.Symbols = [] ∧
        e1.DynSymbols.len = 72 / Width.W64.symSize ∧
        (∀ i, e1.DynSymbols.get i =
          if i < 72 / Width.W64.symSize then
            some (Width.W64.symVal (Width.W64.decodeSym .LittleEndian
              (recordAt dynState.Fh 64 Width.W64.symSize i)))
          else none) :=
  ⟨by decide,
    (getSymbols_without_symtab dynState (by decide)).2.2.2 .W64 dynSections 1 2 .LittleEndian
      { Name := 1, Typ := 11, Flags := 2, Addr := 0, Off := 64, Size := 72, Link := 2,
        Info := 1, Addralign := 8, Entsize := 24 }
      { Name := 9, Typ := 3, Flags := 2, Addr := 0, Off := 136, Size := 9, Link := 0,
        Info := 0, Addralign := 1, Entsize := 0 }
      rfl rfl rfl rfl (by decide) (by decide) (by decide) (by decide) (by decide) (by decide)
      (by decide) (by decide) (by decide) (by decide) (by decide) (by decide) (by decide)
      (by decide)⟩

/-- Without a section of the string-table name, a block of `getSymbols` whose
symbol-table section is found passes index 0 as the string table to `loadSymbols`. -/
theorem loadNamed_missing_strtab (elfFs : elfFile) (tabName strName : GoString)
    (symType ndx : Nat) (habs : ∀ nm ∈ elfFs.ElfSections.SectionName, nm ≠ strName)
    (hndx : getSectionNdx tabName elfFs = .ok ndx) (h0 : ndx ≠ 0) :
    loadNamed elfFs tabName strName symType =
      match loadSymbols elfFs ndx 0 symType with
      | .error e => .error e
      | .ok e1 =>
        match printSymbols e1 with
        | .error e => .error e
        | .ok _ => .ok e1 := by
  have hstr := getSectionNdx_absent strName elfFs habs
  cases hl : loadSymbols elfFs ndx 0 symType with
  | error e =>
    simp only [loadNamed, hndx, hstr, h0, ne_eq, not_false_eq_true, if_true, hl]
  | ok e1 =>
    cases h4 : printSymbols e1 <;>
      simp only [loadNamed, hndx, hstr, h0, ne_eq, not_false_eq_true, if_true, hl, h4]

/-- C14. A section table with a `.symtab` section and no `.strtab` section: the lookup
of `.strtab` gives index 0 and the symbols are loaded against the bytes of section 0.
With the null symbol and a section symbol, both of name offset 0, `getSymbols` returns
with the two symbols loaded under the empty name; with a symbol of name offset 1 it ends
in a slice-bounds panic on the empty pool of section 0. -/
theorem getSymbols_missing_strtab_reads_section_zero :
    (∀ nm ∈ sectionSymbolState.ElfSections.SectionName, nm ≠ str ".strtab") ∧
      getSectionNdx (str ".symtab") sectionSymbolState = .ok 1 ∧
      getSectionNdx (str ".strtab") sectionSymbolState = .ok 0 ∧
      getSymbols sectionSymbolState = .ok
        { sectionSymbolState with
          Symbols :=
            [ (0, .Sym32 { Name := 0, Value := 0, Size := 0, Info := 0, Other := 0,
                           Shndx := 0 }),
              (1, .Sym32 { Name := 0, Value := 0, Size := 0, Info := 3, Other := 0,
                           Shndx := 1 }) ],
          SymbolsName := [(0, [])] } ∧
      (∀ nm ∈ noStrtabState.ElfSections.SectionName, nm ≠ str ".strtab") ∧
      getSymbols noStrtabState = .error (.panic .sliceBounds) := by
  refine ⟨by decide, by decide, by decide, by decide, by decide, by decide⟩

/-- C15 (counterexample). The `.dynsym` section of the fixture file declared with a size
of 73 bytes, one more than three records of 24: `loadSymbols` returns with the three
symbols of the 72 first bytes. -/
theorem loadSymbols_odd_size_truncates :
    73 % symSize64 ≠ 0 ∧
      loadSymbols oddSizeState 1 2 dynSym =
        .ok { oddSizeState with DynSymbols := dynLoaded.DynSymbols,
                                DynSymbolsName := dynLoaded.DynSymbolsName } := by
  refine ⟨by decide, by decide⟩

/-- C15 (amended). `loadSymbols` does not check that the size of a symbol-table section
is a multiple of the record size `E`. For a section whose size is not a multiple of `E`,
whose `size / E` whole records and paired string pool lie inside the file, whose record
name offsets are within the pool and whose arithmetic does not overflow, `loadSymbols`
returns with exactly `size / E` entries (rounded down), decoded from the first
`size / E * E` bytes of the section; the remaining `size % E` bytes are not decoded. -/
theorem loadSymbols_floor_entries (w : Width) (elfFs : elfFile) (secs : List Section)
    (sectionNdx symstrNdx symType : Nat) (o : ByteOrder) (sec strSec : Section)
    (harch : elfFs.FileHdr.Arch = w.arch)
    (hs : elfFs.ElfSections.Section = w.sections secs)
    (ho : elfFs.FileHdr.Endianness = some o)
    (hkind : symType = sym ∨ symType = dynSym)
    (hsec : secs[sectionNdx]? = some sec) (hstr : secs[symstrNdx]? = some strSec)
    (hrem : sec.Size % w.symSize ≠ 0)
    (hrec : sec.Off + sec.Size / w.symSize * w.symSize ≤ elfFs.Fh.length)
    (hrecw : sec.Off + sec.Size < w.sumBound)
    (hpool : strSec.Off + strSec.Size ≤ elfFs.Fh.length)
    (hpoolw : strSec.Off + strSec.Size < w.sumBound)
    (hcount : sec.Size / w.symSize < 2 ^ 32)
    (hnames : ∀ i, i < sec.Size / w.symSize →
      (w.decodeSym o (recordAt elfFs.Fh sec.Off w.symSize i)).Name ≤ strSec.Size) :
    ∃ e1, loadSymbols elfFs sectionNdx symstrNdx symType = .ok e1 ∧
      (symTable e1 symType).len = sec.Size / w.symSize ∧
      (symTable e1 symType).len * w.symSize < sec.Size ∧
      (∀ i, (symTable e1 symType).get i =
        if i < sec.Size / w.symSize then
          some (w.symVal (w.decodeSym o (recordAt elfFs.Fh sec.Off w.symSize i)))
        else none) := by
  obtain ⟨S, N, hrun, hlen, hget⟩ := loadSymbols_table w elfFs secs sectionNdx symstrNdx
    symType o sec strSec harch hs ho hkind hsec hstr hrec hrecw hpool hpoolw hcount hnames
  refine ⟨_, hrun, ?_, ?_, ?_⟩
  · rw [symTable_withTable]; exact hlen
  · rw [symTable_withTable, hlen]
    have h1 := Nat.div_add_mod sec.Size w.symSize
    have h2 : w.symSize * (sec.Size / w.symSize) = sec.Size / w.symSize * w.symSize :=
      Nat.mul_comm _ _
    omega
  · intro i
    rw [symTable_withTable]; exact hget i

/-- C15 (witness): the amended statement at the `.dynsym` section of the fixture file
declared with 73 bytes. -/
theorem loadSymbols_floor_entries_witness :
    73 % Width.W64.symSize ≠ 0 ∧
      ∃ e1, loadSymbols oddSizeState 1 2 dynSym = .ok e1 ∧
        (symTable e1 dynSym).len = 73 / Width.W64.symSize ∧
        (symTable e1 dynSym).len * Width.W64.symSize < 73 ∧
        (∀ i, (symTable e1 dynSym).get i =
          if i < 73 / Width.W64.symSize then
            some (Width.W64.symVal (Width.W64.decodeSym .LittleEndian
              (recordAt oddSizeState.Fh 64 Width.W64.symSize i)))
          else none) :=
  ⟨by decide,
    loadSymbols_floor_entries .W64 oddSizeState
      (dynSections.set 1
        { Name := 1, Typ := 11, Flags := 2, Addr := 0, Off := 64, Size := 73, Link := 2,
          Info := 1, Addralign := 8, Entsize := 24 })
      1 2 dynSym .LittleEndian
      { Name := 1, Typ := 11, Flags := 2, Addr := 0, Off := 64, Size := 73, Link := 2,
        Info := 1, Addralign := 8, Entsize := 24 }
      { Name := 9, Typ := 3, Flags := 2, Addr := 0, Off := 136, Size := 9, Link := 0,
        Info := 0, Addralign := 1, Entsize := 0 }
      rfl rfl rfl (Or.inr rfl) (by decide) (by decide) (by decide) (by decide) (by decide)
      (by decide) (by decide) (by decide) (by decide)⟩


/-! ## Symbol lookup of relocation entries: failures and symbol 0 -/

theorem mapExcept_error_of_mem {α β : Type} (g : α → Except Failure β) (a : α) :
    ∀ (l : List α), a ∈ l → (∃ e, g a = .error e) → ∃ e, mapExcept g l = .error e := by
  intro l
  induction l with
  | nil => intro h _; exact absurd h (List.not_mem_nil _)
  | cons b bs ih =>
    intro hmem herr
    cases hb : g b with
    | error e => exact ⟨e, by simp only [mapExcept, hb]⟩
    | ok v =>
      rcases List.mem_cons.1 hmem with h | h
      · subst h
        obtain ⟨e, he⟩ := herr
        rw [he] at hb
        exact Except.noConfusion hb
      · obtain ⟨e, he⟩ := ih h herr
        exact ⟨e, by simp only [mapExcept, hb, he]⟩

/-- A failed symbol lookup is the outcome of the line of the entry, for both shapes. -/
theorem row_of_relocSymbol_error (w : Width) (T : RelocTables) (st : elfFile)
    (secs : List Section) (k s : Nat) (e : Failure)
    (h : w.relocSymbol st secs k s = .error e) :
    (∀ r : Rel, w.R_SYM r.Info = s → w.relRow T st secs k r = .error e) ∧
      (∀ r : Rela, w.R_SYM r.Info = s → w.relaRow T st secs k r = .error e) := by
  cases w with
  | W32 =>
    have h2 : relocSymbol32 st secs k s = .error e := h
    constructor
    · intro r hr
      have hr2 : R_SYM32 r.Info = s := hr
      show rel32Row T st secs k r = .error e
      simp only [rel32Row, bind, Except.bind, hr2, h2]
    · intro r hr
      have hr2 : R_SYM32 r.Info = s := hr
      show rela32Row T st secs k r = .error e
      simp only [rela32Row, bind, Except.bind, hr2, h2]
  | W64 =>
    have h2 : relocSymbol64 st secs k s = .error e := h
    constructor
    · intro r hr
      have hr2 : R_SYM64 r.Info = s := hr
      show rel64Row T st secs k r = .error e
      simp only [rel64Row, bind, Except.bind, hr2, h2]
    · intro r hr
      have hr2 : R_SYM64 r.Info = s := hr
      show rela64Row T st secs k r = .error e
      simp only [rela64Row, bind, Except.bind, hr2, h2]

/-- The lines of a relocation section one of whose entries fails are not printed: the
loop over the section fails. -/
theorem relSection_error (w : Width) (T : RelocTables) (st : elfFile) (secs : List Section)
    (k : Nat) :
    (∀ (rs : List Rel) (r : Rel), r ∈ rs → (∃ e, w.relRow T st secs k r = .error e) →
      ∃ e, w.relSection T st secs (k, w.relVal rs) = .error e) ∧
    (∀ (rs : List Rela) (r : Rela), r ∈ rs → (∃ e, w.relaRow T st secs k r = .error e) →
      ∃ e, w.relSection T st secs (k, w.relaVal rs) = .error e) := by
  cases w with
  | W32 =>
    constructor
    · intro rs r hr he
      obtain ⟨e, h⟩ := mapExcept_error_of_mem (rel32Row T st secs k) r rs hr he
      show ∃ e, relSection32 T st secs (k, .Rel32 rs) = .error e
      cases hn : goIndex st.ElfSections.SectionName k with
      | error e2 => exact ⟨e2, by simp only [relSection32, bind, Except.bind, hn]⟩
      | ok nm => exact ⟨e, by simp only [relSection32, bind, Except.bind, hn, h]⟩
    · intro rs r hr he
      obtain ⟨e, h⟩ := mapExcept_error_of_mem (rela32Row T st secs k) r rs hr he
      show ∃ e, relSection32 T st secs (k, .Rela32 rs) = .error e
      cases hn : goIndex st.ElfSections.SectionName k with
      | error e2 => exact ⟨e2, by simp only [relSection32, bind, Except.bind, hn]⟩
      | ok nm => exact ⟨e, by simp only [relSection32, bind, Except.bind, hn, h]⟩
  | W64 =>
    constructor
    · intro rs r hr he
      obtain ⟨e, h⟩ := mapExcept_error_of_mem (rel64Row T st secs k) r rs hr he
      show ∃ e, relSection64 T st secs (k, .Rel64 rs) = .error e
      cases hn : goIndex st.ElfSections.SectionName k with
      | error e2 => exact ⟨e2, by simp only [relSection64, bind, Except.bind, hn]⟩
      | ok nm => exact ⟨e, by simp only [relSection64, bind, Except.bind, hn, h]⟩
    · intro rs r hr he
      obtain ⟨e, h⟩ := mapExcept_error_of_mem (rela64Row T st secs k) r rs hr he
      show ∃ e, relSection64 T st secs (k, .Rela64 rs) = .error e
      cases hn : goIndex st.ElfSections.SectionName k with
      | error e2 => exact ⟨e2, by simp only [relSection64, bind, Except.bind, hn]⟩
      | ok nm => exact ⟨e, by simp only [relSection64, bind, Except.bind, hn, h]⟩

/-- A failing relocation section among the loaded ones makes `printRelocations` fail. -/
theorem printRelocations_error (w : Width) (T : RelocTables) (st : elfFile)
    (secs : List Section) (kv : Nat × RelsVal)
    (hs : st.ElfSections.Section = w.sections secs) (hmem : kv ∈ st.Rels)
    (herr : ∃ e, w.relSection T st secs kv = .error e) :
    ∃ e, printRelocations T st = .error e := by
  cases w with
  | W32 =>
    have hs2 : st.ElfSections.Section = .Section32 secs := hs
    obtain ⟨e, h⟩ := mapExcept_error_of_mem (relSection32 T st secs) kv st.Rels hmem herr
    exact ⟨e, by simp only [printRelocations, hs2, bind, Except.bind, h]⟩
  | W64 =>
    have hs2 : st.ElfSections.Section = .Section64 secs := hs
    obtain ⟨e, h⟩ := mapExcept_error_of_mem (relSection64 T st secs) kv st.Rels hmem herr
    exact ⟨e, by simp only [printRelocations, hs2, bind, Except.bind, h]⟩

/-- The lookup of a symbol index the selected table has no entry for: the type assertion
on the nil result of the map lookup panics. -/
theorem relocSymbol_absent (w : Width) (st : elfFile) (secs : List Section)
    (symType k s : Nat) (relSec : Section) (hkind : symType = sym ∨ symType = dynSym)
    (hrel : secs[k]? = some relSec)
    (hlink : st.ElfSections.SectionName[relSec.Link]? = some (tableSection symType))
    (hnone : (symTable st symType).get s = none) :
    w.relocSymbol st secs k s = .error (.panic .typeAssertion) := by
  have hidx : goIndex secs k = .ok relSec := (goIndex_eq_ok _ _ _).2 hrel
  have hidx2 : goIndex st.ElfSections.SectionName relSec.Link = .ok (tableSection symType) :=
    (goIndex_eq_ok _ _ _).2 hlink
  rcases hkind with hk | hk
  · subst hk
    have hne : ¬ sym = dynSym := by decide
    simp only [symTable, hne, if_false] at hnone
    simp only [tableSection, hne, if_false] at hidx2
    cases w with
    | W32 =>
      simp only [Width.relocSymbol, relocSymbol32, bind, Except.bind, hidx, hidx2,
        tableSection_ne, if_false, if_true, hnone, asSym32]
    | W64 =>
      simp only [Width.relocSymbol, relocSymbol64, bind, Except.bind, hidx, hidx2,
        tableSection_ne, if_false, if_true, hnone, asSym64]
  · subst hk
    simp only [symTable, if_true] at hnone
    simp only [tableSection, if_true] at hidx2
    cases w with
    | W32 =>
      simp only [Width.relocSymbol, relocSymbol32, bind, Except.bind, hidx, hidx2,
        if_true, hnone, asSym32]
    | W64 =>
      simp only [Width.relocSymbol, relocSymbol64, bind, Except.bind, hidx, hidx2,
        if_true, hnone, asSym64]

/-- A table loaded by `loadSymbols` has no entry at or beyond its length. -/
theorem loaded_table_domain (w : Width) (e0 e1 : elfFile) (sectionNdx symstrNdx symType : Nat)
    (harch : e0.FileHdr.Arch = w.arch) (hkind : symType = sym ∨ symType = dynSym)
    (hload : loadSymbols e0 sectionNdx symstrNdx symType = .ok e1) :
    ∀ i, (symTable e1 symType).len ≤ i → (symTable e1 symType).get i = none := by
  obtain ⟨secs0, sec, strtab, S, N, _, _, _, hloop, he1⟩ :=
    loadSymbols_inv w e0 e1 sectionNdx symstrNdx symType harch hkind hload
  obtain ⟨_, hinv⟩ := symLoop_ok _ _ _ _ _ (fun _ => True) (fun _ _ => trivial) _ _ S N hloop
  intro i hi
  rw [he1, symTable_withTable] at hi ⊢
  exact hinv.2.1 i (by rw [hinv.1] at hi; exact hi)

/-- C16. For a relocation entry of either shape and either width whose section links to
a section named `.dynsym` (respectively `.symtab`) and whose decoded symbol index is at
or beyond the number of entries of the dynamic (respectively regular) table, a table
that is empty or was loaded by `loadSymbols`: the lookup of the symbol ends in the
runtime panic of the type assertion on the missing map entry, no line with a symbol
value or name is produced for the entry, and `printRelocations` as a whole fails on a
state whose relocation map holds the entry. -/
theorem relocSymbol_index_beyond_table (w w0 : Width) (e0 e1 st : elfFile)
    (secs : List Section) (sectionNdx symstrNdx symType k s : Nat) (relSec : Section)
    (hkind : symType = sym ∨ symType = dynSym)
    (hrel : secs[k]? = some relSec)
    (hlink : st.ElfSections.SectionName[relSec.Link]? = some (tableSection symType))
    (htab : symTable st symType = [] ∨
      (e0.FileHdr.Arch = w0.arch ∧ loadSymbols e0 sectionNdx symstrNdx symType = .ok e1 ∧
        symTable st symType = symTable e1 symType))
    (hs : (symTable st symType).len ≤ s) :
    w.relocSymbol st secs k s = .error (.panic .typeAssertion) ∧
      (∀ (T : RelocTables) (r : Rel), w.R_SYM r.Info = s →
        w.relRow T st secs k r = .error (.panic .typeAssertion)) ∧
      (∀ (T : RelocTables) (r : Rela), w.R_SYM r.Info = s →
        w.relaRow T st secs k r = .error (.panic .typeAssertion)) ∧
      (∀ (T : RelocTables) (rs : List Rel) (r : Rel), r ∈ rs → w.R_SYM r.Info = s →
        st.ElfSections.Section = w.sections secs → (k, w.relVal rs) ∈ st.Rels →
        ∃ e, printRelocations T st = .error e) ∧
      (∀ (T : RelocTables) (rs : List Rela) (r : Rela), r ∈ rs → w.R_SYM r.Info = s →
        st.ElfSections.Section = w.sections secs → (k, w.relaVal rs) ∈ st.Rels →
        ∃ e, printRelocations T st = .error e) := by
  have hnone : (symTable st symType).get s = none := by
    rcases htab with h | ⟨harch, hload, h⟩
    · rw [h]; rfl
    · rw [h] at hs ⊢
      exact loaded_table_domain w0 e0 e1 sectionNdx symstrNdx symType harch hkind hload s hs
  have hmain := relocSymbol_absent w st secs symType k s relSec hkind hrel hlink hnone
  refine ⟨hmain, ?_, ?_, ?_, ?_⟩
  · intro T r hr
    exact (row_of_relocSymbol_error w T st secs k s _ hmain).1 r hr
  · intro T r hr
    exact (row_of_relocSymbol_error w T st secs k s _ hmain).2 r hr
  · intro T rs r hmem hr hsec hin
    exact printRelocations_error w T st secs _ hsec hin
      ((relSection_error w T st secs k).1 rs r hmem
        ⟨_, (row_of_relocSymbol_error w T st secs k s _ hmain).1 r hr⟩)
  · intro T rs r hmem hr hsec hin
    exact printRelocations_error w T st secs _ hsec hin
      ((relSection_error w T st secs k).2 rs r hmem
        ⟨_, (row_of_relocSymbol_error w T st secs k s _ hmain).2 r hr⟩)

/-- C16 (witness): the statement at the fixture file, for an entry of section 3
(`.rela.dyn`, which links to `.dynsym`) that names symbol 3 of the three loaded. -/
theorem relocSymbol_index_beyond_table_witness :
    (symTable dynLoaded dynSym).len ≤ 3 ∧
      Width.W64.relocSymbol dynLoaded dynSections 3 3 = .error (.panic .typeAssertion) ∧
      (∀ (T : RelocTables) (r : Rel), Width.W64.R_SYM r.Info = 3 →
        Width.W64.relRow T dynLoaded dynSections 3 r = .error (.panic .typeAssertion)) ∧
      (∀ (T : RelocTables) (r : Rela), Width.W64.R_SYM r.Info = 3 →
        Width.W64.relaRow T dynLoaded dynSections 3 r = .error (.panic .typeAssertion)) ∧
      (∀ (T : RelocTables) (rs : List Rel) (r : Rel), r ∈ rs → Width.W64.R_SYM r.Info = 3 →
        dynLoaded.ElfSections.Section = Width.W64.sections dynSections →
        (3, Width.W64.relVal rs) ∈ dynLoaded.Rels →
        ∃ e, printRelocations T dynLoaded = .error e) ∧
      (∀ (T : RelocTables) (rs : List Rela) (r : Rela), r ∈ rs → Width.W64.R_SYM r.Info = 3 →
        dynLoaded.ElfSections.Section = Width.W64.sections dynSections →
        (3, Width.W64.relaVal rs) ∈ dynLoaded.Rels →
        ∃ e, printRelocations T dynLoaded = .error e) :=
  ⟨by decide,
    relocSymbol_index_beyond_table .W64 .W64 dynState dynLoaded dynLoaded dynSections 1 2
      dynSym 3 3
      { Name := 17, Typ := 4, Flags := 2, Addr := 0, Off := 145, Size := 48, Link := 1,
        Info := 0, Addralign := 8, Entsize := 24 }
      (Or.inr rfl) (by decide) (by decide) (Or.inr ⟨rfl, loadSymbols_dynState, rfl⟩)
      (by decide)⟩

/-- The lookup of an entry whose section links to a section of any other name than
`.dynsym` and `.symtab` exits with status `f`, whatever the symbol index and the symbol
tables are. -/
theorem relocSymbol_other_link (w : Width) (st : elfFile) (secs : List Section) (k s : Nat)
    (relSec : Section) (linkName : GoString)
    (hrel : secs[k]? = some relSec)
    (hlink : st.ElfSections.SectionName[relSec.Link]? = some linkName)
    (hd : linkName ≠ str ".dynsym") (hsy : linkName ≠ str ".symtab") :
    w.relocSymbol st secs k s = .error (.exit f) := by
  have hidx : goIndex secs k = .ok relSec := (goIndex_eq_ok _ _ _).2 hrel
  have hidx2 : goIndex st.ElfSections.SectionName relSec.Link = .ok linkName :=
    (goIndex_eq_ok _ _ _).2 hlink
  cases w with
  | W32 =>
    simp only [Width.relocSymbol, relocSymbol32, bind, Except.bind, hidx, hidx2, hd, hsy,
      if_false]
  | W64 =>
    simp only [Width.relocSymbol, relocSymbol64, bind, Except.bind, hidx, hidx2, hd, hsy,
      if_false]

/-- C17. For a relocation section of either width whose link is the index of a section
named neither `.dynsym` nor `.symtab`: the symbol lookup of every entry is the exit with
status 1 of the default case, whatever the symbol index is and whatever the four symbol
and name maps hold; the line of every entry of either shape is that exit; and for a
section with at least one entry whose own name is resolved, the loop over the section
ends in that exit at its first entry. -/
theorem relocSymbol_bad_link (w : Width) (st : elfFile) (secs : List Section) (k : Nat)
    (relSec : Section) (linkName : GoString)
    (hrel : secs[k]? = some relSec)
    (hlink : st.ElfSections.SectionName[relSec.Link]? = some linkName)
    (hd : linkName ≠ str ".dynsym") (hsy : linkName ≠ str ".symtab") :
    f = 1 ∧
      (∀ (s : Nat) (D S : GoMap SymVal) (DN SN : GoMap GoString),
        w.relocSymbol { st with DynSymbols := D, DynSymbolsName := DN, Symbols := S,
                                SymbolsName := SN } secs k s = .error (.exit f)) ∧
      (∀ (T : RelocTables) (r : Rel), w.relRow T st secs k r = .error (.exit f)) ∧
      (∀ (T : RelocTables) (r : Rela), w.relaRow T st secs k r = .error (.exit f)) ∧
      (∀ (T : RelocTables) (r : Rel) (rs : List Rel),
        k < st.ElfSections.SectionName.length →
        w.relSection T st secs (k, w.relVal (r :: rs)) = .error (.exit f)) ∧
      (∀ (T : RelocTables) (r : Rela) (rs : List Rela),
        k < st.ElfSections.SectionName.length →
        w.relSection T st secs (k, w.relaVal (r :: rs)) = .error (.exit f)) := by
  have hmain : ∀ s, w.relocSymbol st secs k s = .error (.exit f) := fun s =>
    relocSymbol_other_link w st secs k s relSec linkName hrel hlink hd hsy
  have hrow : ∀ (T : RelocTables) (r : Rel), w.relRow T st secs k r = .error (.exit f) :=
    fun T r => (row_of_relocSymbol_error w T st secs k _ _ (hmain _)).1 r rfl
  have hrowa : ∀ (T : RelocTables) (r : Rela), w.relaRow T st secs k r = .error (.exit f) :=
    fun T r => (row_of_relocSymbol_error w T st secs k _ _ (hmain _)).2 r rfl
  refine ⟨rfl, ?_, hrow, hrowa, ?_, ?_⟩
  · intro s D S DN SN
    exact relocSymbol_other_link w _ secs k s relSec linkName hrel hlink hd hsy
  · intro T r rs hk
    have hn := goIndex_of_lt st.ElfSections.SectionName k hk
    cases w with
    | W32 =>
      have h1 : rel32Row T st secs k r = .error (.exit f) := hrow T r
      show relSection32 T st secs (k, .Rel32 (r :: rs)) = _
      simp only [relSection32, bind, Except.bind, hn, mapExcept, h1]
    | W64 =>
      have h1 : rel64Row T st secs k r = .error (.exit f) := hrow T r
      show relSection64 T st secs (k, .Rel64 (r :: rs)) = _
      simp only [relSection64, bind, Except.bind, hn, mapExcept, h1]
  · intro T r rs hk
    have hn := goIndex_of_lt st.ElfSections.SectionName k hk
    cases w with
    | W32 =>
      have h1 : rela32Row T st secs k r = .error (.exit f) := hrowa T r
      show relSection32 T st secs (k, .Rela32 (r :: rs)) = _
      simp only [relSection32, bind, Except.bind, hn, mapExcept, h1]
    | W64 =>
      have h1 : rela64Row T st secs k r = .error (.exit f) := hrowa T r
      show relSection64 T st secs (k, .Rela64 (r :: rs)) = _
      simp only [relSection64, bind, Except.bind, hn, mapExcept, h1]

/-- C17 (witness): the statement at the fixture file with the link of `.rela.dyn` set to
2, the index of `.dynstr`. -/
theorem relocSymbol_bad_link_witness :
    linkToDynstr[3]? = some
        { Name := 17, Typ := 4, Flags := 2, Addr := 0, Off := 145, Size := 48, Link := 2,
          Info := 0, Addralign := 8, Entsize := 24 } ∧
      dynLoaded.ElfSections.SectionName[2]? = some (str ".dynstr") ∧
      f = 1 ∧
      (∀ (s : Nat) (D S : GoMap SymVal) (DN SN : GoMap GoString),
        Width.W64.relocSymbol { dynLoaded with DynSymbols := D, DynSymbolsName := DN,
                                               Symbols := S, SymbolsName := SN }
          linkToDynstr 3 s = .error (.exit f)) ∧
      (∀ (T : RelocTables) (r : Rel),
        Width.W64.relRow T dynLoaded linkToDynstr 3 r = .error (.exit f)) ∧
      (∀ (T : RelocTables) (r : Rela),
        Width.W64.relaRow T dynLoaded linkToDynstr 3 r = .error (.exit f)) ∧
      (∀ (T : RelocTables) (r : Rel) (rs : List Rel),
        3 < dynLoaded.ElfSections.SectionName.length →
        Width.W64.relSection T dynLoaded linkToDynstr (3, Width.W64.relVal (r :: rs)) =
          .error (.exit f)) ∧
      (∀ (T : RelocTables) (r : Rela) (rs : List Rela),
        3 < dynLoaded.ElfSections.SectionName.length →
        Width.W64.relSection T dynLoaded linkToDynstr (3, Width.W64.relaVal (r :: rs)) =
          .error (.exit f)) :=
  ⟨by decide, by decide,
    relocSymbol_bad_link .W64 dynLoaded linkToDynstr 3
      { Name := 17, Typ := 4, Flags := 2, Addr := 0, Off := 145, Size := 48, Link := 2,
        Info := 0, Addralign := 8, Entsize := 24 }
      (str ".dynstr") (by decide) (by decide) (by decide) (by decide)⟩

/-- The name at offset 0 of a pool that is empty or starts with a zero byte is the empty
string. -/
theorem getSectionName_zero_start (tab : List Byte) (h : ∀ b, tab[0]? = some b → b = 0) :
    getSectionName 0 tab = .ok [] := by
  obtain ⟨e, _, hle, _, hnz, _, hres⟩ := getSectionName_scan tab 0 (Nat.zero_le _)
  have he : e = 0 := by
    by_contra hne
    have hpos : 0 < tab.length := by omega
    have h0 : tab[0]? = some tab[0] := List.getElem?_eq_getElem hpos
    have hb := h _ h0
    exact hnz 0 (Nat.le_refl _) (by omega) (by rw [h0, hb])
  rw [hres, he]
  rfl

/-- C18 (counterexample). The fixture file with a `.dynsym` section of size 0: the
dynamic table is empty after `getSymbols`, and the line of a RELA entry of `.rela.dyn`
(which links to `.dynsym`) with symbol index 0 is the panic of the type assertion, as is
`printRelocations` on the state that holds the entry. -/
theorem relaRow_symbol_zero_of_empty_table :
    getSymbols emptyDynsymState = .ok emptyDynsymState ∧
      emptyDynsymState.DynSymbols = [] ∧
      R_SYM64 8 = 0 ∧
      rela64Row exampleTables emptyDynsymState emptyDynsymSections 3
        { Off := 0x3000, Info := 8, Addend := 0x1000 } = .error (.panic .typeAssertion) ∧
      printRelocations exampleTables
        { emptyDynsymState with
          Rels := [(3, .Rela64 [{ Off := 0x3000, Info := 8, Addend := 0x1000 }])] } =
        .error (.panic .typeAssertion) := by
  refine ⟨by decide, rfl, by decide, by decide, by decide⟩

/-- C18 (amended). For a RELA entry of either width whose decoded symbol index is 0 and
whose section links to a section named `.dynsym` (respectively `.symtab`), when the
dynamic (respectively regular) table was loaded by `loadSymbols` and holds at least one
symbol: the line of the entry is produced, its symbol value and name are the value and
the resolved name of symbol 0 of that table, with no ` + ` separator appended, and its
addend is that of the entry. The name is the empty string when the name offset of symbol
0 is 0 and the string pool is empty or starts with a zero byte. -/
theorem relaRow_symbol_zero (w : Width) (e0 e1 st : elfFile) (secs : List Section)
    (sectionNdx symstrNdx symType k : Nat) (relSec : Section) (T : RelocTables) (r : Rela)
    (harch : e0.FileHdr.Arch = w.arch) (hkind : symType = sym ∨ symType = dynSym)
    (hload : loadSymbols e0 sectionNdx symstrNdx symType = .ok e1)
    (htab : symTable st symType = symTable e1 symType)
    (hnames : symNames st symType = symNames e1 symType)
    (hrel : secs[k]? = some relSec)
    (hlink : st.ElfSections.SectionName[relSec.Link]? = some (tableSection symType))
    (hs : 0 < (symTable st symType).len)
    (hr : w.R_SYM r.Info = 0) :
    ∃ secs0 strtab sy nm row, e0.ElfSections.Section = w.sections secs0 ∧
      w.loadStrtab e0 secs0 symstrNdx = .ok strtab ∧
      (symTable st symType).get 0 = some (w.symVal sy) ∧
      getSymbolName sy.Name strtab = .ok nm ∧
      w.relaRow T st secs k r = .ok row ∧
      row.symValue = sy.Value ∧ row.symName = nm ∧ row.a = some r.Addend ∧
      (sy.Name = 0 → (∀ b, strtab[0]? = some b → b = 0) → row.symName = []) := by
  obtain ⟨secs0, strtab, sy, nm, hs0, hstr, hget, hres, hmain, _, _, hrela⟩ :=
    relocSymbol_lookup w e0 e1 st secs sectionNdx symstrNdx symType k 0 relSec harch hkind
      hload htab hnames hrel hlink hs
  have hrow : w.relaRow T st secs k r = .ok
      { o := r.Off, i := R_INFO 0 (match w with | .W32 => R_TYPE32 r.Info | .W64 => R_TYPE64 r.Info),
        relName := resolveRelocType T
          (match w with | .W32 => R_TYPE32 r.Info | .W64 => R_TYPE64 r.Info) st.FileHdr.Machine,
        symValue := sy.Value, symName := nm, a := some r.Addend } := by
    cases w with
    | W32 =>
      have hr2 : R_SYM32 r.Info = 0 := hr
      have hm2 : relocSymbol32 st secs k 0 = .ok (sy.Value, nm) := hmain
      show rela32Row T st secs k r = _
      simp only [rela32Row, bind, Except.bind, hr2, hm2, pure, Except.pure, SHN_UNDEF,
        ne_eq, not_true_eq_false, if_false]
    | W64 =>
      have hr2 : R_SYM64 r.Info = 0 := hr
      have hm2 : relocSymbol64 st secs k 0 = .ok (sy.Value, nm) := hmain
      show rela64Row T st secs k r = _
      simp only [rela64Row, bind, Except.bind, hr2, hm2, pure, Except.pure, SHN_UNDEF,
        ne_eq, not_true_eq_false, if_false]
  refine ⟨secs0, strtab, sy, nm, _, hs0, hstr, hget, hres, hrow, rfl, rfl, rfl, ?_⟩
  intro hname hpool
  show nm = []
  rw [hname] at hres
  have h0 := getSectionName_zero_start strtab hpool
  rw [getSymbolName, h0] at hres
  exact (Except.ok.inj hres).symm

/-- C18 (witness): the amended statement at the fixture file, for a RELA entry of
section 3 (`.rela.dyn`) with symbol index 0 and type 8. -/
theorem relaRow_symbol_zero_witness :
    0 < (symTable dynLoaded dynSym).len ∧ Width.W64.R_SYM 8 = 0 ∧
      ∃ secs0 strtab sy nm row, dynState.ElfSections.Section = Width.W64.sections secs0 ∧
        Width.W64.loadStrtab dynState secs0 2 = .ok strtab ∧
        (symTable dynLoaded dynSym).get 0 = some (Width.W64.symVal sy) ∧
        getSymbolName sy.Name strtab = .ok nm ∧
        Width.W64.relaRow exampleTables dynLoaded dynSections 3
          { Off := 0x3000, Info := 8, Addend := 0x1000 } = .ok row ∧
        row.symValue = sy.Value ∧ row.symName = nm ∧ row.a = some 0x1000 ∧
        (sy.Name = 0 → (∀ b, strtab[0]? = some b → b = 0) → row.symName = []) :=
  ⟨by decide, by decide,
    relaRow_symbol_zero .W64 dynState dynLoaded dynLoaded dynSections 1 2 dynSym 3
      { Name := 17, Typ := 4, Flags := 2, Addr := 0, Off := 145, Size := 48, Link := 1,
        Info := 0, Addralign := 8, Entsize := 24 }
      exampleTables { Off := 0x3000, Info := 8, Addend := 0x1000 }
      rfl (Or.inr rfl) loadSymbols_dynState rfl rfl (by decide) (by decide) (by decide)
      (by decide)⟩


/-! ## The relocation map (`getRelocations`) -/

theorem readRecords_ok {α : Type} (decode : ByteOrder → List Byte → α) (fh : List Byte)
    (p E n : Nat) (L : Int) (o : ByteOrder) (hE : 0 < E)
    (hL : ((p + n * E : Nat) : Int) ≤ L) (hfile : p + n * E ≤ fh.length) :
    readRecords decode E { r := fh, off := (p : Int), limit := L } (some o) n =
      .ok (recordsAt (decode o) fh p E n) := by
  by_cases hn : n = 0
  · subst hn
    simp [readRecords, SectionReader.ReadFull, recordsAt, chunks]
  · have hpos : 0 < n * E := Nat.mul_pos (Nat.pos_of_ne_zero hn) hE
    simp only [readRecords, ReadFull_ok fh p (n * E) L hpos hL hfile, hn, if_false,
      recordsAt, bytesAt, Nat.add_sub_cancel_left]

theorem recordsAt_length {α : Type} (decode : List Byte → α) (fh : List Byte)
    (off E n : Nat) : (recordsAt decode fh off E n).length = n := by
  simp [recordsAt, chunks_length]

/-- The reader the 32-bit loop opens on a section, and the reader the 64-bit loop opens
(of length `int64(Off) + int64(Size)`): both start at the offset of the section and
cover its `Size` bytes, when offset plus size is below `2 ^ 62`. -/
theorem relocReader_window (fh : List Byte) (off size : Nat) (h : off + size < 2 ^ 62) :
    (∃ L, NewSectionReader fh (int64 off) (int64 size) =
        { r := fh, off := (off : Int), limit := L } ∧
      ∀ m : Nat, m ≤ size → ((off + m : Nat) : Int) ≤ L) ∧
    (∃ L, NewSectionReader fh (int64 off) (wrap64 (int64 off + int64 size)) =
        { r := fh, off := (off : Int), limit := L } ∧
      ∀ m : Nat, m ≤ size → ((off + m : Nat) : Int) ≤ L) := by
  constructor
  · obtain ⟨L, h1, h2⟩ := NewSectionReader_window fh off size (by omega) (by omega)
    exact ⟨L, h1, fun m hm => h2 m hm (by omega)⟩
  · obtain ⟨L, h1, h2⟩ := NewSectionReader_window fh off (off + size) (by omega) (by omega)
    have hn : wrap64 (int64 off + int64 size) = int64 (off + size) := by
      rw [int64_of_lt off (by omega), int64_of_lt size (by omega),
        int64_of_lt (off + size) (by omega)]
      rw [wrap64_of_range _ (by omega) (by omega)]
      push_cast
      rfl
    rw [hn]
    exact ⟨L, h1, fun m hm => h2 m (by omega) (by omega)⟩

theorem Width.relSize_pos (w : Width) : 0 < w.relSize ∧ 0 < w.relaSize := by
  cases w <;> exact ⟨by decide, by decide⟩

/-- One iteration of the loop of `getRelocations` on a section whose records lie inside
the file: the map gets the entry of the section, if it has one. -/
theorem relStep_ok (w : Width) (elfFs : elfFile) (secs : List Section) (o : ByteOrder)
    (rels : GoMap RelsVal) (j : Nat) (sec : Section)
    (ho : elfFs.FileHdr.Endianness = some o) (hj : secs[j]? = some sec)
    (hsize : sec.Size < w.fieldBound)
    (hrel : sec.Typ = SHT_REL →
      sec.Off + sec.Size / w.relSize * w.relSize ≤ elfFs.Fh.length ∧
        sec.Off + sec.Size < 2 ^ 62)
    (hrela : sec.Typ = SHT_RELA →
      sec.Off + sec.Size / w.relaSize * w.relaSize ≤ elfFs.Fh.length ∧
        sec.Off + sec.Size < 2 ^ 62) :
    w.relStep elfFs secs rels j =
      .ok (match w.relsEntry elfFs.Fh o sec with
        | some v => rels.set j v
        | none => rels) := by
  have hidx : goIndex secs j = .ok sec := (goIndex_eq_ok _ _ _).2 hj
  have hne : SHT_RELA ≠ SHT_REL := by decide
  by_cases h1 : sec.Typ = SHT_REL
  · obtain ⟨hfile, hsum⟩ := hrel h1
    obtain ⟨⟨L, hL1, hL2⟩, ⟨L2, hM1, hM2⟩⟩ := relocReader_window elfFs.Fh sec.Off sec.Size hsum
    have hentry : w.relsEntry elfFs.Fh o sec = some (w.relVal
        (recordsAt (w.decodeRel o) elfFs.Fh sec.Off w.relSize (sec.Size / w.relSize))) := by
      unfold Width.relsEntry
      rw [if_pos h1]
    rw [hentry]
    cases w with
    | W32 =>
      have hs32 : sec.Size < 2 ^ 32 := hsize
      have hcnt : u32 (sec.Size / 8) = sec.Size / 8 := u32_of_lt (by omega)
      have hrd := readRecords_ok decodeRel32 elfFs.Fh sec.Off 8 (sec.Size / 8) L o (by decide)
        (hL2 _ (Nat.div_mul_le_self _ _)) hfile
      show relStep32 elfFs secs rels j = _
      simp only [relStep32, hidx, h1, if_true, hL1, hcnt, ho, hrd]
      rfl
    | W64 =>
      have hcnt : u64 (sec.Size / 16) = sec.Size / 16 := Nat.mod_eq_of_lt (by omega)
      have hrd := readRecords_ok decodeRel64 elfFs.Fh sec.Off 16 (sec.Size / 16) L2 o
        (by decide) (hM2 _ (Nat.div_mul_le_self _ _)) hfile
      show relStep64 elfFs secs rels j = _
      simp only [relStep64, hidx, h1, if_true, hM1, hcnt, ho, hrd]
      rfl
  · by_cases h2 : sec.Typ = SHT_RELA
    · obtain ⟨hfile, hsum⟩ := hrela h2
      obtain ⟨⟨L, hL1, hL2⟩, ⟨L2, hM1, hM2⟩⟩ :=
        relocReader_window elfFs.Fh sec.Off sec.Size hsum
      have hentry : w.relsEntry elfFs.Fh o sec = some (w.relaVal
          (recordsAt (w.decodeRela o) elfFs.Fh sec.Off w.relaSize (sec.Size / w.relaSize))) := by
        unfold Width.relsEntry
        rw [if_neg h1, if_pos h2]
      rw [hentry]
      cases w with
      | W32 =>
        have hs32 : sec.Size < 2 ^ 32 := hsize
        have hcnt : u32 (sec.Size / 12) = sec.Size / 12 := u32_of_lt (by omega)
        have hrd := readRecords_ok decodeRela32 elfFs.Fh sec.Off 12 (sec.Size / 12) L o
          (by decide) (hL2 _ (Nat.div_mul_le_self _ _)) hfile
        show relStep32 elfFs secs rels j = _
        simp only [relStep32, hidx, h2, hne, if_false, if_true, hL1, hcnt, ho, hrd]
        rfl
      | W64 =>
        have hcnt : u64 (sec.Size / 24) = sec.Size / 24 := Nat.mod_eq_of_lt (by omega)
        have hrd := readRecords_ok decodeRela64 elfFs.Fh sec.Off 24 (sec.Size / 24) L2 o
          (by decide) (hM2 _ (Nat.div_mul_le_self _ _)) hfile
        show relStep64 elfFs secs rels j = _
        simp only [relStep64, hidx, h2, hne, if_false, if_true, hM1, hcnt, ho, hrd]
        rfl
    · have hentry : w.relsEntry elfFs.Fh o sec = none := by
        unfold Width.relsEntry
        rw [if_neg h1, if_neg h2]
      rw [hentry]
      cases w with
      | W32 =>
        show relStep32 elfFs secs rels j = _
        simp only [relStep32, hidx, h1, h2, if_false]
      | W64 =>
        show relStep64 elfFs secs rels j = _
        simp only [relStep64, hidx, h1, h2, if_false]

/-- The loop of `getRelocations` from index `j` on: started with a map that holds the
entries of the sections below `j`, it ends with a map that holds the entries of the
sections below `j + left`. -/
theorem relLoop_ok (w : Width) (elfFs : elfFile) (secs : List Section) (o : ByteOrder)
    (ho : elfFs.FileHdr.Endianness = some o)
    (hread : ∀ sec ∈ secs, sec.Size < w.fieldBound ∧
      (sec.Typ = SHT_REL →
        sec.Off + sec.Size / w.relSize * w.relSize ≤ elfFs.Fh.length ∧
          sec.Off + sec.Size < 2 ^ 62) ∧
      (sec.Typ = SHT_RELA →
        sec.Off + sec.Size / w.relaSize * w.relaSize ≤ elfFs.Fh.length ∧
          sec.Off + sec.Size < 2 ^ 62)) :
    ∀ (left j : Nat) (rels : GoMap RelsVal), j + left ≤ secs.length →
      (∀ i, rels.get i =
        if i < j then (secs[i]?).bind (w.relsEntry elfFs.Fh o) else none) →
      ∃ rels2, relLoop (w.relStep elfFs secs) left j rels = .ok rels2 ∧
        ∀ i, rels2.get i =
          if i < j + left then (secs[i]?).bind (w.relsEntry elfFs.Fh o) else none := by
  intro left
  induction left with
  | zero =>
    intro j rels _ hinv
    exact ⟨rels, rfl, hinv⟩
  | succ left ih =>
    intro j rels hle hinv
    have hj : j < secs.length := by omega
    have hsec : secs[j]? = some secs[j] := List.getElem?_eq_getElem hj
    obtain ⟨h1, h2, h3⟩ := hread secs[j] (List.getElem_mem hj)
    have hstep := relStep_ok w elfFs secs o rels j secs[j] ho hsec h1 h2 h3
    have hinv2 : ∀ i, GoMap.get (match w.relsEntry elfFs.Fh o secs[j] with
          | some v => rels.set j v
          | none => rels) i =
        if i < j + 1 then (secs[i]?).bind (w.relsEntry elfFs.Fh o) else none := by
      intro i
      by_cases hij : i = j
      · subst hij
        rw [if_pos (Nat.lt_succ_self _), hsec, Option.some_bind]
        cases hE : w.relsEntry elfFs.Fh o secs[i] with
        | none =>
          simp only []
          rw [hinv i, if_neg (Nat.lt_irrefl _)]
        | some v =>
          simp only []
          exact GoMap.get_set_self rels i v
      · have hold : GoMap.get (match w.relsEntry elfFs.Fh o secs[j] with
              | some v => rels.set j v
              | none => rels) i = rels.get i := by
          cases hE : w.relsEntry elfFs.Fh o secs[j] with
          | none => rfl
          | some v =>
            simp only []
            exact GoMap.get_set_ne rels j i v (fun h => hij h.symm)
        rw [hold, hinv i]
        by_cases hlt : i < j
        · rw [if_pos hlt, if_pos (by omega)]
        · rw [if_neg hlt, if_neg (by omega)]
    obtain ⟨rels2, hrun, hfin⟩ := ih (j + 1) _ (by omega) hinv2
    refine ⟨rels2, ?_, ?_⟩
    · unfold relLoop
      rw [hstep]
      exact hrun
    · intro i
      rw [hfin i]
      have : j + 1 + left = j + (left + 1) := by omega
      rw [this]

/-- The map `getRelocations` builds on a section table whose relocation sections lie
inside the file: under every section index, the entry of the section. -/
theorem getRelocations_map (w : Width) (elfFs : elfFile) (secs : List Section)
    (o : ByteOrder)
    (hs : elfFs.ElfSections.Section = w.sections secs)
    (ho : elfFs.FileHdr.Endianness = some o)
    (hlen : secs.length < 2 ^ 32)
    (hread : ∀ sec ∈ secs, sec.Size < w.fieldBound ∧
      (sec.Typ = SHT_REL →
        sec.Off + sec.Size / w.relSize * w.relSize ≤ elfFs.Fh.length ∧
          sec.Off + sec.Size < 2 ^ 62) ∧
      (sec.Typ = SHT_RELA →
        sec.Off + sec.Size / w.relaSize * w.relaSize ≤ elfFs.Fh.length ∧
          sec.Off + sec.Size < 2 ^ 62)) :
    ∃ rels, getRelocations elfFs = .ok { elfFs with Rels := rels } ∧
      ∀ i, rels.get i = (secs[i]?).bind (w.relsEntry elfFs.Fh o) := by
  obtain ⟨rels, hrun, hfin⟩ := relLoop_ok w elfFs secs o ho hread secs.length 0 []
    (by omega) (fun i => by rw [if_neg (Nat.not_lt_zero _)]; rfl)
  refine ⟨rels, ?_, ?_⟩
  · unfold getRelocations
    cases w with
    | W32 =>
      have hs2 : elfFs.ElfSections.Section = .Section32 secs := hs
      have hrun2 : relLoop (relStep32 elfFs secs) secs.length 0 [] = .ok rels := hrun
      simp only [hs2, u32_of_lt hlen, hrun2]
    | W64 =>
      have hs2 : elfFs.ElfSections.Section = .Section64 secs := hs
      have hrun2 : relLoop (relStep64 elfFs secs) secs.length 0 [] = .ok rels := hrun
      simp only [hs2, u32_of_lt hlen, hrun2]
  · intro i
    rw [hfin i]
    by_cases hi : i < 0 + secs.length
    · rw [if_pos hi]
    · rw [if_neg hi, List.getElem?_eq_none (by omega)]
      rfl

theorem Width.relVal_ne_relaVal (w : Width) (l : List Rel) (l2 : List Rela) :
    w.relVal l ≠ w.relaVal l2 := by
  cases w <;> simp [Width.relVal, Width.relaVal]

/-- C12. On a section table of either width all of whose sections of type REL and RELA
have their `size / E` records inside the file (with a byte order set, section sizes that
fit the field of the width, and offset plus size below `2 ^ 62`), `getRelocations`
returns, and the relocation map has an entry under index `i` exactly when section `i`
exists and has type REL or RELA; the entry is a slice of records without addend exactly
when the type is REL and a slice of records with addend exactly when it is RELA; and it
holds `size / E` records, those decoded from the file at the offset of the section,
where `E` is 8 (REL) or 12 (RELA) for the 32-bit width and 16 or 24 for the 64-bit
width. -/
theorem getRelocations_entries (w : Width) (elfFs : elfFile) (secs : List Section)
    (o : ByteOrder)
    (hs : elfFs.ElfSections.Section = w.sections secs)
    (ho : elfFs.FileHdr.Endianness = some o)
    (hlen : secs.length < 2 ^ 32)
    (hread : ∀ sec ∈ secs, sec.Size < w.fieldBound ∧
      (sec.Typ = SHT_REL →
        sec.Off + sec.Size / w.relSize * w.relSize ≤ elfFs.Fh.length ∧
          sec.Off + sec.Size < 2 ^ 62) ∧
      (sec.Typ = SHT_RELA →
        sec.Off + sec.Size / w.relaSize * w.relaSize ≤ elfFs.Fh.length ∧
          sec.Off + sec.Size < 2 ^ 62)) :
    ∃ e1, getRelocations elfFs = .ok e1 ∧
      (∀ i,
        ((∃ v, e1.Rels.get i = some v) ↔
          ∃ sec, secs[i]? = some sec ∧ (sec.Typ = SHT_REL ∨ sec.Typ = SHT_RELA)) ∧
        ((∃ l, e1.Rels.get i = some (w.relVal l)) ↔
          ∃ sec, secs[i]? = some sec ∧ sec.Typ = SHT_REL) ∧
        ((∃ l, e1.Rels.get i = some (w.relaVal l)) ↔
          ∃ sec, secs[i]? = some sec ∧ sec.Typ = SHT_RELA) ∧
        (∀ sec, secs[i]? = some sec → sec.Typ = SHT_REL →
          ∃ l, e1.Rels.get i = some (w.relVal l) ∧ l.length = sec.Size / w.relSize ∧
            l = recordsAt (w.decodeRel o) elfFs.Fh sec.Off w.relSize
              (sec.Size / w.relSize)) ∧
        (∀ sec, secs[i]? = some sec → sec.Typ = SHT_RELA →
          ∃ l, e1.Rels.get i = some (w.relaVal l) ∧ l.length = sec.Size / w.relaSize ∧
            l = recordsAt (w.decodeRela o) elfFs.Fh sec.Off w.relaSize
              (sec.Size / w.relaSize))) ∧
      w.relSize = (match w with | .W32 => 8 | .W64 => 16) ∧
      w.relaSize = (match w with | .W32 => 12 | .W64 => 24) := by
  obtain ⟨rels, hrun, hget⟩ := getRelocations_map w elfFs secs o hs ho hlen hread
  have hne : SHT_RELA ≠ SHT_REL := by decide
  refine ⟨_, hrun, ?_, by cases w <;> rfl, by cases w <;> rfl⟩
  intro i
  show ((∃ v, rels.get i = some v) ↔ _) ∧ ((∃ l, rels.get i = some (w.relVal l)) ↔ _) ∧
    ((∃ l, rels.get i = some (w.relaVal l)) ↔ _) ∧
    (∀ sec, secs[i]? = some sec → sec.Typ = SHT_REL →
      ∃ l, rels.get i = some (w.relVal l) ∧ _) ∧
    (∀ sec, secs[i]? = some sec → sec.Typ = SHT_RELA →
      ∃ l, rels.get i = some (w.relaVal l) ∧ _)
  rw [hget i]
  cases hsec : secs[i]? with
  | none =>
    simp only [Option.none_bind]
    refine ⟨⟨fun ⟨_, h⟩ => Option.noConfusion h, fun ⟨_, h, _⟩ => Option.noConfusion h⟩,
      ⟨fun ⟨_, h⟩ => Option.noConfusion h, fun ⟨_, h, _⟩ => Option.noConfusion h⟩,
      ⟨fun ⟨_, h⟩ => Option.noConfusion h, fun ⟨_, h, _⟩ => Option.noConfusion h⟩,
      fun _ h => Option.noConfusion h, fun _ h => Option.noConfusion h⟩
  | some sec =>
    simp only [Option.some_bind]
    by_cases h1 : sec.Typ = SHT_REL
    · have hE : w.relsEntry elfFs.Fh o sec = some (w.relVal
          (recordsAt (w.decodeRel o) elfFs.Fh sec.Off w.relSize (sec.Size / w.relSize))) := by
        unfold Width.relsEntry
        rw [if_pos h1]
      rw [hE]
      refine ⟨⟨fun _ => ⟨sec, rfl, Or.inl h1⟩, fun _ => ⟨_, rfl⟩⟩,
        ⟨fun _ => ⟨sec, rfl, h1⟩, fun _ => ⟨_, rfl⟩⟩,
        ⟨fun ⟨l, h⟩ => absurd (Option.some.inj h) (w.relVal_ne_relaVal _ l),
          fun ⟨s2, h, ht⟩ => by
            rw [← Option.some.inj h, h1] at ht
            exact absurd ht.symm hne⟩,
        fun s2 h _ => by
          rw [← Option.some.inj h]
          exact ⟨_, rfl, recordsAt_length _ _ _ _ _, rfl⟩,
        fun s2 h ht => by
          rw [← Option.some.inj h, h1] at ht
          exact absurd ht.symm hne⟩
    · by_cases h2 : sec.Typ = SHT_RELA
      · have hE : w.relsEntry elfFs.Fh o sec = some (w.relaVal
            (recordsAt (w.decodeRela o) elfFs.Fh sec.Off w.relaSize
              (sec.Size / w.relaSize))) := by
          unfold Width.relsEntry
          rw [if_neg h1, if_pos h2]
        rw [hE]
        refine ⟨⟨fun _ => ⟨sec, rfl, Or.inr h2⟩, fun _ => ⟨_, rfl⟩⟩,
          ⟨fun ⟨l, h⟩ => absurd (Option.some.inj h).symm (w.relVal_ne_relaVal l _),
            fun ⟨s2, h, ht⟩ => by
              rw [← Option.some.inj h] at ht
              exact absurd ht h1⟩,
          ⟨fun _ => ⟨sec, rfl, h2⟩, fun _ => ⟨_, rfl⟩⟩,
          fun s2 h ht => by
            rw [← Option.some.inj h] at ht
            exact absurd ht h1,
          fun s2 h _ => by
            rw [← Option.some.inj h]
            exact ⟨_, rfl, recordsAt_length _ _ _ _ _, rfl⟩⟩
      · have hE : w.relsEntry elfFs.Fh o sec = none := by
          unfold Width.relsEntry
          rw [if_neg h1, if_neg h2]
        rw [hE]
        refine ⟨⟨fun ⟨_, h⟩ => Option.noConfusion h, fun ⟨s2, h, ht⟩ => by
              rw [← Option.some.inj h] at ht
              rcases ht with ht | ht
              · exact absurd ht h1
              · exact absurd ht h2⟩,
          ⟨fun ⟨_, h⟩ => Option.noConfusion h, fun ⟨s2, h, ht⟩ => by
              rw [← Option.some.inj h] at ht
              exact absurd ht h1⟩,
          ⟨fun ⟨_, h⟩ => Option.noConfusion h, fun ⟨s2, h, ht⟩ => by
              rw [← Option.some.inj h] at ht
              exact absurd ht h2⟩,
          fun s2 h ht => by
            rw [← Option.some.inj h] at ht
            exact absurd ht h1,
          fun s2 h ht => by
            rw [← Option.some.inj h] at ht
            exact absurd ht h2⟩

/-- C12 (witness): the statement at the fixture file, whose section 3 (`.rela.dyn`, 48
bytes at offset 145) is its only relocation section. -/
theorem getRelocations_entries_witness :
    ∃ e1, getRelocations dynLoaded = .ok e1 ∧
      (∀ i,
        ((∃ v, e1.Rels.get i = some v) ↔
          ∃ sec, dynSections[i]? = some sec ∧ (sec.Typ = SHT_REL ∨ sec.Typ = SHT_RELA)) ∧
        ((∃ l, e1.Rels.get i = some (Width.W64.relVal l)) ↔
          ∃ sec, dynSections[i]? = some sec ∧ sec.Typ = SHT_REL) ∧
        ((∃ l, e1.Rels.get i = some (Width.W64.relaVal l)) ↔
          ∃ sec, dynSections[i]? = some sec ∧ sec.Typ = SHT_RELA) ∧
        (∀ sec, dynSections[i]? = some sec → sec.Typ = SHT_REL →
          ∃ l, e1.Rels.get i = some (Width.W64.relVal l) ∧
            l.length = sec.Size / Width.W64.relSize ∧
            l = recordsAt (Width.W64.decodeRel .LittleEndian) dynLoaded.Fh sec.Off
              Width.W64.relSize (sec.Size / Width.W64.relSize)) ∧
        (∀ sec, dynSections[i]? = some sec → sec.Typ = SHT_RELA →
          ∃ l, e1.Rels.get i = some (Width.W64.relaVal l) ∧
            l.length = sec.Size / Width.W64.relaSize ∧
            l = recordsAt (Width.W64.decodeRela .LittleEndian) dynLoaded.Fh sec.Off
              Width.W64.relaSize (sec.Size / Width.W64.relaSize))) ∧
      Width.W64.relSize = 16 ∧ Width.W64.relaSize = 24 :=
  getRelocations_entries .W64 dynLoaded dynSections .LittleEndian rfl rfl (by decide)
    (by decide)

/-- The relocation map of the fixture file: one entry, under index 3, of two records
with addend. -/
theorem getRelocations_dynLoaded :
    getRelocations dynLoaded =
      .ok { dynLoaded with
            Rels := [(3, .Rela64 [ { Off := 0x3000, Info := 0x100000007, Addend := 0 },
                                   { Off := 0x3008, Info := 0x200000007, Addend := 0 } ])] } := by
  decide


/-! ## Fuel of the section lookup -/

theorem error_ne_fuel {α β : Type} {e : Failure}
    (h : (Except.error e : Except Failure α) ≠ .error .outOfFuel) :
    (Except.error e : Except Failure β) ≠ .error .outOfFuel :=
  fun h2 => h (by cases h2; rfl)

theorem ndxLoop_fuel (name : GoString) (names : List GoString) (limit : Nat)
    (hlim32 : limit < 2 ^ 32) :
    ∀ (fuel ndx : Nat), limit - ndx < fuel →
      ndxLoop name names limit fuel ndx ≠ .error .outOfFuel := by
  intro fuel
  induction fuel with
  | zero => intro ndx h; omega
  | succ fuel ih =>
    intro ndx hfuel
    unfold ndxLoop
    by_cases hlt : ndx < limit
    · rw [if_pos hlt]
      cases hg : goIndex names ndx with
      | error e =>
        simp only []
        exact error_ne_fuel (by rw [← hg]; exact goIndex_ne_fuel names ndx)
      | ok nm =>
        simp only []
        by_cases hn : nm = name
        · rw [if_pos hn]; exact fun h => Except.noConfusion h
        · rw [if_neg hn, u32_of_lt (by omega)]
          exact ih (ndx + 1) (by omega)
    · rw [if_neg hlt]; exact fun h => Except.noConfusion h

/-- The lookup of a section name has fuel for every section table. -/
theorem getSectionNdx_fuel (name : GoString) (elfFs : elfFile) :
    getSectionNdx name elfFs ≠ .error .outOfFuel := by
  unfold getSectionNdx
  exact ndxLoop_fuel name _ _ (u32_lt _) _ 0
    (Nat.lt_succ_of_le (le_trans (Nat.sub_le _ _) (u32_le _)))

theorem mapExcept_ne_fuel {α β : Type} (g : α → Except Failure β)
    (hg : ∀ a, g a ≠ .error .outOfFuel) :
    ∀ (l : List α), mapExcept g l ≠ .error .outOfFuel := by
  intro l
  induction l with
  | nil => exact fun h => Except.noConfusion h
  | cons a as ih =>
    unfold mapExcept
    cases ha : g a with
    | error e =>
      simp only []
      exact error_ne_fuel (by rw [← ha]; exact hg a)
    | ok b =>
      simp only []
      cases hr : mapExcept g as with
      | error e =>
        simp only []
        rw [hr] at ih
        exact ih
      | ok bs => exact fun h => Except.noConfusion h

theorem symRows_ne_fuel (w : Width) (syms : GoMap SymVal) (names : GoMap GoString) :
    symRows w.symRow syms names ≠ .error .outOfFuel := by
  unfold symRows
  split
  · apply mapExcept_ne_fuel
    intro i
    cases w with
    | W32 =>
      show symRow32 syms names i ≠ _
      unfold symRow32
      cases hs : syms.get i with
      | none => simp [asSym32]
      | some v => cases v <;> simp [asSym32]
    | W64 =>
      show symRow64 syms names i ≠ _
      unfold symRow64
      cases hs : syms.get i with
      | none => simp [asSym64]
      | some v => cases v <;> simp [asSym64]
  · exact fun h => Except.noConfusion h

theorem printSymbols_ne_fuel (elfFs : elfFile) : printSymbols elfFs ≠ .error .outOfFuel := by
  unfold printSymbols
  split
  · have h1 := symRows_ne_fuel .W32 elfFs.DynSymbols elfFs.DynSymbolsName
    have h2 := symRows_ne_fuel .W32 elfFs.Symbols elfFs.SymbolsName
    cases hd : symRows symRow32 elfFs.DynSymbols elfFs.DynSymbolsName with
    | error e =>
      simp only []
      exact error_ne_fuel (by rw [← hd]; exact h1)
    | ok d =>
      simp only []
      cases hr : symRows symRow32 elfFs.Symbols elfFs.SymbolsName with
      | error e =>
      simp only []
      exact error_ne_fuel (by rw [← hr]; exact h2)
      | ok r => exact fun h => Except.noConfusion h
  · split
    · have h1 := symRows_ne_fuel .W64 elfFs.DynSymbols elfFs.DynSymbolsName
      have h2 := symRows_ne_fuel .W64 elfFs.Symbols elfFs.SymbolsName
      cases hd : symRows symRow64 elfFs.DynSymbols elfFs.DynSymbolsName with
      | error e =>
      simp only []
      exact error_ne_fuel (by rw [← hd]; exact h1)
      | ok d =>
        simp only []
        cases hr : symRows symRow64 elfFs.Symbols elfFs.SymbolsName with
        | error e =>
      simp only []
      exact error_ne_fuel (by rw [← hr]; exact h2)
        | ok r => exact fun h => Except.noConfusion h
    · exact fun h => Except.noConfusion h

theorem loadNamed_ne_fuel (elfFs : elfFile) (tabName strName : GoString) (symType : Nat) :
    loadNamed elfFs tabName strName symType ≠ .error .outOfFuel := by
  unfold loadNamed
  cases h1 : getSectionNdx tabName elfFs with
  | error e =>
      simp only []
      exact error_ne_fuel (by rw [← h1]; exact getSectionNdx_fuel tabName elfFs)
  | ok ndx =>
    simp only []
    split
    · cases h2 : getSectionNdx strName elfFs with
      | error e =>
      simp only []
      exact error_ne_fuel (by rw [← h2]; exact getSectionNdx_fuel strName elfFs)
      | ok strNdx =>
        simp only []
        cases h3 : loadSymbols elfFs ndx strNdx symType with
        | error e =>
      simp only []
      exact error_ne_fuel (by rw [← h3]; exact loadSymbols_fuel elfFs ndx strNdx symType)
        | ok e1 =>
          simp only []
          cases h4 : printSymbols e1 with
          | error e =>
      simp only []
      exact error_ne_fuel (by rw [← h4]; exact printSymbols_ne_fuel e1)
          | ok rows => exact fun h => Except.noConfusion h
    · exact fun h => Except.noConfusion h

/-- The method `getSymbols` never stops for lack of fuel: each of its failures is a
panic or an exit of the program. -/
theorem getSymbols_ne_fuel (elfFs : elfFile) : getSymbols elfFs ≠ .error .outOfFuel := by
  unfold getSymbols
  cases h1 : loadNamed elfFs (str ".dynsym") (str ".dynstr") dynSym with
  | error e =>
      simp only []
      exact error_ne_fuel (by rw [← h1]; exact loadNamed_ne_fuel elfFs _ _ _)
  | ok e1 => exact loadNamed_ne_fuel e1 _ _ _


/-! ## The stages of `main` -/

theorem Run.calls_of_error (r : Run) (e : Failure) (h : r.result = .error e) :
    ∀ l, r.calls l = r := by
  intro l
  induction l with
  | nil => rfl
  | cons c cs ih =>
    have hc : r.call c = r := by
      unfold Run.call
      rw [h]
    show Run.calls (r.call c) cs = r
    rw [hc]
    exact ih

/-- The stages called by a sequence of calls are an initial part of the sequence, and
the whole sequence when the run does not end in a failure. -/
theorem Run.calls_trace :
    ∀ (l : List (Stage × (elfFile → Except Failure elfFile))) (r : Run),
      ∃ k, k ≤ l.length ∧ (r.calls l).trace = r.trace ++ (l.map Prod.fst).take k ∧
        (∀ e0 e1, r.result = .ok e0 → (r.calls l).result = .ok e1 → k = l.length) := by
  intro l
  induction l with
  | nil =>
    intro r
    exact ⟨0, Nat.le_refl _, by simp [Run.calls], fun _ _ _ _ => rfl⟩
  | cons c cs ih =>
    intro r
    cases hr : r.result with
    | error e =>
      refine ⟨0, Nat.zero_le _, ?_, fun e0 _ h0 _ => ?_⟩
      · rw [Run.calls_of_error r e hr]; simp
      · exact Except.noConfusion h0
    | ok e =>
      obtain ⟨k, hk, htr, hfin⟩ := ih (r.call c)
      have hcall : r.call c = { trace := r.trace ++ [c.1], result := c.2 e } := by
        unfold Run.call
        rw [hr]
      refine ⟨k + 1, by simp only [List.length_cons]; omega, ?_, fun e0 e1 _ h1 => ?_⟩
      · show (Run.calls (r.call c) cs).trace = _
        rw [htr, hcall]
        simp [List.take_succ_cons]
      · have h1b : (Run.calls (r.call c) cs).result = .ok e1 := h1
        cases hc : (r.call c).result with
        | error e2 =>
          rw [Run.calls_of_error (r.call c) e2 hc cs, hc] at h1b
          exact Except.noConfusion h1b
        | ok e2 =>
          have := hfin e2 e1 hc h1b
          simp only [List.length_cons]
          omega

theorem stages_names (T : RelocTables) (o : Flags) :
    (stages T o).map Prod.fst = schedule o := by
  obtain ⟨a, b, c, d, e⟩ := o
  cases a <;> cases b <;> cases c <;> cases d <;> cases e <;> simp [stages, schedule]

/-- The stages `main` calls are an initial part of the schedule of its options, the
whole schedule when the run does not end in a failure, and none when the run fails
before the options are read. -/
theorem main_trace (T : RelocTables) (args : List GoString)
    (fs : GoString → Option (List Byte)) :
    (∀ e, startup args fs = .error e → (main T args fs).trace = []) ∧
    (∀ target o, startup args fs = .ok (target, o) →
      (∃ k, (main T args fs).trace = (schedule o).take k) ∧
      (∀ e1, (main T args fs).result = .ok e1 → (main T args fs).trace = schedule o)) := by
  constructor
  · intro e h
    unfold main
    rw [h]
  · intro target o h
    have hm : main T args fs = Run.calls { trace := [], result := .ok target } (stages T o) := by
      unfold main
      rw [h]
    obtain ⟨k, hk, htr, hfin⟩ := Run.calls_trace (stages T o) { trace := [], result := .ok target }
    rw [stages_names] at htr
    constructor
    · exact ⟨k, by rw [hm, htr]; rfl⟩
    · intro e1 h1
      rw [hm] at h1 ⊢
      have hkl := hfin target e1 rfl h1
      have hlen : (schedule o).length = (stages T o).length := by
        rw [← stages_names T o, List.length_map]
      rw [htr, hkl, ← hlen, List.take_length]
      rfl

theorem parseLoop_ok :
    ∀ (cs : List Byte) (o : Flags), (∀ c ∈ cs, c ∈ [(104 : Byte), 83, 115, 114, 116]) →
      parseLoop cs o = .ok
        { optHeader := o.optHeader || decide ((104 : Byte) ∈ cs),
          optSections := o.optSections || decide ((83 : Byte) ∈ cs),
          optSymbols := o.optSymbols || decide ((115 : Byte) ∈ cs),
          optRelocations := o.optRelocations || decide ((114 : Byte) ∈ cs),
          optTest := o.optTest || decide ((116 : Byte) ∈ cs) } := by
  intro cs
  induction cs with
  | nil => intro o _; simp [parseLoop]
  | cons c cs ih =>
    intro o h
    have hc := h c (List.mem_cons_self _ _)
    have ht := ih
    simp only [List.mem_cons, List.mem_singleton, List.not_mem_nil, or_false] at hc
    have hrest : ∀ x ∈ cs, x ∈ [(104 : Byte), 83, 115, 114, 116] :=
      fun x hx => h x (List.mem_cons_of_mem _ hx)
    rcases hc with hc | hc | hc | hc | hc <;> subst hc <;>
      simp [parseLoop, ih _ hrest, Bool.or_assoc]

/-- The option handling on a string made of `-` followed by characters of `h`, `S`, `s`,
`r`, `t`: it returns, and every option variable tells whether its letter occurs. -/
theorem parseOptions_ok (cs : List Byte)
    (h : ∀ c ∈ cs, c ∈ [(104 : Byte), 83, 115, 114, 116]) :
    parseOptions ((45 : Byte) :: cs) = .ok
      { optHeader := decide ((104 : Byte) ∈ cs), optSections := decide ((83 : Byte) ∈ cs),
        optSymbols := decide ((115 : Byte) ∈ cs),
        optRelocations := decide ((114 : Byte) ∈ cs),
        optTest := decide ((116 : Byte) ∈ cs) } := by
  unfold parseOptions
  have h0 : goIndex ((45 : Byte) :: cs) 0 = .ok 45 := by simp [goIndex]
  rw [h0]
  simp only [ne_eq, not_true_eq_false, if_false, List.drop_succ_cons, List.drop_zero]
  rw [parseLoop_ok cs _ h]
  simp

/-- The schedule of `main` for the 32 settings of its option variables: symbol loading is
called once when `s` or `r` is set and relocation loading once when `r` is set, each
after the stages it depends on; section loading is called first of the three, once,
except that it is called twice when `s` and `r` are set and `S` is not. -/
theorem schedule_order (h S s r t : Bool) :
    (schedule ⟨h, S, s, r, t⟩).count .getSymbols = (if s || r then 1 else 0) ∧
    (schedule ⟨h, S, s, r, t⟩).count .getRelocations = (if r then 1 else 0) ∧
    (schedule ⟨h, S, s, r, t⟩).count .getSections =
      (if !S && s && r then 2 else if S || s || r then 1 else 0) ∧
    (s || r → (schedule ⟨h, S, s, r, t⟩).indexOf .getSections <
      (schedule ⟨h, S, s, r, t⟩).indexOf .getSymbols) ∧
    (r → (schedule ⟨h, S, s, r, t⟩).indexOf .getSymbols <
      (schedule ⟨h, S, s, r, t⟩).indexOf .getRelocations) := by
  cases h <;> cases S <;> cases s <;> cases r <;> cases t <;> decide

/-- C21. With the options `-sr` on the fixture file the run does not end in a failure
and `main` calls the section loading twice: once in the block of `s`, before the symbol
loading, and once more in the block of `r`, after it, because that block tests only
`optSections`. The same holds for every setting of `h` and `t`; with `-Ssr` and with
`-r` the section loading is called once. -/
theorem main_sr_loads_sections_twice :
    parseOptions (str "-sr") =
        .ok { optHeader := false, optSections := false, optSymbols := true,
              optRelocations := true, optTest := false } ∧
      (main exampleTables [str "go-readelf", str "-sr", str "a.out"] dynFs).trace =
        [.getSections, .getSymbols, .getSections, .getRelocations, .printRelocations] ∧
      (main exampleTables [str "go-readelf", str "-sr", str "a.out"] dynFs).result =
        .ok { dynLoaded with
              Rels := [(3, .Rela64 [ { Off := 0x3000, Info := 0x100000007, Addend := 0 },
                                     { Off := 0x3008, Info := 0x200000007, Addend := 0 } ])] } ∧
      (∀ h t : Bool, (schedule ⟨h, false, true, true, t⟩).count .getSections = 2) ∧
      (main exampleTables [str "go-readelf", str "-Ssr", str "a.out"] dynFs).trace =
        [.getSections, .printSections, .getSymbols, .getRelocations, .printRelocations] ∧
      (main exampleTables [str "go-readelf", str "-r", str "a.out"] dynFs).trace =
        [.getSections, .getSymbols, .getRelocations, .printRelocations] := by
  refine ⟨by decide, by decide, by decide, by decide, by decide, by decide⟩


/-! ## Independence of the two symbol tables and the section lookup -/

/-- C22. A call of `loadSymbols` that returns leaves every field of the state as it was
except the two maps of its kind: for the dynamic kind the regular symbol map, the
regular name map and the section table are unchanged, and the state returned is the
state before with the dynamic symbol map and the dynamic name map replaced; for the
regular kind the same holds with the two kinds exchanged. -/
theorem loadSymbols_tables_independent (elfFs e1 : elfFile)
    (sectionNdx symstrNdx symType : Nat) (hkind : symType = sym ∨ symType = dynSym)
    (h : loadSymbols elfFs sectionNdx symstrNdx symType = .ok e1) :
    (symType = dynSym →
      e1.Symbols = elfFs.Symbols ∧ e1.SymbolsName = elfFs.SymbolsName ∧
        e1.ElfSections = elfFs.ElfSections ∧
        e1 = { elfFs with DynSymbols := e1.DynSymbols,
                          DynSymbolsName := e1.DynSymbolsName }) ∧
    (symType = sym →
      e1.DynSymbols = elfFs.DynSymbols ∧ e1.DynSymbolsName = elfFs.DynSymbolsName ∧
        e1.ElfSections = elfFs.ElfSections ∧
        e1 = { elfFs with Symbols := e1.Symbols, SymbolsName := e1.SymbolsName }) := by
  have hne : ¬ sym = dynSym := by decide
  rcases loadSymbols_frame elfFs e1 sectionNdx symstrNdx symType hkind h with he | ⟨S, N, he⟩
  · subst he
    exact ⟨fun _ => ⟨rfl, rfl, rfl, rfl⟩, fun _ => ⟨rfl, rfl, rfl, rfl⟩⟩
  · constructor
    · intro hd
      subst hd
      rw [withTable_dynSym] at he
      subst he
      exact ⟨rfl, rfl, rfl, rfl⟩
    · intro hs
      subst hs
      have hw : withTable elfFs sym S N = { elfFs with Symbols := S, SymbolsName := N } := by
        unfold withTable
        rw [if_neg hne]
      rw [hw] at he
      subst he
      exact ⟨rfl, rfl, rfl, rfl⟩

/-- C22 (witness): the load of the dynamic table of the fixture file. -/
theorem loadSymbols_tables_independent_witness :
    (dynSym = dynSym →
      dynLoaded.Symbols = dynState.Symbols ∧ dynLoaded.SymbolsName = dynState.SymbolsName ∧
        dynLoaded.ElfSections = dynState.ElfSections ∧
        dynLoaded = { dynState with DynSymbols := dynLoaded.DynSymbols,
                                    DynSymbolsName := dynLoaded.DynSymbolsName }) ∧
    (dynSym = sym →
      dynLoaded.DynSymbols = dynState.DynSymbols ∧
        dynLoaded.DynSymbolsName = dynState.DynSymbolsName ∧
        dynLoaded.ElfSections = dynState.ElfSections ∧
        dynLoaded = { dynState with Symbols := dynLoaded.Symbols,
                                    SymbolsName := dynLoaded.SymbolsName }) :=
  loadSymbols_tables_independent dynState dynLoaded 1 2 dynSym (Or.inr rfl)
    loadSymbols_dynState

theorem getSectionNdx_congr (name : GoString) (e e1 : elfFile)
    (h : e1.ElfSections = e.ElfSections) :
    getSectionNdx name e1 = getSectionNdx name e := by
  unfold getSectionNdx
  rw [h]

/-- The lookup of a section name returns for every table of fewer than `2 ^ 32`
sections. -/
theorem getSectionNdx_total (name : GoString) (elfFs : elfFile)
    (hlen : elfFs.ElfSections.SectionName.length < 2 ^ 32) :
    ∃ n, getSectionNdx name elfFs = .ok n := by
  classical
  by_cases hex : ∃ d : Nat, elfFs.ElfSections.SectionName[d]? = some name
  · refine ⟨Nat.find hex, getSectionNdx_first name elfFs _ hlen (Nat.find_spec hex) ?_⟩
    intro i hi
    exact Nat.find_min hex hi
  · refine ⟨0, getSectionNdx_absent name elfFs ?_⟩
    intro nm hnm hc
    obtain ⟨d, hd⟩ := List.getElem?_of_mem hnm
    exact hex ⟨d, by rw [hd, hc]⟩

/-- A section named `.dynsym` at index 0: the first block of `getSymbols` loads
nothing. -/
theorem getSymbols_dynsym_at_zero (elfFs : elfFile)
    (hlen : elfFs.ElfSections.SectionName.length < 2 ^ 32)
    (h0 : elfFs.ElfSections.SectionName[0]? = some (str ".dynsym")) :
    getSymbols elfFs = loadNamed elfFs (str ".symtab") (str ".strtab") sym := by
  have hndx := getSectionNdx_first (str ".dynsym") elfFs 0 hlen h0
    (fun i hi => absurd hi (Nat.not_lt_zero i))
  have hblock : loadNamed elfFs (str ".dynsym") (str ".dynstr") dynSym = .ok elfFs := by
    unfold loadNamed
    rw [hndx]
    rfl
  unfold getSymbols
  rw [hblock]

/-- A section named `.symtab` at index 0: the second block of `getSymbols` loads
nothing. -/
theorem getSymbols_symtab_at_zero (elfFs : elfFile)
    (hlen : elfFs.ElfSections.SectionName.length < 2 ^ 32)
    (h0 : elfFs.ElfSections.SectionName[0]? = some (str ".symtab")) :
    getSymbols elfFs = loadNamed elfFs (str ".dynsym") (str ".dynstr") dynSym := by
  have hndx := getSectionNdx_first (str ".symtab") elfFs 0 hlen h0
    (fun i hi => absurd hi (Nat.not_lt_zero i))
  unfold getSymbols
  cases h1 : loadNamed elfFs (str ".dynsym") (str ".dynstr") dynSym with
  | error e => rfl
  | ok e1 =>
    obtain ⟨hsec, _, _⟩ := loadNamed_dynSym_frame elfFs e1 _ _ h1
    show loadNamed e1 (str ".symtab") (str ".strtab") sym = .ok e1
    unfold loadNamed
    rw [getSectionNdx_congr (str ".symtab") elfFs e1 hsec, hndx]
    rfl

/-- C23. For every list of resolved section names (of fewer than `2 ^ 32` entries, as
every section table has) and every name, `getSectionNdx` returns: the smallest index
whose name equals the name when there is one, and 0 when there is none. The result 0 is
therefore also the result for a match at index 0, and `getSymbols` skips the block of a
`.dynsym` or `.symtab` section located at index 0 as it does for an absent one. -/
theorem getSectionNdx_first_or_zero (name : GoString) (elfFs : elfFile)
    (hlen : elfFs.ElfSections.SectionName.length < 2 ^ 32) :
    (∃ n, getSectionNdx name elfFs = .ok n) ∧
    (∀ d, elfFs.ElfSections.SectionName[d]? = some name →
      (∀ i, i < d → elfFs.ElfSections.SectionName[i]? ≠ some name) →
      getSectionNdx name elfFs = .ok d) ∧
    ((∀ nm ∈ elfFs.ElfSections.SectionName, nm ≠ name) →
      getSectionNdx name elfFs = .ok 0) ∧
    (elfFs.ElfSections.SectionName[0]? = some name → getSectionNdx name elfFs = .ok 0) ∧
    (elfFs.ElfSections.SectionName[0]? = some (str ".dynsym") →
      getSymbols elfFs = loadNamed elfFs (str ".symtab") (str ".strtab") sym) ∧
    (elfFs.ElfSections.SectionName[0]? = some (str ".symtab") →
      getSymbols elfFs = loadNamed elfFs (str ".dynsym") (str ".dynstr") dynSym) := by
  refine ⟨getSectionNdx_total name elfFs hlen,
    fun d hd hfirst => getSectionNdx_first name elfFs d hlen hd hfirst,
    fun habs => getSectionNdx_absent name elfFs habs,
    fun h0 => getSectionNdx_first name elfFs 0 hlen h0
      (fun i hi => absurd hi (Nat.not_lt_zero i)),
    getSymbols_dynsym_at_zero elfFs hlen, getSymbols_symtab_at_zero elfFs hlen⟩

/-- The run of `getSymbols` on a table whose section 0 is named `.dynsym`: the state is
returned as it was, with an empty dynamic table. -/
theorem getSymbols_dynsymAtZeroState :
    getSymbols dynsymAtZeroState = .ok dynsymAtZeroState := by
  decide

/-- C23 (witness): the statement at a table whose section 0 is named `.dynsym`, for that
name. -/
theorem getSectionNdx_first_or_zero_witness :
    dynsymAtZeroState.ElfSections.SectionName.length < 2 ^ 32 ∧
    (∃ n, getSectionNdx (str ".dynsym") dynsymAtZeroState = .ok n) ∧
    (∀ d, dynsymAtZeroState.ElfSections.SectionName[d]? = some (str ".dynsym") →
      (∀ i, i < d → dynsymAtZeroState.ElfSections.SectionName[i]? ≠ some (str ".dynsym")) →
      getSectionNdx (str ".dynsym") dynsymAtZeroState = .ok d) ∧
    ((∀ nm ∈ dynsymAtZeroState.ElfSections.SectionName, nm ≠ str ".dynsym") →
      getSectionNdx (str ".dynsym") dynsymAtZeroState = .ok 0) ∧
    (dynsymAtZeroState.ElfSections.SectionName[0]? = some (str ".dynsym") →
      getSectionNdx (str ".dynsym") dynsymAtZeroState = .ok 0) ∧
    (dynsymAtZeroState.ElfSections.SectionName[0]? = some (str ".dynsym") →
      getSymbols dynsymAtZeroState =
        loadNamed dynsymAtZeroState (str ".symtab") (str ".strtab") sym) ∧
    (dynsymAtZeroState.ElfSections.SectionName[0]? = some (str ".symtab") →
      getSymbols dynsymAtZeroState =
        loadNamed dynsymAtZeroState (str ".dynsym") (str ".dynstr") dynSym) :=
  ⟨by decide, getSectionNdx_first_or_zero (str ".dynsym") dynsymAtZeroState (by decide)⟩


/-! ## The info value of a relocation line -/

theorem R_INFO_eq (s t : Nat) (h : t < 2 ^ 32) : R_INFO s t = s * 2 ^ 32 + t := by
  unfold R_INFO
  rw [Nat.shiftLeft_eq, Nat.mul_comm, ← Nat.mul_add_lt_is_or h]

theorem Width.R_TYPE_lt (w : Width) (info : Nat) : w.R_TYPE info < 2 ^ 32 := by
  cases w
  · show R_TYPE32 info < 2 ^ 32
    have h : R_TYPE32 info = info % 2 ^ 8 := Nat.and_pow_two_sub_one_eq_mod info 8
    rw [h]
    omega
  · exact u32_lt _

/-- The info value of every line `printRelocations` prints is `R_INFO` of the decoded
symbol index and type code. -/
theorem relRow_info (w : Width) (T : RelocTables) (st : elfFile) (secs : List Section)
    (k : Nat) :
    (∀ (r : Rel) (row : RelRow), w.relRow T st secs k r = .ok row →
      row.i = R_INFO (w.R_SYM r.Info) (w.R_TYPE r.Info)) ∧
    (∀ (r : Rela) (row : RelRow), w.relaRow T st secs k r = .ok row →
      row.i = R_INFO (w.R_SYM r.Info) (w.R_TYPE r.Info)) := by
  cases w with
  | W32 =>
    constructor
    · intro r row h
      have h2 : rel32Row T st secs k r = .ok row := h
      simp only [rel32Row, bind, Except.bind, pure, Except.pure] at h2
      cases hl : relocSymbol32 st secs k (R_SYM32 r.Info) with
      | error e => rw [hl] at h2; exact Except.noConfusion h2
      | ok v =>
        rw [hl] at h2
        rw [← Except.ok.inj h2]
        rfl
    · intro r row h
      have h2 : rela32Row T st secs k r = .ok row := h
      simp only [rela32Row, bind, Except.bind, pure, Except.pure] at h2
      cases hl : relocSymbol32 st secs k (R_SYM32 r.Info) with
      | error e => rw [hl] at h2; exact Except.noConfusion h2
      | ok v =>
        rw [hl] at h2
        rw [← Except.ok.inj h2]
        rfl
  | W64 =>
    constructor
    · intro r row h
      have h2 : rel64Row T st secs k r = .ok row := h
      simp only [rel64Row, bind, Except.bind, pure, Except.pure] at h2
      cases hl : relocSymbol64 st secs k (R_SYM64 r.Info) with
      | error e => rw [hl] at h2; exact Except.noConfusion h2
      | ok v =>
        rw [hl] at h2
        rw [← Except.ok.inj h2]
        rfl
    · intro r row h
      have h2 : rela64Row T st secs k r = .ok row := h
      simp only [rela64Row, bind, Except.bind, pure, Except.pure] at h2
      cases hl : relocSymbol64 st secs k (R_SYM64 r.Info) with
      | error e => rw [hl] at h2; exact Except.noConfusion h2
      | ok v =>
        rw [hl] at h2
        rw [← Except.ok.inj h2]
        rfl

theorem R_split_eq (info : Nat) :
    R_SYM32 info = info / 2 ^ 8 ∧ R_TYPE32 info = info % 2 ^ 8 ∧
      R_TYPE64 info = info % 2 ^ 32 ∧ (info < 2 ^ 64 → R_SYM64 info = info / 2 ^ 32) := by
  refine ⟨Nat.shiftRight_eq_div_pow info 8, Nat.and_pow_two_sub_one_eq_mod info 8, rfl, ?_⟩
  intro h
  simp only [R_SYM64, u32, Nat.shiftRight_eq_div_pow]
  apply Nat.mod_eq_of_lt
  omega

/-- C24. The info value of a relocation line of either shape and either width is
recomposed from the decoded symbol index `s` and type code `t` of the entry as
`s * 2 ^ 32 + t`. For a 64-bit entry, whose raw info field is below `2 ^ 64`, this is
the raw info field. For a 32-bit entry the raw info field is `s * 2 ^ 8 + t`, and the
recomposed value equals it exactly when `s = 0`. -/
theorem relocation_info_recomposed (w : Width) (T : RelocTables) (st : elfFile)
    (secs : List Section) (k info : Nat) (hinfo : info < w.fieldBound) :
    (∀ (r : Rel) (row : RelRow), r.Info = info → w.relRow T st secs k r = .ok row →
      row.i = w.R_SYM info * 2 ^ 32 + w.R_TYPE info) ∧
    (∀ (r : Rela) (row : RelRow), r.Info = info → w.relaRow T st secs k r = .ok row →
      row.i = w.R_SYM info * 2 ^ 32 + w.R_TYPE info) ∧
    (w = .W64 → w.R_SYM info * 2 ^ 32 + w.R_TYPE info = info) ∧
    (w = .W32 → w.R_SYM info * 2 ^ 8 + w.R_TYPE info = info ∧
      (w.R_SYM info * 2 ^ 32 + w.R_TYPE info = info ↔ w.R_SYM info = 0)) := by
  obtain ⟨hs32, ht32, ht64, hs64⟩ := R_split_eq info
  refine ⟨?_, ?_, ?_, ?_⟩
  · intro r row hr h
    rw [(relRow_info w T st secs k).1 r row h, hr]
    exact R_INFO_eq _ _ (w.R_TYPE_lt info)
  · intro r row hr h
    rw [(relRow_info w T st secs k).2 r row h, hr]
    exact R_INFO_eq _ _ (w.R_TYPE_lt info)
  · intro hw
    subst hw
    have h64 : info < 2 ^ 64 := hinfo
    show R_SYM64 info * 2 ^ 32 + R_TYPE64 info = info
    rw [hs64 h64, ht64]
    omega
  · intro hw
    subst hw
    show R_SYM32 info * 2 ^ 8 + R_TYPE32 info = info ∧
      (R_SYM32 info * 2 ^ 32 + R_TYPE32 info = info ↔ R_SYM32 info = 0)
    rw [hs32, ht32]
    constructor
    · omega
    · constructor
      · intro h
        omega
      · intro h
        omega

/-- C24 (witness): the statement for the first entry of `.rela.dyn` of the fixture file,
with the line `printRelocations` prints for it. -/
theorem relocation_info_recomposed_witness :
    0x100000007 < Width.W64.fieldBound ∧
    (∃ row, Width.W64.relaRow exampleTables dynLoaded dynSections 3
        { Off := 0x3000, Info := 0x100000007, Addend := 0 } = .ok row ∧
      row.i = 0x100000007) ∧
    (∀ (r : Rel) (row : RelRow), r.Info = 0x100000007 →
      Width.W64.relRow exampleTables dynLoaded dynSections 3 r = .ok row →
      row.i = Width.W64.R_SYM 0x100000007 * 2 ^ 32 + Width.W64.R_TYPE 0x100000007) ∧
    (∀ (r : Rela) (row : RelRow), r.Info = 0x100000007 →
      Width.W64.relaRow exampleTables dynLoaded dynSections 3 r = .ok row →
      row.i = Width.W64.R_SYM 0x100000007 * 2 ^ 32 + Width.W64.R_TYPE 0x100000007) ∧
    (Width.W64 = .W64 →
      Width.W64.R_SYM 0x100000007 * 2 ^ 32 + Width.W64.R_TYPE 0x100000007 = 0x100000007) ∧
    (Width.W64 = .W32 →
      Width.W64.R_SYM 0x100000007 * 2 ^ 8 + Width.W64.R_TYPE 0x100000007 = 0x100000007 ∧
      (Width.W64.R_SYM 0x100000007 * 2 ^ 32 + Width.W64.R_TYPE 0x100000007 = 0x100000007 ↔
        Width.W64.R_SYM 0x100000007 = 0)) :=
  ⟨by decide,
    ⟨{ o := 0x3000, i := 0x100000007, relName := "R_X86_64_JMP_SLOT", symValue := 0x1000,
       symName := str "foo + ", a := some 0 }, by decide, rfl⟩,
    relocation_info_recomposed .W64 exampleTables dynLoaded dynSections 3 0x100000007
      (by decide)⟩

/-- A 32-bit line: for the raw info `0x101` (symbol index 1, type code 1) of an entry
whose section links to `.symtab`, the info value printed is `0x100000001`. -/
theorem rel32Row_info_example :
    rel32Row exampleTables
      { sectionSymbolState with
        Symbols :=
          [ (0, .Sym32 { Name := 0, Value := 0, Size := 0, Info := 0, Other := 0,
                         Shndx := 0 }),
            (1, .Sym32 { Name := 0, Value := 0, Size := 0, Info := 3, Other := 0,
                         Shndx := 1 }) ],
        SymbolsName := [(0, [])] }
      [ { Name := 0, Typ := 9, Flags := 0, Addr := 0, Off := 0, Size := 8, Link := 1,
          Info := 0, Addralign := 4, Entsize := 8 } ] 0 { Off := 0x10, Info := 0x101 } =
      .ok { o := 0x10, i := 0x100000001, relName := "R_386_32", symValue := 0,
            symName := [], a := none } := by
  decide


/-! ## Symbol names from a string pool of `2 ^ 32` bytes -/

theorem bytesAt_append_left (l1 l2 : List Byte) (lo hi : Nat) (h : hi ≤ l1.length) :
    bytesAt (l1 ++ l2) lo hi = bytesAt l1 lo hi := by
  unfold bytesAt
  by_cases hlo : lo ≤ l1.length
  · rw [List.drop_append_of_le_length hlo, List.take_append_of_le_length]
    rw [List.length_drop]
    omega
  · have h0 : hi - lo = 0 := by omega
    rw [h0, List.take_zero, List.take_zero]

theorem recordAt_append_left (l1 l2 : List Byte) (off E i : Nat)
    (h : off + i * E + E ≤ l1.length) :
    recordAt (l1 ++ l2) off E i = recordAt l1 off E i := by
  unfold recordAt
  exact bytesAt_append_left l1 l2 _ _ h

theorem bytesAt_append_right (l1 l2 : List Byte) :
    bytesAt (l1 ++ l2) l1.length (l1.length + l2.length) = l2 := by
  unfold bytesAt
  rw [List.drop_left, Nat.add_sub_cancel_left, List.take_length]

/-- In a pool whose length is a multiple of `2 ^ 32` the scan does not start at any
offset: the name resolved at an offset within the pool is empty. -/
theorem getSectionName_of_u32_length (tab : List Byte) (sIndex : Nat)
    (h : u32 tab.length = 0) (hs : sIndex ≤ tab.length) :
    getSectionName sIndex tab = .ok [] := by
  have hlt : ¬ sIndex < u32 tab.length := by omega
  rw [getSectionName, scanName_stop _ _ _ _ hlt]
  simp [goSlice, hs]

/-- The null-terminated string at offset 1 of a pool that begins with a zero byte and
`abc\0`. -/
theorem cstringAt_one_abc (rest : List Byte) :
    cstringAt ([0, 97, 98, 99, 0] ++ rest) 1 = [97, 98, 99] := by
  simp [cstringAt, List.takeWhile]

/-- The load and the lookup on the file `poolSyms ++ pool` for any pool of `2 ^ 32`
bytes: both symbols are loaded, the pool read with the table is `pool`, and the name
resolved for symbol 1, whose name offset is 1, is empty. -/
theorem relocSymbol_of_u32_pool (pool : List Byte) (hP : pool.length = 2 ^ 32) :
    ∃ e1, loadSymbols (poolState pool) 1 2 dynSym = .ok e1 ∧
      Width.W64.loadStrtab (poolState pool) (poolSections pool) 2 = .ok pool ∧
      e1.DynSymbols.len = 2 ∧
      e1.DynSymbols.get 1 =
        some (.Sym64 { Name := 1, Value := 0x1000, Size := 0, Info := 0x12, Other := 0,
                       Shndx := 5 }) ∧
      relocSymbol64 e1 (poolSections pool) 3 1 = .ok (0x1000, []) := by
  have h48 : poolSyms.length = 48 := rfl
  have hfh : (poolState pool).Fh.length = 48 + 2 ^ 32 := by
    show (poolSyms ++ pool).length = _
    rw [List.length_append, hP, h48]
  have hrec0 : Width.W64.decodeSym .LittleEndian (recordAt poolSyms 0 24 0) =
      { Name := 0, Value := 0, Size := 0, Info := 0, Other := 0, Shndx := 0 } := by decide
  have hrec1 : Width.W64.decodeSym .LittleEndian (recordAt poolSyms 0 24 1) =
      { Name := 1, Value := 0x1000, Size := 0, Info := 0x12, Other := 0, Shndx := 5 } := by
    decide
  have hstrtab : Width.W64.loadStrtab (poolState pool) (poolSections pool) 2 = .ok pool := by
    have h := loadStrtab_ok .W64 (poolState pool) (poolSections pool) 2
      { Name := 9, Typ := 3, Flags := 2, Addr := 0, Off := 48, Size := pool.length, Link := 0,
        Info := 0, Addralign := 1, Entsize := 0 } rfl
      (by show 48 + pool.length ≤ (poolState pool).Fh.length
          rw [hfh, hP])
      (by show 48 + pool.length < 2 ^ 62
          rw [hP]; norm_num)
    rw [h]
    show Except.ok (bytesAt (poolSyms ++ pool) poolSyms.length
      (poolSyms.length + pool.length)) = _
    rw [bytesAt_append_right]
  obtain ⟨S, N, hrun, hSlen, hget⟩ := loadSymbols_table .W64 (poolState pool)
    (poolSections pool) 1 2 dynSym .LittleEndian
    { Name := 1, Typ := 11, Flags := 2, Addr := 0, Off := 0, Size := 48, Link := 2, Info := 1,
      Addralign := 8, Entsize := 24 }
    { Name := 9, Typ := 3, Flags := 2, Addr := 0, Off := 48, Size := pool.length, Link := 0,
      Info := 0, Addralign := 1, Entsize := 0 }
    rfl rfl rfl (Or.inr rfl) rfl rfl
    (by show 0 + 48 / 24 * 24 ≤ (poolState pool).Fh.length
        rw [hfh]; norm_num)
    (by show 0 + 48 < 2 ^ 62
        norm_num)
    (by show 48 + pool.length ≤ (poolState pool).Fh.length
        rw [hfh, hP])
    (by show 48 + pool.length < 2 ^ 62
        rw [hP]; norm_num)
    (by show 48 / 24 < 2 ^ 32
        norm_num)
    (by
      intro i hi
      have hi2 : i < 2 := hi
      show (Width.W64.decodeSym .LittleEndian (recordAt (poolSyms ++ pool) 0 24 i)).Name ≤
        pool.length
      rw [recordAt_append_left poolSyms pool 0 24 i (by rw [h48]; omega), hP]
      interval_cases i
      · rw [hrec0]; norm_num
      · rw [hrec1]; norm_num)
  have hS1 : S.get 1 =
      some (.Sym64 { Name := 1, Value := 0x1000, Size := 0, Info := 0x12, Other := 0,
                     Shndx := 5 }) := by
    rw [hget 1]
    have hlt : 1 < 48 / 24 := by norm_num
    show (if 1 < 48 / 24 then
        some (SymVal.Sym64 (Width.W64.decodeSym .LittleEndian
          (recordAt (poolSyms ++ pool) 0 24 1))) else none) = _
    rw [if_pos hlt, recordAt_append_left poolSyms pool 0 24 1 (by rw [h48]), hrec1]
  have hS2 : S.len = 2 := hSlen
  rw [withTable_dynSym] at hrun
  obtain ⟨secs0, strtab, sy, nm, hs0, hstr, hgetsy, hres, hmain, _, _, _⟩ :=
    relocSymbol_lookup .W64 (poolState pool)
      { poolState pool with DynSymbols := S, DynSymbolsName := N }
      { poolState pool with DynSymbols := S, DynSymbolsName := N }
      (poolSections pool) 1 2 dynSym 3 1
      { Name := 17, Typ := 4, Flags := 2, Addr := 0, Off := 0, Size := 0, Link := 1, Info := 0,
        Addralign := 8, Entsize := 24 }
      rfl (Or.inr rfl) hrun rfl rfl rfl
      (by show ([str "", str ".dynsym", str ".dynstr", str ".rela.dyn"] : List GoString)[1]? =
            some (tableSection dynSym)
          decide)
      (by show 1 < S.len
          rw [hS2]; norm_num)
  have hsecs : poolSections pool = secs0 := SectionsVal.Section64.inj hs0
  rw [← hsecs, hstrtab] at hstr
  have hst : strtab = pool := (Except.ok.inj hstr).symm
  have hsy : sy =
      { Name := 1, Value := 0x1000, Size := 0, Info := 0x12, Other := 0, Shndx := 5 } := by
    have h1 : S.get 1 = some (SymVal.Sym64 sy) := hgetsy
    rw [hS1] at h1
    exact (SymVal.Sym64.inj (Option.some.inj h1)).symm
  have hname : getSymbolName 1 pool = .ok [] :=
    getSectionName_of_u32_length pool 1 (by rw [hP]; rfl) (by rw [hP]; norm_num)
  rw [hsy, hst] at hres
  have hnm : nm = [] := by
    have h2 : getSymbolName 1 pool = .ok nm := hres
    rw [hname] at h2
    exact (Except.ok.inj h2).symm
  rw [hsy, hnm] at hmain
  exact ⟨_, hrun, hstrtab, hS2, hS1, hmain⟩

/-- C2. A 64-bit file with two dynamic symbols and a `.dynstr` section of exactly
`2 ^ 32` bytes that holds the name `abc` at offset 1: the symbols are loaded, and for a
relocation entry of `.rela.dyn` (which links to `.dynsym`) with symbol index 1 the value
resolved is the `Value` field `0x1000` of symbol 1, but the name resolved is empty,
while the null-terminated string at the name offset 1 of the pool loaded with the table
is `abc`: the length of the pool converted to `uint32` is 0 and the scan of the name
does not start. -/
theorem relocSymbol_name_pool_of_4GiB :
    pool4GiB.length = 2 ^ 32 ∧
    (∃ e1, loadSymbols (poolState pool4GiB) 1 2 dynSym = .ok e1 ∧
      Width.W64.loadStrtab (poolState pool4GiB) (poolSections pool4GiB) 2 = .ok pool4GiB ∧
      e1.DynSymbols.len = 2 ∧
      e1.DynSymbols.get 1 =
        some (.Sym64 { Name := 1, Value := 0x1000, Size := 0, Info := 0x12, Other := 0,
                       Shndx := 5 }) ∧
      relocSymbol64 e1 (poolSections pool4GiB) 3 1 = .ok (0x1000, [])) ∧
    cstringAt pool4GiB 1 = [97, 98, 99] := by
  have hlen : pool4GiB.length = 2 ^ 32 := by
    unfold pool4GiB
    rw [List.length_append, List.length_replicate]
    rfl
  exact ⟨hlen, relocSymbol_of_u32_pool pool4GiB hlen, cstringAt_one_abc _⟩

end GoReadelf
